import Mathlib

/-! Tetris AI (`main.cpp`): board model, heuristic evaluator, move planner, game session.

A shallow embedding of the simulation core of `main.cpp`.

* `int` values are `Int` (no overflow is modelled: the quantities involved are cell
  colours, coordinates, counters and a score).
* `vector<vector<int>>` is `List (List Int)`; `wstring` is `List Char`.
* `double` weights are rationals. The evaluator and the planner are embedded twice: in
  exact arithmetic (`evaluateBoard`, `computeBestMove`, scores in `ℚ`, the initial
  `-infinity` is `none`), for the properties stated in exact arithmetic, and in `double`
  arithmetic (`evaluateBoardD`, `computeBestMoveD`, scores in `Dbl`), which the session
  uses.
* Indexing a vector or a string is total here (`List.getD`); the theorems carry the
  shape hypotheses (`HEIGHT` rows of `WIDTH` cells, 16-cell masks) under which every
  access of the source is in bounds.
* `for` loops are folds over the list of the values of the loop variable; a loop left
  by `return`/`break` is a recursion over that list that stops at the same place.
-/

namespace Tetris

/-! ## Constants and data model -/

/-- The constant `const int WIDTH = 10;` (line 14). -/
def WIDTH : Nat := 10

/-- The constant `const int HEIGHT = 20;` (line 15). -/
def HEIGHT : Nat := 20

/-- A `vector<vector<int>>`: a list of rows, row 0 on top; `0` is an empty cell. -/
abbrev Board := List (List Int)

/-- A `wstring` piece mask: 16 characters, row-major 4x4, an `X` marks an occupied cell. -/
abbrev Mask := List Char

/-- The expression `board[y][x]`. -/
def cellAt (board : Board) (y x : Nat) : Int := (board.getD y []).getD x 0

/-- The expression `board[fy][fx]` for `int` indices (used only after the source has checked
`fy >= 0`; the conversion `Int.toNat` is the identity there). -/
def cellAtI (board : Board) (fy fx : Int) : Int := cellAt board fy.toNat fx.toNat

/-- The expression `piece[i] == L'X'`. -/
def occ (piece : Mask) (i : Nat) : Bool := piece.getD i ' ' == 'X'

/-- The values of `v` in `for (int v = lo; v < hi; v++)`. -/
def intRange (lo hi : Int) : List Int :=
  (List.range (hi - lo).toNat).map fun (i : Nat) => lo + (i : Int)

/-- A board of `HEIGHT` rows, each of `WIDTH` cells. -/
def WellFormed (board : Board) : Prop :=
  board.length = HEIGHT ∧ ∀ row ∈ board, row.length = WIDTH

instance (board : Board) : Decidable (WellFormed board) := by
  unfold WellFormed; infer_instance

/-- The value `vector<int>(WIDTH, 0)`: an empty row. -/
def emptyRow : List Int := List.replicate WIDTH 0

/-- The board `field.resize(HEIGHT, vector<int>(WIDTH, 0))` of a new session. -/
def emptyBoard : Board := List.replicate HEIGHT emptyRow

/-! ## Line clearing (`Game::clear_lines` lines 271-284, `simulateDrop` lines 144-153) -/

/-- The inner loop `bool full = true; for x ... if (!row[x]) { full = false; break; }`
on one row: the value of `full` after the loop. -/
def rowFullAux (row : List Int) : List Nat → Bool
  | [] => true
  | x :: xs => if row.getD x 0 == 0 then false else rowFullAux row xs

/-- The value of `full` for row `y` of `board`. -/
def rowFull (board : Board) (y : Nat) : Bool :=
  rowFullAux (board.getD y []) (List.range WIDTH)

/-- One iteration of the `y` loop of `clear_lines`; the state is
`(field, linesClearedThisTurn)`. -/
def clearStep (st : Board × Int) (y : Nat) : Board × Int :=
  if rowFull st.1 y then
    (emptyRow :: st.1.eraseIdx y, st.2 + 1)
  else st

/-- The `y` loop of `clear_lines` (lines 270-284): final field and `linesClearedThisTurn`. -/
def clearLoop (field : Board) : Board × Int :=
  (List.range HEIGHT).foldl clearStep (field, 0)

/-- One iteration of the `y` loop of `simulateDrop` (lines 144-153). -/
def simClearStep (newBoard : Board) (y : Nat) : Board :=
  if rowFull newBoard y then emptyRow :: newBoard.eraseIdx y else newBoard

/-- The `y` loop of `simulateDrop` (lines 144-153). -/
def simClearLoop (newBoard : Board) : Board :=
  (List.range HEIGHT).foldl simClearStep newBoard

/-- The table `switch (linesClearedThisTurn)` of `clear_lines` (lines 288-295). -/
def baseScore (linesClearedThisTurn : Int) : Int :=
  if linesClearedThisTurn = 1 then 40
  else if linesClearedThisTurn = 2 then 100
  else if linesClearedThisTurn = 3 then 300
  else if linesClearedThisTurn = 4 then 1200
  else linesClearedThisTurn * 200

/-- Specification-side notion: every cell of the row is occupied. -/
def occupiedRow (row : List Int) : Bool := row.all fun v => v != 0

/-! ## Heuristic evaluator (lines 29-32, 51-119) -/

/-- The record `struct Agent { vector<double> weights; double fitness; }`. -/
structure Agent where
  weights : List ℚ
  fitness : ℚ
  deriving DecidableEq

/-- The inner `y` loop of `aggregateHeight` (lines 54-60): the value of `colHeight` after
the loop, left at the first occupied cell of column `x`. -/
def colHeightAux (board : Board) (x : Nat) : List Nat → Int
  | [] => 0
  | y :: ys => if cellAt board y x != 0 then (HEIGHT : Int) - y else colHeightAux board x ys

/-- Function `aggregateHeight` (lines 51-64). -/
def aggregateHeight (board : Board) : Int :=
  (List.range WIDTH).foldl
    (fun total x => total + colHeightAux board x (List.range HEIGHT)) 0

/-- One iteration of the inner `y` loop of `countHoles` (lines 70-76); the state is
`(blockFound, holes)`. -/
def holesStep (board : Board) (x : Nat) (st : Bool × Int) (y : Nat) : Bool × Int :=
  if cellAt board y x != 0 then (true, st.2)
  else if st.1 then (st.1, st.2 + 1)
  else st

/-- Function `countHoles` (lines 66-79). -/
def countHoles (board : Board) : Int :=
  (List.range WIDTH).foldl
    (fun holes x => ((List.range HEIGHT).foldl (holesStep board x) (false, holes)).2) 0

/-- The inner `y` loop of `bumpiness` (lines 84-89): the vector `heights` after the loop. -/
def heightsAux (board : Board) (x : Nat) (heights : List Int) : List Nat → List Int
  | [] => heights
  | y :: ys =>
    if cellAt board y x != 0 then heights.set x ((HEIGHT : Int) - y)
    else heightsAux board x heights ys

/-- The first loop of `bumpiness` (lines 82-90): the vector `heights`. -/
def columnHeights (board : Board) : List Int :=
  (List.range WIDTH).foldl
    (fun heights x => heightsAux board x heights (List.range HEIGHT)) (List.replicate WIDTH 0)

/-- Function `bumpiness` (lines 81-96); `abs` of an `int` is `Int.natAbs`. -/
def bumpiness (board : Board) : Int :=
  let heights := columnHeights board
  (List.range (WIDTH - 1)).foldl
    (fun bump x => bump + ((heights.getD x 0 - heights.getD (x + 1) 0).natAbs : Int)) 0

/-- Function `completeLines` (lines 98-111). -/
def completeLines (board : Board) : Int :=
  (List.range HEIGHT).foldl (fun lines y => if rowFull board y then lines + 1 else lines) 0

/-- Function `evaluateBoard` (lines 113-119) in exact arithmetic, for the properties stated
in exact arithmetic; `evaluateBoardD` is the same function in `double` arithmetic. -/
def evaluateBoard (board : Board) (agent : Agent) : ℚ :=
  let aggHeight := aggregateHeight board
  let holes := countHoles board
  let bump := bumpiness board
  let lines := completeLines board
  agent.weights.getD 0 0 * (lines : ℚ) - agent.weights.getD 1 0 * (aggHeight : ℚ)
    - agent.weights.getD 2 0 * (holes : ℚ) - agent.weights.getD 3 0 * (bump : ℚ)

/-! ## Piece model (lines 17-25, 121-129) -/

/-- The table `TETROMINOES` (lines 17-25), as written. -/
def TETROMINOES : List (List Mask) :=
  [ ["..X...X...X...X.".toList, "XXXX".toList],
    ["..X..XX..X......".toList, ".X...XX...X....".toList],
    [".....XX..XX.....".toList, "XX....".toList],
    ["..X..XX...X.....".toList, ".X...XX...X.....".toList],
    [".X...XX...X.....".toList, "..X..XX..X.....".toList],
    ["X...X...XX......".toList, ".XX..X...X.....".toList],
    ["..X...X..XX.....".toList, "XX...X...X.....".toList] ]

/-- Function `rotatePiece` (lines 121-129): `rotated[x * 4 + (3 - y)] = piece[y * 4 + x]`
for `y`, `x` in `0..3`, starting from `rotated = piece`. -/
def rotatePiece (piece : Mask) : Mask :=
  (List.range 4).foldl
    (fun rotated y =>
      (List.range 4).foldl
        (fun rotated x => rotated.set (x * 4 + (3 - y)) (piece.getD (y * 4 + x) ' '))
        rotated)
    piece

/-! ## Merge and simulated drop (lines 131-155) -/

/-- The assignment `board[fy][fx] = v`. -/
def setCell (board : Board) (fy fx : Nat) (v : Int) : Board :=
  board.set fy ((board.getD fy []).set fx v)

/-- The body of the merge loops (lines 135-141 and 259-264) for mask cell `(x, y)`. -/
def mergeCell (piece : Mask) (pos_x pos_y color : Int) (y x : Nat) (board : Board) : Board :=
  if occ piece (y * 4 + x) then
    let fx := pos_x + (x : Int)
    let fy := pos_y + (y : Int)
    if fy ≥ 0 ∧ fy < (HEIGHT : Int) ∧ fx ≥ 0 ∧ fx < (WIDTH : Int) then
      setCell board fy.toNat fx.toNat color
    else board
  else board

/-- The merge loop of `simulateDrop` (lines 133-143). -/
def simMerge (board : Board) (piece : Mask) (pos_x pos_y color : Int) : Board :=
  (List.range 4).foldl
    (fun newBoard y =>
      (List.range 4).foldl (fun newBoard x => mergeCell piece pos_x pos_y color y x newBoard)
        newBoard)
    board

/-- Function `simulateDrop` (lines 131-155). -/
def simulateDrop (board : Board) (piece : Mask) (pos_x pos_y color : Int) : Board :=
  simClearLoop (simMerge board piece pos_x pos_y color)

/-! ## Move planner (lines 157-199) -/

/-- The record `struct Move { int rotation; int x; double score; }` with the score in exact
arithmetic. A field that has not been assigned is `none`; the score `-infinity` is
`none`. -/
structure Move where
  rotation : Option Int
  x : Option Int
  score : Option ℚ
  deriving DecidableEq

/-- The comparison `eval > bestMove.score` in exact arithmetic, where `eval` is finite. -/
def scoreGt (eval : ℚ) (best : Option ℚ) : Bool :=
  match best with
  | none => true
  | some s => decide (eval > s)

/-- The `px` loop of the planner's collision test (lines 173-180) for mask row `py`: the
value of `coll` after the loop (`coll` is `false` on entry). -/
def plannerRowScan (board : Board) (currPiece : Mask) (x y : Int) (py : Nat) : List Nat → Bool
  | [] => false
  | px :: rest =>
    if occ currPiece (py * 4 + px) then
      let fx := x + (px : Int)
      let fy := y + (py : Int)
      if fx < 0 ∨ fx ≥ (WIDTH : Int) ∨ fy ≥ (HEIGHT : Int) then true
      else if fy ≥ 0 ∧ cellAtI board fy fx ≠ 0 then true
      else plannerRowScan board currPiece x y py rest
    else plannerRowScan board currPiece x y py rest

/-- The `py` loop of the planner's collision test (lines 172-182): the value of `coll`. -/
def plannerScan (board : Board) (currPiece : Mask) (x y : Int) : List Nat → Bool
  | [] => false
  | py :: rest =>
    if plannerRowScan board currPiece x y py (List.range 4) then true
    else plannerScan board currPiece x y rest

/-- The planner's inline collision test (lines 171-182) at `(x, y)`. -/
def plannerColl (board : Board) (currPiece : Mask) (x y : Int) : Bool :=
  plannerScan board currPiece x y (List.range 4)

/-- The loop `while (true) { ...; if (coll) break; y++; }` (lines 170-185), started at `y`
with `fuel` iterations allowed: the value of `y` when the loop is left, `none` when the
loop is still running after `fuel` collision tests. -/
def dropScan (board : Board) (currPiece : Mask) (x : Int) : Nat → Int → Option Int
  | 0, _ => none
  | fuel + 1, y =>
    if plannerColl board currPiece x y then some y
    else dropScan board currPiece x fuel (y + 1)

/-- The body of the `x` loop of `computeBestMove` (lines 169-194); `none` when the drop
scan runs out of fuel. -/
def planStep (fuel : Nat) (board : Board) (currPiece : Mask) (color : Int) (agent : Agent)
    (r : Int) (bestMove : Move) (x : Int) : Option Move :=
  match dropScan board currPiece x fuel 0 with
  | none => none
  | some y0 =>
    let y := y0 - 1
    if y < 0 then some bestMove
    else
      let newBoard := simulateDrop board currPiece x y color
      let eval := evaluateBoard newBoard agent
      if scoreGt eval bestMove.score then
        some { score := some eval, rotation := some r, x := some x }
      else some bestMove

/-- The body of the `r` loop of `computeBestMove` (lines 168-196); the state is
`(currPiece, bestMove)`. -/
def planRotation (fuel : Nat) (board : Board) (color : Int) (agent : Agent)
    (st : Mask × Move) (r : Int) : Option (Mask × Move) :=
  match (intRange (-4) WIDTH).foldlM (planStep fuel board st.1 color agent r) st.2 with
  | none => none
  | some bestMove => some (rotatePiece st.1, bestMove)

/-- Function `computeBestMove` (lines 163-199) in exact arithmetic, each drop scan limited
to `fuel` collision tests; `none` when a scan runs out of fuel. `computeBestMoveD` is the
same function in `double` arithmetic. -/
def computeBestMove (fuel : Nat) (board : Board) (piece : Mask) (color : Int)
    (agent : Agent) : Option Move :=
  match (intRange 0 4).foldlM (planRotation fuel board color agent)
      (piece, { rotation := none, x := none, score := none }) with
  | none => none
  | some st => some st.2

/-! ## The arithmetic of `double` (IEEE 754 binary64, round to nearest, ties to even)

`evaluateBoard` and the planner compute with `double`. A `double` is a finite value (a
rational of the form `m * 2 ^ e`), `+infinity`, `-infinity` or a NaN. The sign of a zero
is not kept: it changes neither a product, a difference nor a comparison made by the
source. Every operation is rounded once (no fused multiply-add). -/

/-- A value of type `double`. -/
inductive Dbl where
  | fin (q : ℚ)
  | pinf
  | ninf
  | nan
  deriving DecidableEq

namespace Dbl

/-- The rational `2 ^ e`. -/
def pow2 (e : Int) : ℚ :=
  if 0 ≤ e then ((2 ^ e.toNat : Nat) : ℚ) else 1 / ((2 ^ (-e).toNat : Nat) : ℚ)

/-- The magnitude of a rational. -/
def mag (q : ℚ) : ℚ := if q < 0 then -q else q

/-- The number of halvings that bring `n` below 2, at most `fuel` of them, added to `k`:
for `fuel >= n >= 1` and `k = 0` the integer `j` with `2 ^ j <= n < 2 ^ (j + 1)`. -/
def log2Fuel : Nat → Nat → Nat → Nat
  | 0, _, k => k
  | fuel + 1, n, k => if n < 2 then k else log2Fuel fuel (n / 2) (k + 1)

/-- For `n >= 1`, the integer `k` with `2 ^ k <= n < 2 ^ (k + 1)`: below `2 ^ 4096` the
binary digits of `k` are found from the highest down, otherwise `n` is halved `k` times. -/
def log2Nat (n : Nat) : Nat :=
  if n < 2 ^ 4096 then
    [2048, 1024, 512, 256, 128, 64, 32, 16, 8, 4, 2, 1].foldl
      (fun k b => if 2 ^ (k + b) ≤ n then k + b else k) 0
  else log2Fuel n n 0

/-- For `q ≠ 0`, the integer `e` with `2 ^ e <= |q| < 2 ^ (e + 1)`. -/
def ilog2 (q : ℚ) : Int :=
  let e0 : Int := (log2Nat q.num.natAbs : Int) - (log2Nat q.den : Int)
  if pow2 e0 ≤ mag q then e0 else e0 - 1

/-- Rounding of a rational to the nearest integer, ties to the even one. -/
def roundHalfEven (q : ℚ) : Int :=
  let f : Int := q.num / (q.den : Int)
  let rest : ℚ := q - (f : ℚ)
  if rest < 1 / 2 then f
  else if 1 / 2 < rest then f + 1
  else if f % 2 = 0 then f else f + 1

/-- The `double` nearest to the real number `q`: 53 significant bits, exponents from
-1022 (below which the spacing stays `2 ^ -1074`) to 1023, overflow to an infinity when
the rounded magnitude reaches `2 ^ 1024`. -/
def nearest (q : ℚ) : Dbl :=
  if q = 0 then fin 0
  else
    let e := max (ilog2 q) (-1022)
    let ulp := pow2 (e - 52)
    let r : ℚ := (roundHalfEven (q / ulp) : ℚ) * ulp
    if pow2 1024 ≤ mag r then (if 0 < q then pinf else ninf) else fin r

/-- The conversion of an `int` to `double`. -/
def ofInt (n : Int) : Dbl := nearest (n : ℚ)

/-- The product `a * b` of two `double`s. -/
def mul : Dbl → Dbl → Dbl
  | fin a, fin b => nearest (a * b)
  | fin a, pinf => if a = 0 then nan else if 0 < a then pinf else ninf
  | fin a, ninf => if a = 0 then nan else if 0 < a then ninf else pinf
  | pinf, fin b => if b = 0 then nan else if 0 < b then pinf else ninf
  | ninf, fin b => if b = 0 then nan else if 0 < b then ninf else pinf
  | pinf, pinf => pinf
  | pinf, ninf => ninf
  | ninf, pinf => ninf
  | ninf, ninf => pinf
  | nan, _ => nan
  | _, nan => nan

/-- The difference `a - b` of two `double`s. -/
def sub : Dbl → Dbl → Dbl
  | fin a, fin b => nearest (a - b)
  | fin _, pinf => ninf
  | fin _, ninf => pinf
  | pinf, fin _ => pinf
  | ninf, fin _ => ninf
  | pinf, ninf => pinf
  | ninf, pinf => ninf
  | pinf, pinf => nan
  | ninf, ninf => nan
  | nan, _ => nan
  | _, nan => nan

/-- The comparison `a > b` of two `double`s; false when either is a NaN. -/
def gt : Dbl → Dbl → Bool
  | fin a, fin b => decide (b < a)
  | fin _, ninf => true
  | pinf, fin _ => true
  | pinf, ninf => true
  | _, _ => false

end Dbl

/-! ## Evaluator and move planner in `double` arithmetic (lines 113-119, 157-199) -/

/-- The weight `agent.weights[i]` as a `double`: the `double` nearest to the rational that
stands for it (that rational itself when it is a `double`). -/
def weightD (agent : Agent) (i : Nat) : Dbl := Dbl.nearest (agent.weights.getD i 0)

/-- Function `evaluateBoard` (lines 113-119) in `double` arithmetic: the four products and
the three differences, left to right, each rounded. -/
def evaluateBoardD (board : Board) (agent : Agent) : Dbl :=
  let aggHeight := aggregateHeight board
  let holes := countHoles board
  let bump := bumpiness board
  let lines := completeLines board
  Dbl.sub
    (Dbl.sub
      (Dbl.sub (Dbl.mul (weightD agent 0) (Dbl.ofInt lines))
        (Dbl.mul (weightD agent 1) (Dbl.ofInt aggHeight)))
      (Dbl.mul (weightD agent 2) (Dbl.ofInt holes)))
    (Dbl.mul (weightD agent 3) (Dbl.ofInt bump))

/-- The record `struct Move` with its `double` score. A field `rotation` or `x` that has
not been assigned is `none`. -/
structure MoveD where
  rotation : Option Int
  x : Option Int
  score : Dbl
  deriving DecidableEq

/-- The body of the `x` loop of `computeBestMove` (lines 169-194) in `double` arithmetic;
`none` when the drop scan runs out of fuel. -/
def planStepD (fuel : Nat) (board : Board) (currPiece : Mask) (color : Int) (agent : Agent)
    (r : Int) (bestMove : MoveD) (x : Int) : Option MoveD :=
  match dropScan board currPiece x fuel 0 with
  | none => none
  | some y0 =>
    let y := y0 - 1
    if y < 0 then some bestMove
    else
      let newBoard := simulateDrop board currPiece x y color
      let eval := evaluateBoardD newBoard agent
      if Dbl.gt eval bestMove.score then
        some { score := eval, rotation := some r, x := some x }
      else some bestMove

/-- The body of the `r` loop of `computeBestMove` (lines 168-196) in `double` arithmetic;
the state is `(currPiece, bestMove)`. -/
def planRotationD (fuel : Nat) (board : Board) (color : Int) (agent : Agent)
    (st : Mask × MoveD) (r : Int) : Option (Mask × MoveD) :=
  match (intRange (-4) WIDTH).foldlM (planStepD fuel board st.1 color agent r) st.2 with
  | none => none
  | some bestMove => some (rotatePiece st.1, bestMove)

/-- Function `computeBestMove` (lines 163-199) in `double` arithmetic, each drop scan
limited to `fuel` collision tests; `bestMove.score` starts at `-infinity`. -/
def computeBestMoveD (fuel : Nat) (board : Board) (piece : Mask) (color : Int)
    (agent : Agent) : Option MoveD :=
  match (intRange 0 4).foldlM (planRotationD fuel board color agent)
      (piece, { rotation := none, x := none, score := Dbl.ninf }) with
  | none => none
  | some st => some st.2

/-! ## Game session (lines 214-335) -/

/-- The simulation state of `class Game` (the window, its position and the clock are
rendering and pacing, and are left out), together with the process-wide
`globalMaxScore` (line 27) as the session sees it. -/
structure Game where
  field : Board
  score : Int
  level : Int
  linesClearedTotal : Int
  current_piece : Mask
  current_color : Int
  pos_x : Int
  pos_y : Int
  aiMode : Bool
  agent : Agent
  finished : Bool
  globalMaxScore : Int
  deriving DecidableEq

namespace Game

/-- Method `gameOver` (lines 230-238). -/
def gameOver (g : Game) : Game :=
  { g with
    globalMaxScore := if g.score > g.globalMaxScore then g.score else g.globalMaxScore
    agent := { g.agent with fitness := (g.score : ℚ) }
    finished := true }

/-- The `x` loop of `collision` (lines 242-251) for mask row `y`: `true` when the loop
executes a `return true`. -/
def collisionRow (g : Game) (offset_x offset_y : Int) (y : Nat) : List Nat → Bool
  | [] => false
  | x :: rest =>
    if occ g.current_piece (y * 4 + x) then
      let new_x := g.pos_x + (x : Int) + offset_x
      let new_y := g.pos_y + (y : Int) + offset_y
      if new_x < 0 ∨ new_x ≥ (WIDTH : Int) then true
      else if new_y ≥ (HEIGHT : Int) then true
      else if new_y ≥ 0 ∧ cellAtI g.field new_y new_x ≠ 0 then true
      else collisionRow g offset_x offset_y y rest
    else collisionRow g offset_x offset_y y rest

/-- The `y` loop of `collision` (lines 241-252). -/
def collisionRows (g : Game) (offset_x offset_y : Int) : List Nat → Bool
  | [] => false
  | y :: rest =>
    if collisionRow g offset_x offset_y y (List.range 4) then true
    else collisionRows g offset_x offset_y rest

/-- Method `collision` (lines 240-254). -/
def collision (g : Game) (offset_x : Int := 0) (offset_y : Int := 0) : Bool :=
  collisionRows g offset_x offset_y (List.range 4)

/-- Method `merge_piece` (lines 256-267). -/
def merge_piece (g : Game) : Game :=
  { g with
    field :=
      (List.range 4).foldl
        (fun field y =>
          (List.range 4).foldl
            (fun field x => mergeCell g.current_piece g.pos_x g.pos_y g.current_color y x field)
            field)
        g.field }

/-- Method `clear_lines` (lines 269-298); `/` on `int` is `Int.tdiv`. -/
def clear_lines (g : Game) : Game :=
  let res := clearLoop g.field
  let linesClearedThisTurn := res.2
  if linesClearedThisTurn > 0 then
    let linesClearedTotal := g.linesClearedTotal + linesClearedThisTurn
    let level := linesClearedTotal.tdiv 10 + 1
    { g with
      field := res.1
      linesClearedTotal := linesClearedTotal
      level := level
      score := g.score + baseScore linesClearedThisTurn * level }
  else { g with field := res.1 }

/-- Method `spawn_piece` (lines 323-335); `type` is the value drawn from `dist(rng)`. -/
def spawn_piece (g : Game) (type : Nat) : Game :=
  let g1 : Game :=
    { g with
      current_piece := (TETROMINOES.getD type []).getD 0 []
      current_color := (type : Int) + 1
      pos_x := (WIDTH : Int).tdiv 2 - 2
      pos_y := 0 }
  if g1.collision then g1.gameOver else g1

end Game

/-! ## Specification-side notions -/

/-- The mask rotated `r` times from `piece`. -/
def rotN (r : Nat) (piece : Mask) : Mask := rotatePiece^[r] piece

/-- A piece cell landing on column `fx`, row `fy` is in conflict: the column is outside
`[0, WIDTH)`, or the row is `>= HEIGHT`, or the row is `>= 0` and the board cell there is
not empty. -/
def CellHits (board : Board) (fx fy : Int) : Prop :=
  fx < 0 ∨ fx ≥ (WIDTH : Int) ∨ fy ≥ (HEIGHT : Int) ∨ (fy ≥ 0 ∧ cellAtI board fy fx ≠ 0)

/-- The collision predicate in the words of the specification: some occupied mask cell
`(px, py)` lands on a column outside `[0, WIDTH)`, on a row `>= HEIGHT`, or on a row
`>= 0` whose board cell is not empty. -/
def Collides (board : Board) (piece : Mask) (x y : Int) : Prop :=
  ∃ py < 4, ∃ px < 4, occ piece (py * 4 + px) = true ∧
    CellHits board (x + (px : Int)) (y + (py : Int))

/-- Row `y` is the hard-drop resting row of the mask in column `x`: no collision at the
rows `0..y`, collision at row `y + 1`. -/
def RestsAt (board : Board) (piece : Mask) (x y : Int) : Prop :=
  (∀ y', 0 ≤ y' → y' ≤ y → ¬ Collides board piece x y') ∧ Collides board piece x (y + 1)

/-- The number of fully occupied rows among `rows`. -/
def fullCount (rows : Board) : Nat := (rows.filter occupiedRow).length

/-- The rows of `rows` that are not fully occupied, in their order. -/
def keptRows (rows : Board) : Board := rows.filter fun row => !occupiedRow row

/-! ## Sample data -/

/-- A board whose bottom rows are `rows`, with empty rows above. -/
def bottomRows (rows : Board) : Board :=
  List.replicate (HEIGHT - rows.length) emptyRow ++ rows

/-- An agent with the given four weights and fitness 0. -/
def sampleAgent : Agent := { weights := [1, 1, 1, 1], fitness := 0 }

/-- A session state around a given field, at level 1 and score 0, with the I piece at
the spawn position. -/
def sampleGame (field : Board) : Game :=
  { field := field, score := 0, level := 1, linesClearedTotal := 0,
    current_piece := (TETROMINOES.getD 0 []).getD 0 [], current_color := 1,
    pos_x := 3, pos_y := 0, aiMode := true, agent := sampleAgent, finished := false,
    globalMaxScore := 0 }

/-- The base mask of the O piece, `TETROMINOES[2][0]`. -/
def maskO : Mask := (TETROMINOES.getD 2 []).getD 0 []

/-- The base mask of the J piece, `TETROMINOES[5][0]`. -/
def maskJ : Mask := (TETROMINOES.getD 5 []).getD 0 []

/-- A field with two fully occupied rows around a partly occupied one. -/
def twoFullRows : Board :=
  bottomRows [List.replicate WIDTH 1, [1, 0, 0, 2, 2, 0, 0, 0, 0, 3], List.replicate WIDTH 4]

/-- The mask cells `(y, x)` in the order the nested loops `for y ... for x ...` visit
them. -/
def maskCells : List (Nat × Nat) :=
  (List.range 4).flatMap fun y => (List.range 4).map fun x => (y, x)

/-- Board cell `(r, c)` is under an occupied cell of the mask placed at `(pos_x, pos_y)`. -/
def Covers (piece : Mask) (pos_x pos_y : Int) (r c : Nat) : Prop :=
  ∃ py < 4, ∃ px < 4, occ piece (py * 4 + px) = true ∧
    pos_y + (py : Int) = (r : Int) ∧ pos_x + (px : Int) = (c : Int)

/-- A field whose bottom row is fully occupied. -/
def oneFullRow : Board := bottomRows [List.replicate WIDTH 1]

/-- A session at level 1 that has cleared nine lines one at a time (score 360) and whose
field has one fully occupied row. -/
def nineLinesGame : Game :=
  { sampleGame oneFullRow with linesClearedTotal := 9, score := 360 }

/-- A field with a tower in column 5 that reaches row 1. -/
def towerBoard : Board :=
  emptyRow :: List.replicate (HEIGHT - 1) [0, 0, 0, 0, 0, 7, 0, 0, 0, 0]

/-- The mask has at least one occupied cell. -/
def NonEmptyMask (piece : Mask) : Prop := ∃ i < 16, occ piece i = true

instance (piece : Mask) : Decidable (NonEmptyMask piece) := by
  unfold NonEmptyMask; infer_instance

/-- Candidate `(r, x)` is visited before candidate `(r', x')` by the planner: rotation
ascending, then column ascending. -/
def Before (r x r' x' : Int) : Prop := r < r' ∨ (r = r' ∧ x < x')

/-- The score the planner gives to the mask rotated `r` times, dropped in column `x` and
resting at row `y`. -/
def candScore (board : Board) (piece : Mask) (color : Int) (agent : Agent) (r x y : Int) : ℚ :=
  evaluateBoard (simulateDrop board (rotN r.toNat piece) x y color) agent

/-- A legal candidate of the planner: rotation `r` in `0..3`, column `x` in
`-4..WIDTH-1`, and the hard drop rests at row `y >= 0`. -/
def Legal (board : Board) (piece : Mask) (r x y : Int) : Prop :=
  0 ≤ r ∧ r < 4 ∧ -4 ≤ x ∧ x < (WIDTH : Int) ∧ 0 ≤ y ∧ RestsAt board (rotN r.toNat piece) x y

/-- What `bestMove` holds once every candidate before `(r0, x0)` has been visited: either
nothing was assigned and no candidate visited so far is legal, or it holds a legal
candidate visited so far with its score, no candidate visited so far scores more, and
those visited before it score less. -/
def PlanInv (board : Board) (piece : Mask) (color : Int) (agent : Agent) (r0 x0 : Int)
    (mv : Move) : Prop :=
  (mv = { rotation := none, x := none, score := none } ∧
      ∀ r x y, Legal board piece r x y → ¬ Before r x r0 x0)
  ∨ ∃ r x y, mv = { rotation := some r, x := some x,
                    score := some (candScore board piece color agent r x y) } ∧
      Legal board piece r x y ∧ Before r x r0 x0 ∧
      ∀ r' x' y', Legal board piece r' x' y' → Before r' x' r0 x0 →
        candScore board piece color agent r' x' y' ≤ candScore board piece color agent r x y ∧
        (Before r' x' r x →
          candScore board piece color agent r' x' y' < candScore board piece color agent r x y)

/-! ## Evolution loop: crossover (lines 201-212) -/

/-- The body of the loop of `crossover` (lines 205-208) for component `i`. The state is
`(child.weights, number of randomWeight() calls made so far)`; `rand i` is the value
`rand()` returns in iteration `i` and `randomWeight n` the value of the `n`-th call of
`randomWeight()`. The factor `0.1` is taken as `1/10`. -/
def crossoverStep (parent1 parent2 : Agent) (rand : Nat → Nat) (randomWeight : Nat → ℚ)
    (st : List ℚ × Nat) (i : Nat) : List ℚ × Nat :=
  let weights := st.1.set i ((parent1.weights.getD i 0 + parent2.weights.getD i 0) / 2)
  if rand i % 100 < 10 then
    (weights.set i (weights.getD i 0 + randomWeight st.2 * (1 / 10)), st.2 + 1)
  else (weights, st.2)

/-- Function `crossover` (lines 201-212), with the random draws as parameters. -/
def crossover (parent1 parent2 : Agent) (rand : Nat → Nat) (randomWeight : Nat → ℚ) : Agent :=
  { weights :=
      ((List.range 4).foldl (crossoverStep parent1 parent2 rand randomWeight)
        (List.replicate 4 0, 0)).1
    fitness := 0 }

/-! ## Game session: moves, update and tick (lines 305-315, 365-451) -/

/-- The value of the `ncurses.h` macro `KEY_DOWN`. -/
def KEY_DOWN : Int := 258

/-- The value of the `ncurses.h` macro `KEY_LEFT`. -/
def KEY_LEFT : Int := 260

/-- The value of the `ncurses.h` macro `KEY_RIGHT`. -/
def KEY_RIGHT : Int := 261

/-- The value of the `ncurses.h` macro `ERR`. -/
def ERR : Int := -1

namespace Game

/-- The constructor `Game(ai, agentParam, ...)` (lines 305-315); `type` is the piece drawn
by the first `spawn_piece`, `globalMaxScore` the process-wide value at that time. -/
def new (ai : Bool) (agentParam : Agent) (type : Nat) (globalMaxScore : Int) : Game :=
  spawn_piece
    { field := emptyBoard, score := 0, level := 1, linesClearedTotal := 0,
      current_piece := [], current_color := 0,
      pos_x := (WIDTH : Int).tdiv 2 - 2, pos_y := 0, aiMode := ai, agent := agentParam,
      finished := false, globalMaxScore := globalMaxScore }
    type

/-- The loop `while (collision()) { ... }` of `rotate` (lines 375-382), with `fuel` tests
of the loop condition allowed; the state is the session and `offset`. -/
def rotateLoop (old_piece : Mask) : Nat → Game → Int → Option Game
  | 0, _, _ => none
  | fuel + 1, g, offset =>
    if g.collision then
      let g1 := { g with pos_x := g.pos_x + offset }
      let offset1 := if offset > 0 then -offset - 1 else -offset + 1
      if (offset1.natAbs : Int) > 3 then some { g1 with current_piece := old_piece }
      else rotateLoop old_piece fuel g1 offset1
    else some g

/-- Method `rotate` (lines 365-383); its first loop (lines 367-371) is the loop of
`rotatePiece`. -/
def rotate (fuel : Nat) (g : Game) : Option Game :=
  let new_piece := rotatePiece g.current_piece
  let old_piece := g.current_piece
  rotateLoop old_piece fuel { g with current_piece := new_piece } 1

/-- The loop `for (int x = 0; x < WIDTH; x++) if (field[0][x] != 0) ...` of `update`
(lines 391-396): `true` when it reaches `gameOver(); return;`. -/
def topRowHit (field : Board) : List Nat → Bool
  | [] => false
  | x :: rest => if cellAt field 0 x != 0 then true else topRowHit field rest

/-- Method `update` (lines 385-401); `type` is the piece drawn if a piece is spawned. The
call of `draw` is rendering and is left out. -/
def update (g : Game) (type : Nat) : Game :=
  if g.finished then g
  else if ¬ g.collision 0 1 then { g with pos_y := g.pos_y + 1 }
  else
    let g1 := g.merge_piece
    if topRowHit g1.field (List.range WIDTH) then g1.gameOver
    else g1.clear_lines.spawn_piece type

/-- The loop `while (pos_x < best.x && !collision(1, 0)) pos_x++;` (line 410); the counter
bounds the number of iterations, and is started at `best.x - pos_x`. -/
def moveRight (bx : Int) : Nat → Game → Game
  | 0, g => g
  | n + 1, g =>
    if g.pos_x < bx ∧ ¬ g.collision 1 0 then moveRight bx n { g with pos_x := g.pos_x + 1 }
    else g

/-- The loop `while (pos_x > best.x && !collision(-1, 0)) pos_x--;` (line 412); the counter
bounds the number of iterations, and is started at `pos_x - best.x`. -/
def moveLeft (bx : Int) : Nat → Game → Game
  | 0, g => g
  | n + 1, g =>
    if g.pos_x > bx ∧ ¬ g.collision (-1) 0 then moveLeft bx n { g with pos_x := g.pos_x - 1 }
    else g

/-- The loop `while (!collision(0, 1)) pos_y++;` (lines 414-416), with `fuel` tests of the
loop condition allowed. -/
def dropLoop : Nat → Game → Option Game
  | 0, _ => none
  | fuel + 1, g =>
    if ¬ g.collision 0 1 then dropLoop fuel { g with pos_y := g.pos_y + 1 }
    else some g

/-- Method `aiMove` (lines 403-417). The result is `none` when a loop runs out of fuel,
and when `best.rotation` or `best.x` is read without having been assigned. -/
def aiMove (fuel : Nat) (g : Game) : Option Game :=
  if g.finished then some g
  else
    match computeBestMoveD fuel g.field g.current_piece g.current_color g.agent with
    | none => none
    | some best =>
      match best.rotation, best.x with
      | some rotation, some bx =>
        match (intRange 0 rotation).foldlM (fun g _ => rotate fuel g) g with
        | none => none
        | some g1 =>
          let g2 :=
            if g1.pos_x < bx then moveRight bx (bx - g1.pos_x).toNat g1
            else if g1.pos_x > bx then moveLeft bx (g1.pos_x - bx).toNat g1
            else g1
          dropLoop fuel g2
      | _, _ => none

/-- Method `handle_input` (lines 419-436). -/
def handle_input (fuel : Nat) (g : Game) (key : Int) : Option Game :=
  if ¬ g.aiMode ∧ ¬ g.finished then
    if key = KEY_LEFT then
      some (if ¬ g.collision (-1) 0 then { g with pos_x := g.pos_x - 1 } else g)
    else if key = KEY_RIGHT then
      some (if ¬ g.collision 1 0 then { g with pos_x := g.pos_x + 1 } else g)
    else if key = KEY_DOWN then
      some (if ¬ g.collision 0 1 then { g with pos_y := g.pos_y + 1 } else g)
    else if key = 32 then rotate fuel g
    else some g
  else some g

/-- Method `tick` (lines 438-451); `ch` is the value of `wgetch`, `elapsed` the
milliseconds since `last_update`, `type` the piece drawn if a piece is spawned. -/
def tick (fuel : Nat) (g : Game) (ch elapsed : Int) (type : Nat) : Option Game :=
  if g.finished then some g
  else
    match (if ch ≠ ERR then handle_input fuel g ch else some g) with
    | none => none
    | some g1 =>
      match (if g1.aiMode then aiMove fuel g1 else some g1) with
      | none => none
      | some g2 =>
        let currentDelay := max 100 (1000 - (g2.level - 1) * 100)
        if elapsed > currentDelay then some (update g2 type) else some g2

end Game

/-- The value of `globalMaxScore` after the sessions `games` have reached `gameOver` one
after the other, each seeing the value its predecessor left, starting from `gmax`. -/
def completeAll (games : List Game) (gmax : Int) : Int :=
  games.foldl (fun m g => ({ g with globalMaxScore := m } : Game).gameOver.globalMaxScore) gmax

/-- Sessions that end with the given scores. -/
def sessionsWithScores (scores : List Int) : List Game :=
  scores.map fun s => { sampleGame emptyBoard with score := s }

/-- The session `g` with the piece in play replaced by the mask `piece` at column `x`
(same row, same field). -/
def Game.placed (g : Game) (piece : Mask) (x : Int) : Game :=
  { g with current_piece := piece, pos_x := x }

/-- The session `g'` differs from `g` at most in the piece in play: its mask and its
position. -/
def PieceOnly (g g' : Game) : Prop :=
  g' = { g with current_piece := g'.current_piece, pos_x := g'.pos_x, pos_y := g'.pos_y }

/-- The session states reached from a newly constructed session by `tick`, `update`,
`aiMove` and `handle_input`; every piece drawn is one of the `TETROMINOES`. -/
inductive Reachable : Game → Prop
  | init (ai : Bool) (agentParam : Agent) (type : Nat) (globalMaxScore : Int)
      (htype : type < TETROMINOES.length) :
      Reachable (Game.new ai agentParam type globalMaxScore)
  | tick (g g' : Game) (fuel : Nat) (ch elapsed : Int) (type : Nat)
      (htype : type < TETROMINOES.length) (hg : Reachable g)
      (hstep : g.tick fuel ch elapsed type = some g') : Reachable g'
  | update (g : Game) (type : Nat) (htype : type < TETROMINOES.length) (hg : Reachable g) :
      Reachable (g.update type)
  | aiMove (g g' : Game) (fuel : Nat) (hg : Reachable g) (hstep : g.aiMove fuel = some g') :
      Reachable g'
  | handle_input (g g' : Game) (fuel : Nat) (key : Int) (hg : Reachable g)
      (hstep : g.handle_input fuel key = some g') : Reachable g'

/-- A field with a shaft four cells wide (columns 3 to 6) between two walls that reach
row 1: in the shaft a floating tower in column 4 (rows 1 to 11), free rows 12 to 15 below
it, and four rows filled except in column 3. -/
def overhangBoard : Board :=
  emptyRow :: (List.replicate 11 [1, 1, 1, 0, 5, 0, 0, 1, 1, 1]
    ++ List.replicate 4 [1, 1, 1, 0, 0, 0, 0, 1, 1, 1]
    ++ List.replicate 4 [1, 1, 1, 0, 1, 1, 1, 1, 1, 1])

/-- An automatic-mode session on `overhangBoard` with the I piece at the spawn position. -/
def overhangGame : Game := sampleGame overhangBoard

/-- A field with a well one cell wide in column 5 between two stacks of O pieces. -/
def wellBoard : Board := bottomRows (List.replicate 4 [0, 0, 0, 1, 1, 0, 1, 1, 0, 0])

/-- A human-driven session on `wellBoard` with the I piece upright at the bottom of the
well. -/
def wellGame : Game := { sampleGame wellBoard with aiMode := false, pos_x := 3, pos_y := 16 }

/-- The session `overhangGame` after one `aiMove`: the piece was stopped by the tower at
column 3 (its cells in column 5) and dropped to row 12. -/
def overhangAfterFirst : Game := { overhangGame with pos_x := 3, pos_y := 12 }

/-- The session `overhangGame` after two `aiMove`s: the piece went on under the tower to
column 1 (its cells in column 3) and dropped to row 16. -/
def overhangAfterSecond : Game := { overhangGame with pos_x := 1, pos_y := 16 }

/-- The field invariant of a session: `HEIGHT` rows of `WIDTH` cells and, while the session
is not finished, no fully occupied row and an empty top row. -/
def FieldInv (g : Game) : Prop :=
  WellFormed g.field ∧
    (g.finished = false → fullCount g.field = 0 ∧ g.field.getD 0 [] = emptyRow)

/-! ## The planner in `double` arithmetic: specification-side notions -/

/-- The score the planner computes, in `double` arithmetic, for the mask rotated `r`
times, dropped in column `x` and resting at row `y`. -/
def candScoreD (board : Board) (piece : Mask) (color : Int) (agent : Agent) (r x y : Int) :
    Dbl :=
  evaluateBoardD (simulateDrop board (rotN r.toNat piece) x y color) agent

/-- What `bestMove` holds, in `double` arithmetic, once every candidate before `(r0, x0)`
has been visited: either nothing was assigned, the score is still `-infinity` and no legal
candidate visited so far compares greater than `-infinity`; or it holds a legal candidate
visited so far with its score, that score compares greater than `-infinity`, no legal
candidate visited so far compares greater than it, and it compares greater than every legal
candidate visited before it whose score is not a NaN. -/
def PlanInvD (board : Board) (piece : Mask) (color : Int) (agent : Agent) (r0 x0 : Int)
    (mv : MoveD) : Prop :=
  (mv = { rotation := none, x := none, score := Dbl.ninf } ∧
      ∀ r x y, Legal board piece r x y → Before r x r0 x0 →
        Dbl.gt (candScoreD board piece color agent r x y) Dbl.ninf = false)
  ∨ ∃ r x y, mv = { rotation := some r, x := some x,
                    score := candScoreD board piece color agent r x y } ∧
      Legal board piece r x y ∧ Before r x r0 x0 ∧
      Dbl.gt (candScoreD board piece color agent r x y) Dbl.ninf = true ∧
      ∀ r' x' y', Legal board piece r' x' y' → Before r' x' r0 x0 →
        Dbl.gt (candScoreD board piece color agent r' x' y')
            (candScoreD board piece color agent r x y) = false ∧
        (Before r' x' r x → candScoreD board piece color agent r' x' y' ≠ Dbl.nan →
          Dbl.gt (candScoreD board piece color agent r x y)
            (candScoreD board piece color agent r' x' y') = true)

/-- The base mask of the I piece, `TETROMINOES[0][0]`. -/
def maskI : Mask := (TETROMINOES.getD 0 []).getD 0 []

/-- A field with a shaft four cells wide (columns 3 to 6) between two walls that reach
row 1, and in the shaft a stack three cells high in column 4. -/
def shaftBoard : Board :=
  emptyRow :: (List.replicate 16 [1, 1, 1, 0, 0, 0, 0, 1, 1, 1]
    ++ List.replicate 3 [1, 1, 1, 0, 1, 0, 0, 1, 1, 1])

/-- An agent whose weights are finite `double`s of large magnitude: the height weight is
`-1e308` and the holes weight `1e308`. -/
def hugeAgent : Agent := { weights := [0, -1e308, 1e308, 0], fitness := 0 }

/-- An agent whose height weight is the finite `double` `1e308`, the other weights 0. -/
def heightAgent : Agent := { weights := [0, 1e308, 0, 0], fitness := 0 }

/-- An automatic-mode session of `heightAgent` on `shaftBoard` with the O piece at the
spawn position. -/
def heightGame : Game :=
  { sampleGame shaftBoard with current_piece := maskO, current_color := 3, agent := heightAgent }

/-- A run of a session: a `Sum.inl key` item hands `key` to `handle_input`, a
`Sum.inr type` item calls `update` with `type` the piece drawn if a piece is spawned (one
of the `TETROMINOES`). -/
def play (fuel : Nat) : Game → List (Int ⊕ Nat) → Option Game
  | g, [] => some g
  | g, Sum.inl key :: rest =>
    match g.handle_input fuel key with
    | none => none
    | some g1 => play fuel g1 rest
  | g, Sum.inr type :: rest =>
    if type < TETROMINOES.length then play fuel (g.update type) rest else none

/-- A human-driven run: two I pieces laid flat and an O piece fill the bottom row, which is
cleared; an I piece is laid flat at the left of the bottom row, and another is brought down
flat next to it, to its resting row. -/
def lineScript : List (Int ⊕ Nat) :=
  [Sum.inl 32] ++ List.replicate 3 (Sum.inl KEY_LEFT) ++ List.replicate 18 (Sum.inr 0)
    ++ [Sum.inl 32, Sum.inl KEY_RIGHT] ++ List.replicate 17 (Sum.inr 0) ++ [Sum.inr 2]
    ++ List.replicate 4 (Sum.inl KEY_RIGHT) ++ List.replicate 18 (Sum.inr 0)
    ++ [Sum.inl 32] ++ List.replicate 3 (Sum.inl KEY_LEFT) ++ List.replicate 18 (Sum.inr 0)
    ++ [Sum.inl 32, Sum.inl KEY_RIGHT] ++ List.replicate 17 (Sum.inr 0)

/-- The session at the end of the run `lineScript` from a new human-driven session: one
line cleared, score 40, the bottom row filled except in columns 4 to 7, above which the I
piece rests flat. -/
def lineGame : Game :=
  { field := bottomRows [[1, 1, 1, 1, 0, 0, 0, 0, 3, 3]], score := 40, level := 1,
    linesClearedTotal := 1, current_piece := rotatePiece maskI, current_color := 1,
    pos_x := 4, pos_y := 17, aiMode := false, agent := sampleAgent, finished := false,
    globalMaxScore := 0 }

/-- The base mask of the T piece, `TETROMINOES[3][0]`. -/
def maskT : Mask := (TETROMINOES.getD 3 []).getD 0 []

/-- An agent with the weights 0.1, 0.3, 0.2 and 1.0. -/
def decimalAgent : Agent := { weights := [0.1, 0.3, 0.2, 1.0], fitness := 0 }

/-- An automatic-mode session of `decimalAgent` on the empty field with the T piece at
the spawn position. -/
def decimalGame : Game :=
  { sampleGame emptyBoard with current_piece := maskT, current_color := 4, agent := decimalAgent }

/-- The session `decimalGame` after one `aiMove`: the T piece was turned three times,
steered to column 0 and dropped to row 17. -/
def decimalAfterFirst : Game :=
  { decimalGame with
    current_piece := rotatePiece (rotatePiece (rotatePiece maskT)), pos_x := 0, pos_y := 17 }

end Tetris

/-! # Theorems -/

namespace Tetris

/-! ## Line clearing -/

theorem rowFullAux_iff (row : List Int) (xs : List Nat) :
    rowFullAux row xs = true ↔ ∀ x ∈ xs, row.getD x 0 ≠ 0 := by
  induction xs with
  | nil => simp [rowFullAux]
  | cons x xs ih =>
    rw [rowFullAux, List.forall_mem_cons]
    by_cases h : row.getD x 0 = 0
    · rw [if_pos (beq_iff_eq.mpr h)]
      exact ⟨fun h' => (by cases h'), fun h' => absurd h h'.1⟩
    · rw [if_neg (fun hb => h (beq_iff_eq.mp hb)), ih]
      exact ⟨fun h' => ⟨h, h'⟩, fun h' => h'.2⟩

theorem occupiedRow_iff (row : List Int) :
    occupiedRow row = true ↔ ∀ x < row.length, row.getD x 0 ≠ 0 := by
  unfold occupiedRow
  rw [List.all_eq_true]
  constructor
  · intro h x hx
    have := h (row[x]) (List.getElem_mem hx)
    rw [List.getD_eq_getElem _ _ hx]
    simpa using this
  · intro h v hv
    obtain ⟨i, hi, rfl⟩ := List.getElem_of_mem hv
    have := h i hi
    rw [List.getD_eq_getElem _ _ hi] at this
    simpa using this

theorem rowFullAux_eq_occupiedRow (row : List Int) (h : row.length = WIDTH) :
    rowFullAux row (List.range WIDTH) = occupiedRow row := by
  rw [Bool.eq_iff_iff, rowFullAux_iff, occupiedRow_iff, h]
  simp [List.mem_range]

theorem emptyRow_length : emptyRow.length = WIDTH := by simp [emptyRow]

theorem emptyRow_not_occupied : occupiedRow emptyRow = false := by decide

theorem fullCount_add_keptRows (rows : Board) :
    fullCount rows + (keptRows rows).length = rows.length := by
  induction rows with
  | nil => rfl
  | cons r rs ih =>
    unfold fullCount keptRows at *
    by_cases h : occupiedRow r = true
    · simp [List.filter_cons, h]; omega
    · simp [List.filter_cons, h]; omega

theorem fullCount_snoc (rows : Board) (row : List Int) :
    fullCount (rows ++ [row]) = fullCount rows + (if occupiedRow row then 1 else 0) := by
  unfold fullCount
  rw [List.filter_append, List.length_append]
  by_cases h : occupiedRow row = true
  · simp [List.filter_cons, h]
  · simp [List.filter_cons, h]

theorem keptRows_snoc (rows : Board) (row : List Int) :
    keptRows (rows ++ [row]) = keptRows rows ++ (if occupiedRow row then [] else [row]) := by
  unfold keptRows
  rw [List.filter_append]
  by_cases h : occupiedRow row = true
  · simp [List.filter_cons, h]
  · simp [List.filter_cons, h]

theorem rowFull_at_prefix (pre rest : Board) (row : List Int) (hrow : row.length = WIDTH) :
    rowFull (pre ++ row :: rest) pre.length = occupiedRow row := by
  unfold rowFull
  have : (pre ++ row :: rest).getD pre.length [] = row := by
    rw [List.getD_eq_getElem?_getD, List.getElem?_append_right (le_refl _)]
    simp
  rw [this, rowFullAux_eq_occupiedRow row hrow]

theorem eraseIdx_at_prefix (pre rest : Board) (row : List Int) :
    (pre ++ row :: rest).eraseIdx pre.length = pre ++ rest := by
  rw [List.eraseIdx_append_of_length_le (le_refl _)]
  simp

/-- Loop invariant of the `y` loop of `clear_lines`: after the rows `0..n-1` have been
visited, the field is the cleared count of empty rows, the kept rows among the first `n`,
and the rows not yet visited. -/
theorem clearLoop_prefix (b : Board) (hrows : ∀ row ∈ b, row.length = WIDTH) (c0 : Int)
    (n : Nat) (hn : n ≤ b.length) :
    (List.range n).foldl clearStep (b, c0) =
      (List.replicate (fullCount (b.take n)) emptyRow ++ keptRows (b.take n) ++ b.drop n,
        c0 + (fullCount (b.take n) : Int)) := by
  induction n with
  | zero => simp [fullCount, keptRows]
  | succ n ih =>
    have hn' : n < b.length := hn
    rw [List.range_succ, List.foldl_append, ih (le_of_lt hn')]
    have hdrop : b.drop n = b[n] :: b.drop (n + 1) := by
      rw [List.drop_eq_getElem_cons hn']
    have htake : b.take (n + 1) = b.take n ++ [b[n]] := by
      rw [List.take_succ, List.getElem?_eq_getElem hn']; rfl
    have hlen : (List.replicate (fullCount (b.take n)) emptyRow ++ keptRows (b.take n)).length
        = n := by
      have := fullCount_add_keptRows (b.take n)
      simp only [List.length_append, List.length_replicate, List.length_take] at *
      omega
    have hrow : (b[n]).length = WIDTH := hrows _ (List.getElem_mem hn')
    simp only [List.foldl_cons, List.foldl_nil, clearStep]
    rw [hdrop]
    have hfull := rowFull_at_prefix
      (List.replicate (fullCount (b.take n)) emptyRow ++ keptRows (b.take n))
      (b.drop (n + 1)) b[n] hrow
    have herase := eraseIdx_at_prefix
      (List.replicate (fullCount (b.take n)) emptyRow ++ keptRows (b.take n))
      (b.drop (n + 1)) b[n]
    rw [hlen] at hfull herase
    rw [hfull, herase, htake]
    by_cases h : occupiedRow b[n] = true
    · rw [if_pos h, fullCount_snoc, keptRows_snoc, h]
      simp [List.replicate_succ, add_assoc]
    · have h' : occupiedRow b[n] = false := by simpa using h
      rw [if_neg h, fullCount_snoc, keptRows_snoc, h']
      simp

theorem clearLoop_eq (b : Board) (hwf : WellFormed b) :
    clearLoop b =
      (List.replicate (fullCount b) emptyRow ++ keptRows b, (fullCount b : Int)) := by
  unfold clearLoop
  have h := clearLoop_prefix b hwf.2 0 HEIGHT (le_of_eq hwf.1.symm)
  rw [← hwf.1] at h
  rw [← hwf.1, h]
  simp

theorem simClearLoop_eq_fst (b : Board) : simClearLoop b = (clearLoop b).1 := by
  unfold simClearLoop clearLoop
  suffices h : ∀ (l : List Nat) (b : Board) (c : Int),
      l.foldl simClearStep b = (l.foldl clearStep (b, c)).1 from h _ _ _
  intro l
  induction l with
  | nil => intro b c; rfl
  | cons y ys ih =>
    intro b c
    simp only [List.foldl_cons]
    by_cases hf : rowFull b y = true
    · simp only [simClearStep, clearStep, hf, if_true]
      exact ih _ _
    · simp only [simClearStep, clearStep, hf]
      exact ih _ _


theorem keptRows_length (b : Board) (hwf : WellFormed b) :
    (keptRows b).length = HEIGHT - fullCount b := by
  have := fullCount_add_keptRows b
  rw [hwf.1] at this
  omega

/-- C1: on a field of `HEIGHT` rows of `WIDTH` cells with exactly `k` fully occupied rows,
the erase-and-reinsert pass of `clear_lines` counts `k` removed rows
(`linesClearedThisTurn`, added to `linesClearedTotal`) and leaves a field of `HEIGHT` rows:
`k` empty rows followed by the `HEIGHT - k` rows that were not full, in their original
order; the loop inside `simulateDrop` produces the same board. -/
theorem clear_lines_spec (g : Game) (k : Nat) (hwf : WellFormed g.field)
    (hk : fullCount g.field = k) :
    (clearLoop g.field).2 = (k : Int)
      ∧ g.clear_lines.linesClearedTotal = g.linesClearedTotal + (k : Int)
      ∧ g.clear_lines.field = List.replicate k emptyRow ++ keptRows g.field
      ∧ simClearLoop g.field = List.replicate k emptyRow ++ keptRows g.field
      ∧ g.clear_lines.field.length = HEIGHT
      ∧ (keptRows g.field).length = HEIGHT - k := by
  have hloop := clearLoop_eq g.field hwf
  rw [hk] at hloop
  have hlen := keptRows_length g.field hwf
  rw [hk] at hlen
  have hle : k ≤ HEIGHT := by
    have := fullCount_add_keptRows g.field
    rw [hwf.1, hk] at this
    omega
  have hfield : g.clear_lines.field = List.replicate k emptyRow ++ keptRows g.field := by
    unfold Game.clear_lines
    simp only [hloop]
    split <;> rfl
  refine ⟨by rw [hloop], ?_, hfield, ?_, ?_, hlen⟩
  · unfold Game.clear_lines
    simp only [hloop]
    split
    · rfl
    · rename_i h
      have : (k : Int) = 0 := by omega
      simp [this]
  · rw [simClearLoop_eq_fst, hloop]
  · rw [hfield, List.length_append, List.length_replicate, hlen]
    omega

theorem clear_lines_spec_witness :
    (clearLoop (sampleGame twoFullRows).field).2 = ((2 : Nat) : Int)
      ∧ (sampleGame twoFullRows).clear_lines.linesClearedTotal
          = (sampleGame twoFullRows).linesClearedTotal + ((2 : Nat) : Int)
      ∧ (sampleGame twoFullRows).clear_lines.field
          = List.replicate 2 emptyRow ++ keptRows (sampleGame twoFullRows).field
      ∧ simClearLoop (sampleGame twoFullRows).field
          = List.replicate 2 emptyRow ++ keptRows (sampleGame twoFullRows).field
      ∧ (sampleGame twoFullRows).clear_lines.field.length = HEIGHT
      ∧ (keptRows (sampleGame twoFullRows).field).length = HEIGHT - 2 :=
  clear_lines_spec (sampleGame twoFullRows) 2 (by decide) (by decide)


/-! ## Rotation -/

theorem mask16_eq (piece : Mask) (h : piece.length = 16) :
    ∃ a0 a1 a2 a3 a4 a5 a6 a7 a8 a9 a10 a11 a12 a13 a14 a15 : Char,
      piece = [a0, a1, a2, a3, a4, a5, a6, a7, a8, a9, a10, a11, a12, a13, a14, a15] := by
  rcases piece with _ | ⟨a0, piece⟩
  · simp at h
  rcases piece with _ | ⟨a1, piece⟩
  · simp at h
  rcases piece with _ | ⟨a2, piece⟩
  · simp at h
  rcases piece with _ | ⟨a3, piece⟩
  · simp at h
  rcases piece with _ | ⟨a4, piece⟩
  · simp at h
  rcases piece with _ | ⟨a5, piece⟩
  · simp at h
  rcases piece with _ | ⟨a6, piece⟩
  · simp at h
  rcases piece with _ | ⟨a7, piece⟩
  · simp at h
  rcases piece with _ | ⟨a8, piece⟩
  · simp at h
  rcases piece with _ | ⟨a9, piece⟩
  · simp at h
  rcases piece with _ | ⟨a10, piece⟩
  · simp at h
  rcases piece with _ | ⟨a11, piece⟩
  · simp at h
  rcases piece with _ | ⟨a12, piece⟩
  · simp at h
  rcases piece with _ | ⟨a13, piece⟩
  · simp at h
  rcases piece with _ | ⟨a14, piece⟩
  · simp at h
  rcases piece with _ | ⟨a15, piece⟩
  · simp at h
  rcases piece with _ | ⟨b, piece⟩
  · exact ⟨a0, a1, a2, a3, a4, a5, a6, a7, a8, a9, a10, a11, a12, a13, a14, a15, rfl⟩
  · simp at h

theorem range4 : List.range 4 = [0, 1, 2, 3] := by decide

theorem rotatePiece_eq (a0 a1 a2 a3 a4 a5 a6 a7 a8 a9 a10 a11 a12 a13 a14 a15 : Char) :
    rotatePiece [a0, a1, a2, a3, a4, a5, a6, a7, a8, a9, a10, a11, a12, a13, a14, a15]
      = [a12, a8, a4, a0, a13, a9, a5, a1, a14, a10, a6, a2, a15, a11, a7, a3] := by
  simp only [rotatePiece, range4, List.foldl_cons, List.foldl_nil]
  simp [List.set]

theorem rotatePiece_length (piece : Mask) (h : piece.length = 16) :
    (rotatePiece piece).length = 16 := by
  obtain ⟨a0, a1, a2, a3, a4, a5, a6, a7, a8, a9, a10, a11, a12, a13, a14, a15, rfl⟩ := mask16_eq piece h
  rw [rotatePiece_eq]
  rfl

theorem rotatePiece_get (piece : Mask) (h : piece.length = 16) (y x : Nat) (hy : y < 4)
    (hx : x < 4) :
    (rotatePiece piece).getD (x * 4 + (3 - y)) ' ' = piece.getD (y * 4 + x) ' ' := by
  obtain ⟨a0, a1, a2, a3, a4, a5, a6, a7, a8, a9, a10, a11, a12, a13, a14, a15, rfl⟩ := mask16_eq piece h
  rw [rotatePiece_eq]
  interval_cases y <;> interval_cases x <;> rfl

/-- C5: on every 16-cell mask, whatever its content, four applications of `rotatePiece`
give the mask back cell for cell, and one application is the index permutation that puts
the source cell `y * 4 + x` at the target cell `x * 4 + (3 - y)`, for `y`, `x` in `0..3`
(a 16-cell mask again). -/
theorem rotatePiece_round_trip (piece : Mask) (h : piece.length = 16) :
    rotatePiece (rotatePiece (rotatePiece (rotatePiece piece))) = piece
      ∧ (rotatePiece piece).length = 16
      ∧ ∀ y < 4, ∀ x < 4,
          (rotatePiece piece).getD (x * 4 + (3 - y)) ' ' = piece.getD (y * 4 + x) ' ' := by
  refine ⟨?_, rotatePiece_length piece h, fun y hy x hx => rotatePiece_get piece h y x hy hx⟩
  obtain ⟨a0, a1, a2, a3, a4, a5, a6, a7, a8, a9, a10, a11, a12, a13, a14, a15, rfl⟩ := mask16_eq piece h
  simp only [rotatePiece_eq]

theorem rotatePiece_round_trip_witness :
    rotatePiece (rotatePiece (rotatePiece (rotatePiece "ab.X..X.cd.X.XXz".toList)))
        = "ab.X..X.cd.X.XXz".toList
      ∧ (rotatePiece "ab.X..X.cd.X.XXz".toList).length = 16
      ∧ ∀ y < 4, ∀ x < 4,
          (rotatePiece "ab.X..X.cd.X.XXz".toList).getD (x * 4 + (3 - y)) ' '
            = ("ab.X..X.cd.X.XXz".toList).getD (y * 4 + x) ' ' :=
  rotatePiece_round_trip "ab.X..X.cd.X.XXz".toList (by decide)


/-! ## Collision -/

theorem collisionRow_iff (g : Game) (ox oy : Int) (y : Nat) (xs : List Nat) :
    Game.collisionRow g ox oy y xs = true ↔
      ∃ x ∈ xs, occ g.current_piece (y * 4 + x) = true ∧
        CellHits g.field (g.pos_x + (x : Int) + ox) (g.pos_y + (y : Int) + oy) := by
  induction xs with
  | nil => simp [Game.collisionRow]
  | cons x xs ih =>
    rw [Game.collisionRow, List.exists_mem_cons_iff]
    by_cases hocc : occ g.current_piece (y * 4 + x) = true
    · rw [if_pos hocc]
      by_cases h1 : g.pos_x + (x : Int) + ox < 0 ∨ g.pos_x + (x : Int) + ox ≥ (WIDTH : Int)
      · rw [if_pos h1]
        refine ⟨fun _ => Or.inl ⟨hocc, ?_⟩, fun _ => rfl⟩
        unfold CellHits
        tauto
      · by_cases h2 : g.pos_y + (y : Int) + oy ≥ (HEIGHT : Int)
        · rw [if_neg h1, if_pos h2]
          refine ⟨fun _ => Or.inl ⟨hocc, ?_⟩, fun _ => rfl⟩
          unfold CellHits
          tauto
        · by_cases h3 : g.pos_y + (y : Int) + oy ≥ 0 ∧
              cellAtI g.field (g.pos_y + (y : Int) + oy) (g.pos_x + (x : Int) + ox) ≠ 0
          · rw [if_neg h1, if_neg h2, if_pos h3]
            refine ⟨fun _ => Or.inl ⟨hocc, ?_⟩, fun _ => rfl⟩
            unfold CellHits
            tauto
          · rw [if_neg h1, if_neg h2, if_neg h3, ih]
            constructor
            · intro h; right; exact h
            · rintro (⟨_, hh⟩ | h)
              · unfold CellHits at hh
                tauto
              · exact h
    · rw [if_neg hocc, ih]
      constructor
      · intro h; right; exact h
      · rintro (⟨ho, _⟩ | h)
        · exact absurd ho hocc
        · exact h

theorem collisionRows_iff (g : Game) (ox oy : Int) (ys : List Nat) :
    Game.collisionRows g ox oy ys = true ↔
      ∃ y ∈ ys, ∃ x ∈ List.range 4, occ g.current_piece (y * 4 + x) = true ∧
        CellHits g.field (g.pos_x + (x : Int) + ox) (g.pos_y + (y : Int) + oy) := by
  induction ys with
  | nil => simp [Game.collisionRows]
  | cons y ys ih =>
    rw [Game.collisionRows, List.exists_mem_cons_iff]
    by_cases h : Game.collisionRow g ox oy y (List.range 4) = true
    · rw [if_pos h]
      simp only [true_iff]
      left
      exact (collisionRow_iff g ox oy y _).mp h
    · rw [if_neg h, ih]
      constructor
      · intro h'; right; exact h'
      · rintro (h' | h')
        · exact absurd ((collisionRow_iff g ox oy y _).mpr h') h
        · exact h'

theorem collision_iff_Collides (g : Game) (ox oy : Int) :
    g.collision ox oy = true ↔
      Collides g.field g.current_piece (g.pos_x + ox) (g.pos_y + oy) := by
  unfold Game.collision Collides
  rw [collisionRows_iff]
  simp only [List.mem_range, add_right_comm]

theorem plannerRowScan_iff (board : Board) (piece : Mask) (x y : Int) (py : Nat)
    (pxs : List Nat) :
    plannerRowScan board piece x y py pxs = true ↔
      ∃ px ∈ pxs, occ piece (py * 4 + px) = true ∧
        CellHits board (x + (px : Int)) (y + (py : Int)) := by
  induction pxs with
  | nil => simp [plannerRowScan]
  | cons px pxs ih =>
    rw [plannerRowScan, List.exists_mem_cons_iff]
    by_cases hocc : occ piece (py * 4 + px) = true
    · rw [if_pos hocc]
      by_cases h1 : x + (px : Int) < 0 ∨ x + (px : Int) ≥ (WIDTH : Int) ∨
          y + (py : Int) ≥ (HEIGHT : Int)
      · rw [if_pos h1]
        refine ⟨fun _ => Or.inl ⟨hocc, ?_⟩, fun _ => rfl⟩
        unfold CellHits
        tauto
      · by_cases h3 : y + (py : Int) ≥ 0 ∧ cellAtI board (y + (py : Int)) (x + (px : Int)) ≠ 0
        · rw [if_neg h1, if_pos h3]
          refine ⟨fun _ => Or.inl ⟨hocc, ?_⟩, fun _ => rfl⟩
          unfold CellHits
          tauto
        · rw [if_neg h1, if_neg h3, ih]
          constructor
          · intro h; right; exact h
          · rintro (⟨_, hh⟩ | h)
            · unfold CellHits at hh
              tauto
            · exact h
    · rw [if_neg hocc, ih]
      constructor
      · intro h; right; exact h
      · rintro (⟨ho, _⟩ | h)
        · exact absurd ho hocc
        · exact h

theorem plannerScan_iff (board : Board) (piece : Mask) (x y : Int) (pys : List Nat) :
    plannerScan board piece x y pys = true ↔
      ∃ py ∈ pys, ∃ px ∈ List.range 4, occ piece (py * 4 + px) = true ∧
        CellHits board (x + (px : Int)) (y + (py : Int)) := by
  induction pys with
  | nil => simp [plannerScan]
  | cons py pys ih =>
    rw [plannerScan, List.exists_mem_cons_iff]
    by_cases h : plannerRowScan board piece x y py (List.range 4) = true
    · rw [if_pos h]
      simp only [true_iff]
      left
      exact (plannerRowScan_iff board piece x y py _).mp h
    · rw [if_neg h, ih]
      constructor
      · intro h'; right; exact h'
      · rintro (h' | h')
        · exact absurd ((plannerRowScan_iff board piece x y py _).mpr h') h
        · exact h'

theorem plannerColl_iff_Collides (board : Board) (piece : Mask) (x y : Int) :
    plannerColl board piece x y = true ↔ Collides board piece x y := by
  unfold plannerColl Collides
  rw [plannerScan_iff]
  simp only [List.mem_range]

theorem plannerColl_eq_collision (g : Game) (ox oy : Int) :
    plannerColl g.field g.current_piece (g.pos_x + ox) (g.pos_y + oy) = g.collision ox oy := by
  rw [Bool.eq_iff_iff, plannerColl_iff_Collides, collision_iff_Collides]


/-- C7: for a field of `HEIGHT` rows of `WIDTH` cells, a 16-cell mask and any integer
position, `Game::collision` is true exactly when some occupied mask cell `(px, py)` lands on
a column outside `[0, WIDTH)`, on a row `>= HEIGHT`, or on a row `>= 0` whose board cell is
not empty; when every occupied cell lands on a negative row and a column in range there is
no collision; and the planner's inline test computes the same value. -/
theorem collision_spec (g : Game) (offset_x offset_y : Int) (hwf : WellFormed g.field)
    (hm : g.current_piece.length = 16) :
    (g.collision offset_x offset_y = true ↔
        ∃ py < 4, ∃ px < 4, occ g.current_piece (py * 4 + px) = true ∧
          (g.pos_x + offset_x + (px : Int) < 0 ∨ g.pos_x + offset_x + (px : Int) ≥ (WIDTH : Int)
            ∨ g.pos_y + offset_y + (py : Int) ≥ (HEIGHT : Int)
            ∨ (g.pos_y + offset_y + (py : Int) ≥ 0 ∧
                cellAtI g.field (g.pos_y + offset_y + (py : Int))
                  (g.pos_x + offset_x + (px : Int)) ≠ 0)))
      ∧ ((∀ py < 4, ∀ px < 4, occ g.current_piece (py * 4 + px) = true →
            g.pos_y + offset_y + (py : Int) < 0 ∧ 0 ≤ g.pos_x + offset_x + (px : Int)
              ∧ g.pos_x + offset_x + (px : Int) < (WIDTH : Int)) →
          g.collision offset_x offset_y = false)
      ∧ plannerColl g.field g.current_piece (g.pos_x + offset_x) (g.pos_y + offset_y)
          = g.collision offset_x offset_y := by
  refine ⟨collision_iff_Collides g offset_x offset_y, ?_, plannerColl_eq_collision g _ _⟩
  intro h
  rw [← Bool.not_eq_true, collision_iff_Collides]
  rintro ⟨py, hpy, px, hpx, hocc, hhit⟩
  have := h py hpy px hpx hocc
  unfold CellHits at hhit
  omega

theorem collision_spec_witness :
    ((sampleGame twoFullRows).collision 0 15 = true ↔
        ∃ py < 4, ∃ px < 4, occ (sampleGame twoFullRows).current_piece (py * 4 + px) = true ∧
          ((sampleGame twoFullRows).pos_x + 0 + (px : Int) < 0
            ∨ (sampleGame twoFullRows).pos_x + 0 + (px : Int) ≥ (WIDTH : Int)
            ∨ (sampleGame twoFullRows).pos_y + 15 + (py : Int) ≥ (HEIGHT : Int)
            ∨ ((sampleGame twoFullRows).pos_y + 15 + (py : Int) ≥ 0 ∧
                cellAtI (sampleGame twoFullRows).field
                  ((sampleGame twoFullRows).pos_y + 15 + (py : Int))
                  ((sampleGame twoFullRows).pos_x + 0 + (px : Int)) ≠ 0)))
      ∧ ((∀ py < 4, ∀ px < 4, occ (sampleGame twoFullRows).current_piece (py * 4 + px) = true →
            (sampleGame twoFullRows).pos_y + 15 + (py : Int) < 0
              ∧ 0 ≤ (sampleGame twoFullRows).pos_x + 0 + (px : Int)
              ∧ (sampleGame twoFullRows).pos_x + 0 + (px : Int) < (WIDTH : Int)) →
          (sampleGame twoFullRows).collision 0 15 = false)
      ∧ plannerColl (sampleGame twoFullRows).field (sampleGame twoFullRows).current_piece
            ((sampleGame twoFullRows).pos_x + 0) ((sampleGame twoFullRows).pos_y + 15)
          = (sampleGame twoFullRows).collision 0 15 :=
  collision_spec (sampleGame twoFullRows) 0 15 (by decide) (by decide)

/-! ## Merge -/

theorem nested_foldl_eq {β : Type} (f : Nat → Nat → β → β) (ys xs : List Nat) (b : β) :
    ys.foldl (fun b y => xs.foldl (fun b x => f y x b) b) b
      = (ys.flatMap fun y => xs.map fun x => (y, x)).foldl (fun b p => f p.1 p.2 b) b := by
  induction ys generalizing b with
  | nil => rfl
  | cons y ys ih =>
    rw [List.foldl_cons, ih, List.flatMap_cons, List.foldl_append, List.foldl_map]

theorem mem_maskCells (p : Nat × Nat) : p ∈ maskCells ↔ p.1 < 4 ∧ p.2 < 4 := by
  obtain ⟨a, b⟩ := p
  simp [maskCells, List.mem_flatMap]

theorem simMerge_eq_foldl (board : Board) (piece : Mask) (pos_x pos_y color : Int) :
    simMerge board piece pos_x pos_y color
      = maskCells.foldl (fun b p => mergeCell piece pos_x pos_y color p.1 p.2 b) board := by
  unfold simMerge maskCells
  exact nested_foldl_eq (fun y x b => mergeCell piece pos_x pos_y color y x b) _ _ _

theorem setCell_wf (board : Board) (fy fx : Nat) (v : Int) (hwf : WellFormed board) :
    WellFormed (setCell board fy fx v) := by
  unfold setCell WellFormed
  refine ⟨by rw [List.length_set]; exact hwf.1, ?_⟩
  intro row hrow
  rcases List.mem_or_eq_of_mem_set hrow with h | h
  · exact hwf.2 row h
  · rw [h, List.length_set]
    by_cases hfy : fy < board.length
    · rw [List.getD_eq_getElem _ _ hfy]
      exact hwf.2 _ (List.getElem_mem hfy)
    · exfalso
      rw [List.set_eq_of_length_le (not_lt.mp hfy)] at hrow
      have := List.set_eq_of_length_le (a := (board.getD fy []).set fx v) (not_lt.mp hfy)
      simp [List.getD_eq_getElem?_getD, List.getElem?_eq_none (not_lt.mp hfy)] at h
      have hl := hwf.2 row hrow
      rw [h] at hl
      simp [WIDTH] at hl

theorem cellAt_setCell (board : Board) (fy fx : Nat) (v : Int) (hwf : WellFormed board)
    (hfy : fy < HEIGHT) (hfx : fx < WIDTH) (r c : Nat) :
    cellAt (setCell board fy fx v) r c = if r = fy ∧ c = fx then v else cellAt board r c := by
  have hlen : fy < board.length := by rw [hwf.1]; exact hfy
  have hrow : (board[fy]).length = WIDTH := hwf.2 _ (List.getElem_mem hlen)
  unfold cellAt setCell
  simp only [List.getD_eq_getElem?_getD, List.getElem?_set]
  by_cases hr : fy = r
  · subst hr
    simp only [hlen, if_true, Option.getD_some, List.getElem?_eq_getElem, true_and]
    by_cases hc : fx = c
    · subst hc
      simp [hrow, hfx]
    · have hc' : ¬ c = fx := fun h => hc h.symm
      simp [hc, hc']
  · have hr' : ¬ r = fy := fun h => hr h.symm
    simp [hr, hr']


theorem mergeCell_wf (piece : Mask) (pos_x pos_y color : Int) (y x : Nat) (b : Board)
    (hwf : WellFormed b) : WellFormed (mergeCell piece pos_x pos_y color y x b) := by
  unfold mergeCell
  split
  · simp only []
    split
    · exact setCell_wf _ _ _ _ hwf
    · exact hwf
  · exact hwf

theorem cellAt_mergeCell (piece : Mask) (pos_x pos_y color : Int) (y x : Nat) (b : Board)
    (hwf : WellFormed b) (r c : Nat) :
    cellAt (mergeCell piece pos_x pos_y color y x b) r c =
      if occ piece (y * 4 + x) = true ∧ pos_y + (y : Int) = (r : Int)
          ∧ pos_x + (x : Int) = (c : Int) ∧ r < HEIGHT ∧ c < WIDTH
      then color else cellAt b r c := by
  unfold mergeCell
  by_cases hocc : occ piece (y * 4 + x) = true
  · rw [if_pos hocc]
    simp only []
    by_cases hin : pos_y + (y : Int) ≥ 0 ∧ pos_y + (y : Int) < (HEIGHT : Int)
        ∧ pos_x + (x : Int) ≥ 0 ∧ pos_x + (x : Int) < (WIDTH : Int)
    · rw [if_pos hin, cellAt_setCell _ _ _ _ hwf (by omega) (by omega)]
      by_cases h : r = (pos_y + (y : Int)).toNat ∧ c = (pos_x + (x : Int)).toNat
      · rw [if_pos h, if_pos]
        refine ⟨hocc, by omega, by omega, by omega, by omega⟩
      · rw [if_neg h, if_neg]
        rintro ⟨_, h1, h2, _, _⟩
        apply h
        omega
    · rw [if_neg hin, if_neg]
      rintro ⟨_, h1, h2, h3, h4⟩
      apply hin
      omega
  · rw [if_neg hocc, if_neg]
    rintro ⟨h, _⟩
    exact hocc h

theorem merge_foldl_spec (piece : Mask) (pos_x pos_y color : Int) (cells : List (Nat × Nat))
    (b : Board) (hwf : WellFormed b) :
    WellFormed (cells.foldl (fun b p => mergeCell piece pos_x pos_y color p.1 p.2 b) b)
      ∧ ∀ r c : Nat,
        ((∃ p ∈ cells, occ piece (p.1 * 4 + p.2) = true ∧ pos_y + (p.1 : Int) = (r : Int)
              ∧ pos_x + (p.2 : Int) = (c : Int) ∧ r < HEIGHT ∧ c < WIDTH) →
            cellAt (cells.foldl (fun b p => mergeCell piece pos_x pos_y color p.1 p.2 b) b) r c
              = color)
        ∧ ((¬ ∃ p ∈ cells, occ piece (p.1 * 4 + p.2) = true ∧ pos_y + (p.1 : Int) = (r : Int)
              ∧ pos_x + (p.2 : Int) = (c : Int) ∧ r < HEIGHT ∧ c < WIDTH) →
            cellAt (cells.foldl (fun b p => mergeCell piece pos_x pos_y color p.1 p.2 b) b) r c
              = cellAt b r c) := by
  induction cells generalizing b with
  | nil =>
    refine ⟨hwf, fun r c => ⟨?_, fun _ => rfl⟩⟩
    rintro ⟨p, hp, _⟩
    cases hp
  | cons p rest ih =>
    have hwf1 := mergeCell_wf piece pos_x pos_y color p.1 p.2 b hwf
    obtain ⟨hwf', hcells⟩ := ih (mergeCell piece pos_x pos_y color p.1 p.2 b) hwf1
    rw [List.foldl_cons]
    refine ⟨hwf', fun r c => ?_⟩
    have hone := cellAt_mergeCell piece pos_x pos_y color p.1 p.2 b hwf r c
    obtain ⟨hin, hout⟩ := hcells r c
    by_cases hrest : ∃ q ∈ rest, occ piece (q.1 * 4 + q.2) = true
        ∧ pos_y + (q.1 : Int) = (r : Int) ∧ pos_x + (q.2 : Int) = (c : Int)
        ∧ r < HEIGHT ∧ c < WIDTH
    · refine ⟨fun _ => hin hrest, fun hno => ?_⟩
      exfalso
      apply hno
      obtain ⟨q, hq, hh⟩ := hrest
      exact ⟨q, List.mem_cons_of_mem _ hq, hh⟩
    · rw [hout hrest, hone]
      constructor
      · rintro ⟨q, hq, hh⟩
        rcases List.mem_cons.mp hq with rfl | hq
        · rw [if_pos hh]
        · exact absurd ⟨q, hq, hh⟩ hrest
      · intro hno
        rw [if_neg]
        intro hh
        exact hno ⟨p, List.mem_cons_self _ _, hh⟩

theorem simMerge_spec (board : Board) (piece : Mask) (pos_x pos_y color : Int)
    (hwf : WellFormed board) :
    WellFormed (simMerge board piece pos_x pos_y color)
      ∧ (∀ r c : Nat, r < HEIGHT → c < WIDTH → Covers piece pos_x pos_y r c →
          cellAt (simMerge board piece pos_x pos_y color) r c = color)
      ∧ (∀ r c : Nat, ¬ Covers piece pos_x pos_y r c →
          cellAt (simMerge board piece pos_x pos_y color) r c = cellAt board r c) := by
  rw [simMerge_eq_foldl]
  obtain ⟨hwf', hcells⟩ := merge_foldl_spec piece pos_x pos_y color maskCells board hwf
  refine ⟨hwf', fun r c hr hc hcov => ?_, fun r c hcov => ?_⟩
  · apply (hcells r c).1
    obtain ⟨py, hpy, px, hpx, hocc, h1, h2⟩ := hcov
    exact ⟨(py, px), (mem_maskCells _).mpr ⟨hpy, hpx⟩, hocc, h1, h2, hr, hc⟩
  · apply (hcells r c).2
    rintro ⟨p, hp, hocc, h1, h2, _, _⟩
    exact hcov ⟨p.1, ((mem_maskCells _).mp hp).1, p.2, ((mem_maskCells _).mp hp).2, hocc, h1, h2⟩

theorem merge_piece_field (g : Game) :
    g.merge_piece.field = simMerge g.field g.current_piece g.pos_x g.pos_y g.current_color :=
  rfl

/-- C8: on a field of `HEIGHT` rows of `WIDTH` cells, `merge_piece` keeps the dimensions,
sets to the current colour every grid cell `(pos_y + py, pos_x + px)` under an occupied
mask cell, leaves every other cell as it was (occupied mask cells outside the grid write
nothing), and the merge loop of `simulateDrop` computes the same board. -/
theorem merge_piece_frame (g : Game) (hwf : WellFormed g.field)
    (hm : g.current_piece.length = 16) :
    WellFormed g.merge_piece.field
      ∧ (∀ r c : Nat, r < HEIGHT → c < WIDTH →
          Covers g.current_piece g.pos_x g.pos_y r c →
          cellAt g.merge_piece.field r c = g.current_color)
      ∧ (∀ r c : Nat, ¬ Covers g.current_piece g.pos_x g.pos_y r c →
          cellAt g.merge_piece.field r c = cellAt g.field r c)
      ∧ simMerge g.field g.current_piece g.pos_x g.pos_y g.current_color
          = g.merge_piece.field := by
  rw [merge_piece_field]
  obtain ⟨h1, h2, h3⟩ :=
    simMerge_spec g.field g.current_piece g.pos_x g.pos_y g.current_color hwf
  exact ⟨h1, h2, h3, rfl⟩

theorem merge_piece_frame_witness :
    WellFormed (sampleGame twoFullRows).merge_piece.field
      ∧ (∀ r c : Nat, r < HEIGHT → c < WIDTH →
          Covers (sampleGame twoFullRows).current_piece (sampleGame twoFullRows).pos_x
            (sampleGame twoFullRows).pos_y r c →
          cellAt (sampleGame twoFullRows).merge_piece.field r c
            = (sampleGame twoFullRows).current_color)
      ∧ (∀ r c : Nat, ¬ Covers (sampleGame twoFullRows).current_piece
            (sampleGame twoFullRows).pos_x (sampleGame twoFullRows).pos_y r c →
          cellAt (sampleGame twoFullRows).merge_piece.field r c
            = cellAt (sampleGame twoFullRows).field r c)
      ∧ simMerge (sampleGame twoFullRows).field (sampleGame twoFullRows).current_piece
            (sampleGame twoFullRows).pos_x (sampleGame twoFullRows).pos_y
            (sampleGame twoFullRows).current_color
          = (sampleGame twoFullRows).merge_piece.field :=
  merge_piece_frame (sampleGame twoFullRows) (by decide) (by decide)


/-! ## Board metrics -/

theorem foldl_le_of_step {α : Type} (f : Int → α → Int) (h : ∀ acc x, acc ≤ f acc x)
    (l : List α) (init : Int) : init ≤ l.foldl f init := by
  induction l generalizing init with
  | nil => exact le_refl _
  | cons a l ih => exact le_trans (h init a) (ih (f init a))

theorem colHeightAux_nonneg (board : Board) (x : Nat) (ys : List Nat)
    (h : ∀ y ∈ ys, y < HEIGHT) : 0 ≤ colHeightAux board x ys := by
  induction ys with
  | nil => exact le_refl _
  | cons y ys ih =>
    unfold colHeightAux
    split
    · have := h y (List.mem_cons_self _ _)
      omega
    · exact ih fun y' hy' => h y' (List.mem_cons_of_mem _ hy')

theorem holes_inner_le (board : Board) (x : Nat) (ys : List Nat) (st : Bool × Int) :
    st.2 ≤ (ys.foldl (holesStep board x) st).2 := by
  induction ys generalizing st with
  | nil => exact le_refl _
  | cons y ys ih =>
    rw [List.foldl_cons]
    refine le_trans ?_ (ih _)
    unfold holesStep
    split
    · exact le_refl _
    · split
      · simp
      · exact le_refl _

theorem aggregateHeight_nonneg (board : Board) : 0 ≤ aggregateHeight board := by
  unfold aggregateHeight
  apply foldl_le_of_step
  intro acc x
  have := colHeightAux_nonneg board x (List.range HEIGHT) fun y hy => List.mem_range.mp hy
  omega

theorem countHoles_nonneg (board : Board) : 0 ≤ countHoles board := by
  unfold countHoles
  apply foldl_le_of_step
  intro acc x
  exact holes_inner_le board x _ (false, acc)

theorem bumpiness_nonneg (board : Board) : 0 ≤ bumpiness board := by
  unfold bumpiness
  apply foldl_le_of_step
  intro acc x
  omega

theorem completeLines_nonneg (board : Board) : 0 ≤ completeLines board := by
  unfold completeLines
  apply foldl_le_of_step
  intro acc y
  split <;> omega

/-- C9: on every board of `HEIGHT` rows of `WIDTH` cells, `aggregateHeight`, `countHoles`,
`bumpiness` and `completeLines` are non-negative, and on the completely empty board all
four are 0. -/
theorem metrics_nonneg (board : Board) (hwf : WellFormed board) :
    0 ≤ aggregateHeight board ∧ 0 ≤ countHoles board ∧ 0 ≤ bumpiness board
      ∧ 0 ≤ completeLines board
      ∧ aggregateHeight emptyBoard = 0 ∧ countHoles emptyBoard = 0
      ∧ bumpiness emptyBoard = 0 ∧ completeLines emptyBoard = 0 :=
  ⟨aggregateHeight_nonneg board, countHoles_nonneg board, bumpiness_nonneg board,
    completeLines_nonneg board, by decide, by decide, by decide, by decide⟩

theorem metrics_nonneg_witness :
    0 ≤ aggregateHeight twoFullRows ∧ 0 ≤ countHoles twoFullRows ∧ 0 ≤ bumpiness twoFullRows
      ∧ 0 ≤ completeLines twoFullRows
      ∧ aggregateHeight emptyBoard = 0 ∧ countHoles emptyBoard = 0
      ∧ bumpiness emptyBoard = 0 ∧ completeLines emptyBoard = 0 :=
  metrics_nonneg twoFullRows (by decide)


/-! ## Scoring -/

section

set_option maxRecDepth 100000

/-- C6, as stated, fails: in a session at level 1 with nine lines cleared so far, a
`clear_lines` call that removes one line raises the score by 80, not 40, because the level
is recomputed (to 2) before the score is awarded. -/
theorem clear_lines_level_one_counterexample :
    WellFormed nineLinesGame.field ∧ nineLinesGame.level = 1
      ∧ (clearLoop nineLinesGame.field).2 = 1
      ∧ nineLinesGame.clear_lines.score = nineLinesGame.score + 80
      ∧ nineLinesGame.clear_lines.score ≠ nineLinesGame.score + 40 := by
  decide

end

/-- C6, amended: a `clear_lines` call that removes `k` lines, `k` in `1..4`, first sets the
level to `(linesClearedTotal + k) / 10 + 1` and then adds the table value times that new
level to the score; so when the level after the update is 1 the score rises by exactly
40, 100, 300, 1200 for `k` = 1, 2, 3, 4, and when it is 2 four lines give exactly 2400. -/
theorem clear_lines_score (g : Game) (k : Nat) (hwf : WellFormed g.field)
    (hk : fullCount g.field = k) (hk1 : 1 ≤ k) (hk4 : k ≤ 4) :
    g.clear_lines.level = (g.linesClearedTotal + (k : Int)).tdiv 10 + 1
      ∧ g.clear_lines.score = g.score + baseScore (k : Int) * g.clear_lines.level
      ∧ (g.clear_lines.level = 1 →
          (k = 1 → g.clear_lines.score = g.score + 40)
            ∧ (k = 2 → g.clear_lines.score = g.score + 100)
            ∧ (k = 3 → g.clear_lines.score = g.score + 300)
            ∧ (k = 4 → g.clear_lines.score = g.score + 1200))
      ∧ (g.clear_lines.level = 2 → k = 4 → g.clear_lines.score = g.score + 2400) := by
  have hloop := clearLoop_eq g.field hwf
  rw [hk] at hloop
  have hpos : ((k : Nat) : Int) > 0 := by omega
  have hlevel : g.clear_lines.level = (g.linesClearedTotal + (k : Int)).tdiv 10 + 1 := by
    unfold Game.clear_lines
    simp only [hloop, hpos, if_true]
  have hscore : g.clear_lines.score = g.score + baseScore (k : Int) * g.clear_lines.level := by
    rw [hlevel]
    unfold Game.clear_lines
    simp only [hloop, hpos, if_true]
  refine ⟨hlevel, hscore, ?_, ?_⟩
  · intro h1
    rw [hscore, h1]
    refine ⟨?_, ?_, ?_, ?_⟩ <;> intro hk' <;> subst hk' <;> simp [baseScore]
  · intro h2 hk'
    rw [hscore, h2]
    subst hk'
    simp [baseScore]

theorem clear_lines_score_witness :
    (sampleGame twoFullRows).clear_lines.level
        = ((sampleGame twoFullRows).linesClearedTotal + ((2 : Nat) : Int)).tdiv 10 + 1
      ∧ (sampleGame twoFullRows).clear_lines.score
          = (sampleGame twoFullRows).score
            + baseScore ((2 : Nat) : Int) * (sampleGame twoFullRows).clear_lines.level
      ∧ ((sampleGame twoFullRows).clear_lines.level = 1 →
          ((2 : Nat) = 1 →
              (sampleGame twoFullRows).clear_lines.score = (sampleGame twoFullRows).score + 40)
            ∧ ((2 : Nat) = 2 →
              (sampleGame twoFullRows).clear_lines.score = (sampleGame twoFullRows).score + 100)
            ∧ ((2 : Nat) = 3 →
              (sampleGame twoFullRows).clear_lines.score = (sampleGame twoFullRows).score + 300)
            ∧ ((2 : Nat) = 4 →
              (sampleGame twoFullRows).clear_lines.score
                = (sampleGame twoFullRows).score + 1200))
      ∧ ((sampleGame twoFullRows).clear_lines.level = 2 → (2 : Nat) = 4 →
          (sampleGame twoFullRows).clear_lines.score = (sampleGame twoFullRows).score + 2400) :=
  clear_lines_score (sampleGame twoFullRows) 2 (by decide) (by decide) (by decide) (by decide)

/-! ## Spawning -/

/-- C10: when the base mask of the drawn piece collides at the spawn position (column
`WIDTH / 2 - 2`, row 0), `spawn_piece` leaves the session finished with `agent.fitness`
equal to the score, and the score and the field as they were; with score 0 the fitness
is 0. -/
theorem spawn_piece_game_over (g : Game) (type : Nat) (hwf : WellFormed g.field)
    (hcoll : Collides g.field ((TETROMINOES.getD type []).getD 0 [])
      ((WIDTH : Int).tdiv 2 - 2) 0) :
    (g.spawn_piece type).finished = true
      ∧ (g.spawn_piece type).agent.fitness = (g.score : ℚ)
      ∧ (g.spawn_piece type).score = g.score
      ∧ (g.spawn_piece type).field = g.field
      ∧ (g.score = 0 → (g.spawn_piece type).agent.fitness = 0) := by
  have hc : ({ g with
      current_piece := (TETROMINOES.getD type []).getD 0 []
      current_color := (type : Int) + 1
      pos_x := (WIDTH : Int).tdiv 2 - 2
      pos_y := 0 } : Game).collision = true := by
    rw [collision_iff_Collides]
    simpa using hcoll
  unfold Game.spawn_piece
  simp only [hc, if_true]
  refine ⟨rfl, rfl, rfl, rfl, ?_⟩
  intro h0
  simp [Game.gameOver, h0]

theorem spawn_piece_game_over_witness :
    ((sampleGame towerBoard).spawn_piece 0).finished = true
      ∧ ((sampleGame towerBoard).spawn_piece 0).agent.fitness
          = ((sampleGame towerBoard).score : ℚ)
      ∧ ((sampleGame towerBoard).spawn_piece 0).score = (sampleGame towerBoard).score
      ∧ ((sampleGame towerBoard).spawn_piece 0).field = (sampleGame towerBoard).field
      ∧ ((sampleGame towerBoard).score = 0 →
          ((sampleGame towerBoard).spawn_piece 0).agent.fitness = 0) :=
  spawn_piece_game_over (sampleGame towerBoard) 0 (by decide)
    ((plannerColl_iff_Collides _ _ _ _).mp (by decide))


/-! ## Move planner -/

/-- Elimination rule for a `for (v = lo; v < hi; v++)` loop whose body may fail: an
invariant indexed by the loop variable that holds on entry and is carried by every
iteration holds at `hi`, and the loop does not fail. -/
theorem foldlM_intRange_elim {β : Type} (f : β → Int → Option β) (Q : Int → β → Prop)
    (lo hi : Int) (hle : lo ≤ hi) (init : β) (h0 : Q lo init)
    (hstep : ∀ v b, lo ≤ v → v < hi → Q v b → ∃ b', f b v = some b' ∧ Q (v + 1) b') :
    ∃ b, (intRange lo hi).foldlM f init = some b ∧ Q hi b := by
  have key : ∀ n : Nat, (n : Int) ≤ hi - lo →
      ∃ b, ((List.range n).map fun i : Nat => lo + (i : Int)).foldlM f init = some b
        ∧ Q (lo + (n : Int)) b := by
    intro n
    induction n with
    | zero =>
      intro _
      exact ⟨init, rfl, by simpa using h0⟩
    | succ n ih =>
      intro hn
      obtain ⟨b, hb, hQ⟩ := ih (by push_cast at hn; omega)
      obtain ⟨b', hb', hQ'⟩ := hstep (lo + (n : Int)) b (by omega) (by push_cast at hn; omega) hQ
      refine ⟨b', ?_, ?_⟩
      · rw [List.range_succ, List.map_append, List.foldlM_append, hb]
        simp [hb']
      · have : lo + ((n + 1 : Nat) : Int) = lo + (n : Int) + 1 := by push_cast; ring
        rw [this]
        exact hQ'
  obtain ⟨b, hb, hQ⟩ := key (hi - lo).toNat (by omega)
  refine ⟨b, hb, ?_⟩
  have : lo + ((hi - lo).toNat : Int) = hi := by omega
  rw [this] at hQ
  exact hQ

theorem rotatePiece_nonEmpty (piece : Mask) (hlen : piece.length = 16)
    (hne : NonEmptyMask piece) : NonEmptyMask (rotatePiece piece) := by
  obtain ⟨i, hi, hocc⟩ := hne
  have hget := rotatePiece_get piece hlen (i / 4) (i % 4) (by omega) (by omega)
  refine ⟨(i % 4) * 4 + (3 - i / 4), by omega, ?_⟩
  unfold occ at *
  rw [hget]
  have : i / 4 * 4 + i % 4 = i := by omega
  rw [this]
  exact hocc

theorem rotN_succ (r : Nat) (piece : Mask) : rotN (r + 1) piece = rotatePiece (rotN r piece) := by
  unfold rotN
  exact Function.iterate_succ_apply' _ _ _

theorem rotN_shape (r : Nat) (piece : Mask) (hlen : piece.length = 16)
    (hne : NonEmptyMask piece) : (rotN r piece).length = 16 ∧ NonEmptyMask (rotN r piece) := by
  induction r with
  | zero => exact ⟨hlen, hne⟩
  | succ r ih =>
    rw [rotN_succ]
    exact ⟨rotatePiece_length _ ih.1, rotatePiece_nonEmpty _ ih.1 ih.2⟩

theorem collides_below (board : Board) (piece : Mask) (hne : NonEmptyMask piece) (x y : Int)
    (hy : (HEIGHT : Int) ≤ y) : Collides board piece x y := by
  obtain ⟨i, hi, hocc⟩ := hne
  refine ⟨i / 4, by omega, i % 4, by omega, ?_, ?_⟩
  · have : i / 4 * 4 + i % 4 = i := by omega
    rw [this]
    exact hocc
  · unfold CellHits
    right; right; left
    omega

/-- The hard-drop scan started at a row `0 <= y <= HEIGHT` with enough fuel stops, at the
first row from `y` on at which the mask collides, and that row is at most `HEIGHT`. -/
theorem dropScan_spec (board : Board) (piece : Mask) (hne : NonEmptyMask piece) (x : Int)
    (fuel : Nat) (y : Int) (hy : 0 ≤ y) (hyH : y ≤ (HEIGHT : Int))
    (hfuel : (HEIGHT : Int) + 1 ≤ (fuel : Int) + y) :
    ∃ y0, dropScan board piece x fuel y = some y0 ∧ y ≤ y0 ∧ y0 ≤ (HEIGHT : Int)
      ∧ Collides board piece x y0
      ∧ ∀ y', y ≤ y' → y' < y0 → ¬ Collides board piece x y' := by
  induction fuel generalizing y with
  | zero => exfalso; push_cast at hfuel; omega
  | succ fuel ih =>
    unfold dropScan
    by_cases hc : plannerColl board piece x y = true
    · rw [if_pos hc]
      exact ⟨y, rfl, le_refl _, hyH, (plannerColl_iff_Collides _ _ _ _).mp hc,
        fun y' h1 h2 => by omega⟩
    · rw [if_neg hc]
      have hnc : ¬ Collides board piece x y := fun h =>
        hc ((plannerColl_iff_Collides _ _ _ _).mpr h)
      have hlt : y < (HEIGHT : Int) := by
        by_contra hge
        exact hnc (collides_below board piece hne x y (by omega))
      obtain ⟨y0, h1, h2, h3, h4, h5⟩ := ih (y + 1) (by omega) (by omega)
        (by push_cast at hfuel; omega)
      refine ⟨y0, h1, by omega, h3, h4, fun y' hy1 hy2 => ?_⟩
      by_cases hyy : y' = y
      · rw [hyy]; exact hnc
      · exact h5 y' (by omega) hy2

theorem restsAt_unique (board : Board) (piece : Mask) (x y1 y2 : Int) (h1 : 0 ≤ y1)
    (h2 : 0 ≤ y2) (hr1 : RestsAt board piece x y1) (hr2 : RestsAt board piece x y2) :
    y1 = y2 := by
  by_contra hne
  rcases lt_or_gt_of_ne hne with h | h
  · exact hr2.1 (y1 + 1) (by omega) (by omega) hr1.2
  · exact hr1.1 (y2 + 1) (by omega) (by omega) hr2.2


theorem before_succ (r x r0 x0 : Int) :
    Before r x r0 (x0 + 1) ↔ Before r x r0 x0 ∨ (r = r0 ∧ x = x0) := by
  unfold Before
  omega

theorem before_irrefl (r x : Int) : ¬ Before r x r x := by
  unfold Before
  omega

theorem before_asymm (r x r' x' : Int) (h : Before r x r' x') : ¬ Before r' x' r x := by
  unfold Before at *
  omega

/-- One iteration of the `x` loop keeps the planner invariant and does not run out of
fuel. -/
theorem planStep_inv (fuel : Nat) (board : Board) (piece : Mask) (color : Int) (agent : Agent)
    (hlen : piece.length = 16) (hne : NonEmptyMask piece) (hfuel : HEIGHT + 1 ≤ fuel)
    (r0 x0 : Int) (hr0 : 0 ≤ r0) (hr4 : r0 < 4) (hx0 : -4 ≤ x0) (hxW : x0 < (WIDTH : Int))
    (mv : Move) (hinv : PlanInv board piece color agent r0 x0 mv) :
    ∃ mv', planStep fuel board (rotN r0.toNat piece) color agent r0 mv x0 = some mv'
      ∧ PlanInv board piece color agent r0 (x0 + 1) mv' := by
  obtain ⟨_, hn⟩ := rotN_shape r0.toNat piece hlen hne
  obtain ⟨y0, hscan, hy0, hy0H, hcoll, hfree⟩ :=
    dropScan_spec board (rotN r0.toNat piece) hn x0 fuel 0 (le_refl _)
      (by exact_mod_cast Nat.zero_le _) (by omega)
  unfold planStep
  rw [hscan]
  simp only []
  by_cases hy : y0 - 1 < 0
  · rw [if_pos hy]
    refine ⟨mv, rfl, ?_⟩
    have hy00 : y0 = 0 := by omega
    have hill : ∀ y, ¬ Legal board piece r0 x0 y := by
      intro y hL
      apply hL.2.2.2.2.2.1 0 (le_refl _) hL.2.2.2.2.1
      rw [← hy00]
      exact hcoll
    rcases hinv with ⟨hmv, hnone⟩ | ⟨r, x, y, hmv, hL, hB, hall⟩
    · left
      refine ⟨hmv, fun r x y hL hB => ?_⟩
      rw [before_succ] at hB
      rcases hB with hB | ⟨rfl, rfl⟩
      · exact hnone _ _ _ hL hB
      · exact hill y hL
    · right
      refine ⟨r, x, y, hmv, hL, (before_succ _ _ _ _).mpr (Or.inl hB), fun r' x' y' hL' hB' => ?_⟩
      rw [before_succ] at hB'
      rcases hB' with hB' | ⟨rfl, rfl⟩
      · exact hall _ _ _ hL' hB'
      · exact absurd hL' (hill y')
  · rw [if_neg hy]
    have hrest : RestsAt board (rotN r0.toNat piece) x0 (y0 - 1) := by
      refine ⟨fun y' h1 h2 => hfree y' h1 (by omega), ?_⟩
      rw [sub_add_cancel]
      exact hcoll
    have hL0 : Legal board piece r0 x0 (y0 - 1) := ⟨hr0, hr4, hx0, hxW, by omega, hrest⟩
    have huniq : ∀ y', Legal board piece r0 x0 y' → y' = y0 - 1 := fun y' hL' =>
      restsAt_unique _ _ _ _ _ hL'.2.2.2.2.1 (by omega) hL'.2.2.2.2.2 hrest
    have hself : Before r0 x0 r0 (x0 + 1) := (before_succ _ _ _ _).mpr (Or.inr ⟨rfl, rfl⟩)
    change ∃ mv', (if scoreGt (candScore board piece color agent r0 x0 (y0 - 1)) mv.score = true
        then some { rotation := some r0, x := some x0,
                    score := some (candScore board piece color agent r0 x0 (y0 - 1)) }
        else some mv) = some mv' ∧ PlanInv board piece color agent r0 (x0 + 1) mv'
    rcases hinv with ⟨hmv, hnone⟩ | ⟨r, x, y, hmv, hL, hB, hall⟩
    · subst hmv
      rw [if_pos (show scoreGt _ none = true from rfl)]
      refine ⟨_, rfl, Or.inr ⟨r0, x0, y0 - 1, rfl, hL0, hself, fun r' x' y' hL' hB' => ?_⟩⟩
      rw [before_succ] at hB'
      rcases hB' with hB' | ⟨rfl, rfl⟩
      · exact absurd hB' (hnone _ _ _ hL')
      · rw [huniq y' hL']
        exact ⟨le_refl _, fun hb => absurd hb (before_irrefl _ _)⟩
    · subst hmv
      by_cases hgt : candScore board piece color agent r0 x0 (y0 - 1)
          > candScore board piece color agent r x y
      · rw [if_pos (by simpa [scoreGt] using hgt)]
        refine ⟨_, rfl, Or.inr ⟨r0, x0, y0 - 1, rfl, hL0, hself, fun r' x' y' hL' hB' => ?_⟩⟩
        rw [before_succ] at hB'
        rcases hB' with hB' | ⟨rfl, rfl⟩
        · have hle := (hall r' x' y' hL' hB').1
          exact ⟨le_of_lt (lt_of_le_of_lt hle hgt), fun _ => lt_of_le_of_lt hle hgt⟩
        · rw [huniq y' hL']
          exact ⟨le_refl _, fun hb => absurd hb (before_irrefl _ _)⟩
      · rw [if_neg (by simpa [scoreGt] using hgt)]
        refine ⟨_, rfl, Or.inr ⟨r, x, y, rfl, hL,
          (before_succ _ _ _ _).mpr (Or.inl hB), fun r' x' y' hL' hB' => ?_⟩⟩
        rw [before_succ] at hB'
        rcases hB' with hB' | ⟨rfl, rfl⟩
        · exact hall _ _ _ hL' hB'
        · rw [huniq y' hL']
          exact ⟨not_lt.mp hgt, fun hb => absurd hb (before_asymm _ _ _ _ hB)⟩


theorem planInv_next_rotation (board : Board) (piece : Mask) (color : Int) (agent : Agent)
    (r0 : Int) (mv : Move) (h : PlanInv board piece color agent r0 (WIDTH : Int) mv) :
    PlanInv board piece color agent (r0 + 1) (-4) mv := by
  have hconv : ∀ r x y, Legal board piece r x y →
      (Before r x r0 (WIDTH : Int) ↔ Before r x (r0 + 1) (-4)) := by
    intro r x y hL
    obtain ⟨_, _, h3, h4, _, _⟩ := hL
    unfold Before
    omega
  rcases h with ⟨hmv, hnone⟩ | ⟨r, x, y, hmv, hL, hB, hall⟩
  · left
    exact ⟨hmv, fun r x y hL hB => hnone r x y hL ((hconv r x y hL).mpr hB)⟩
  · right
    exact ⟨r, x, y, hmv, hL, (hconv r x y hL).mp hB,
      fun r' x' y' hL' hB' => hall r' x' y' hL' ((hconv r' x' y' hL').mpr hB')⟩

/-- One iteration of the `r` loop: the `x` loop finishes, the mask is turned once more,
and the planner invariant moves on to the next rotation. -/
theorem planRotation_inv (fuel : Nat) (board : Board) (piece : Mask) (color : Int)
    (agent : Agent) (hlen : piece.length = 16) (hne : NonEmptyMask piece)
    (hfuel : HEIGHT + 1 ≤ fuel) (r0 : Int) (hr0 : 0 ≤ r0) (hr4 : r0 < 4) (st : Mask × Move)
    (hst : st.1 = rotN r0.toNat piece) (hinv : PlanInv board piece color agent r0 (-4) st.2) :
    ∃ st', planRotation fuel board color agent st r0 = some st'
      ∧ st'.1 = rotN (r0 + 1).toNat piece
      ∧ PlanInv board piece color agent (r0 + 1) (-4) st'.2 := by
  unfold planRotation
  rw [hst]
  obtain ⟨mv', hloop, hQ⟩ :=
    foldlM_intRange_elim (planStep fuel board (rotN r0.toNat piece) color agent r0)
      (fun x mv => PlanInv board piece color agent r0 x mv) (-4) (WIDTH : Int)
      (by unfold WIDTH; omega) st.2 hinv
      (fun v b h1 h2 hq =>
        planStep_inv fuel board piece color agent hlen hne hfuel r0 v hr0 hr4 h1 h2 b hq)
  rw [hloop]
  refine ⟨_, rfl, ?_, planInv_next_rotation _ _ _ _ _ _ hQ⟩
  have : (r0 + 1).toNat = r0.toNat + 1 := by omega
  rw [this, rotN_succ]

/-- With enough fuel for every drop scan, `computeBestMove` returns, and what it returns
satisfies the planner invariant over all candidates. -/
theorem computeBestMove_inv (fuel : Nat) (board : Board) (piece : Mask) (color : Int)
    (agent : Agent) (hlen : piece.length = 16) (hne : NonEmptyMask piece)
    (hfuel : HEIGHT + 1 ≤ fuel) :
    ∃ mv, computeBestMove fuel board piece color agent = some mv
      ∧ PlanInv board piece color agent 4 (-4) mv := by
  unfold computeBestMove
  obtain ⟨st, hloop, _, hQ⟩ :=
    foldlM_intRange_elim (planRotation fuel board color agent)
      (fun r st => st.1 = rotN r.toNat piece ∧ PlanInv board piece color agent r (-4) st.2)
      0 4 (by omega) (piece, { rotation := none, x := none, score := none })
      ⟨rfl, Or.inl ⟨rfl, fun r x y hL hB => by
        obtain ⟨h1, _, h3, _, _, _⟩ := hL
        unfold Before at hB
        omega⟩⟩
      (fun v st h1 h2 hq =>
        planRotation_inv fuel board piece color agent hlen hne hfuel v h1 h2 st hq.1 hq.2)
  rw [hloop]
  exact ⟨st.2, rfl, hQ⟩

theorem legal_before_end (board : Board) (piece : Mask) (r x y : Int)
    (hL : Legal board piece r x y) : Before r x 4 (-4) := by
  obtain ⟨_, h2, _, _, _, _⟩ := hL
  unfold Before
  omega


theorem legal_of_nat (board : Board) (piece : Mask) (r : Nat) (x y : Int) (hr : r < 4)
    (hx : -4 ≤ x) (hxW : x < (WIDTH : Int)) (hy : 0 ≤ y)
    (hrest : RestsAt board (rotN r piece) x y) : Legal board piece (r : Int) x y := by
  refine ⟨by omega, by omega, hx, hxW, hy, ?_⟩
  rw [Int.toNat_ofNat]
  exact hrest

theorem candScore_of_nat (board : Board) (piece : Mask) (color : Int) (agent : Agent) (r : Nat)
    (x y : Int) :
    candScore board piece color agent (r : Int) x y
      = evaluateBoard (simulateDrop board (rotN r piece) x y color) agent := by
  unfold candScore
  rw [Int.toNat_ofNat]

/-- The planner evaluated on the empty board and the O piece: the first of the
equal-scoring best placements, rotation 0 in column -1, is returned. -/
theorem computeBestMove_emptyBoard_maskO :
    computeBestMove 21 emptyBoard maskO 3 sampleAgent
      = some { rotation := some 0, x := some (-1), score := some (-6) } := by
  decide!

/-- C2: on a board of `HEIGHT` rows of `WIDTH` cells and a 16-cell mask with an occupied
cell, `computeBestMove` returns (every drop scan ends within `HEIGHT + 1` tests), and when
the returned move holds `(r*, x*, s*)`, `r*` is in `0..3`, `x*` in `-4..WIDTH-1`, `s*` is
the `evaluateBoard` score of the board obtained by dropping the mask rotated `r*` times in
column `x*` to its resting row, and no candidate `(r, x)` with `r` in `0..3`, `x` in
`-4..WIDTH-1` and resting row `>= 0` scores more than `s*`. -/
theorem computeBestMove_optimal (fuel : Nat) (board : Board) (piece : Mask) (color : Int)
    (agent : Agent) (hwf : WellFormed board) (hlen : piece.length = 16)
    (hne : NonEmptyMask piece) (hfuel : HEIGHT + 1 ≤ fuel) :
    ∃ mv, computeBestMove fuel board piece color agent = some mv ∧
      ∀ (rs xs : Int) (s : ℚ), mv.rotation = some rs → mv.x = some xs → mv.score = some s →
        (0 ≤ rs ∧ rs < 4 ∧ -4 ≤ xs ∧ xs < (WIDTH : Int))
        ∧ (∃ ys, 0 ≤ ys ∧ RestsAt board (rotN rs.toNat piece) xs ys ∧
            s = evaluateBoard (simulateDrop board (rotN rs.toNat piece) xs ys color) agent)
        ∧ ∀ (r : Nat) (x y : Int), r < 4 → -4 ≤ x → x < (WIDTH : Int) → 0 ≤ y →
            RestsAt board (rotN r piece) x y →
            evaluateBoard (simulateDrop board (rotN r piece) x y color) agent ≤ s := by
  obtain ⟨mv, hmv, hinv⟩ := computeBestMove_inv fuel board piece color agent hlen hne hfuel
  refine ⟨mv, hmv, fun rs xs s h1 h2 h3 => ?_⟩
  rcases hinv with ⟨hnone, _⟩ | ⟨r, x, y, hsome, hL, _, hall⟩
  · rw [hnone] at h1
    cases h1
  · rw [hsome] at h1 h2 h3
    cases h1
    cases h2
    cases h3
    refine ⟨⟨hL.1, hL.2.1, hL.2.2.1, hL.2.2.2.1⟩, ⟨y, hL.2.2.2.2.1, hL.2.2.2.2.2, rfl⟩, ?_⟩
    intro r' x' y' hr' hx' hxW' hy' hrest'
    have hL' := legal_of_nat board piece r' x' y' hr' hx' hxW' hy' hrest'
    have := (hall _ _ _ hL' (legal_before_end _ _ _ _ _ hL')).1
    rw [candScore_of_nat] at this
    exact this

theorem computeBestMove_optimal_witness :
    computeBestMove 21 emptyBoard maskO 3 sampleAgent
        = some { rotation := some 0, x := some (-1), score := some (-6) }
      ∧ (0 ≤ (0 : Int) ∧ (0 : Int) < 4 ∧ -4 ≤ (-1 : Int) ∧ (-1 : Int) < (WIDTH : Int))
      ∧ (∃ ys, 0 ≤ ys ∧ RestsAt emptyBoard (rotN (0 : Int).toNat maskO) (-1) ys ∧
          (-6 : ℚ) = evaluateBoard
            (simulateDrop emptyBoard (rotN (0 : Int).toNat maskO) (-1) ys 3) sampleAgent)
      ∧ ∀ (r : Nat) (x y : Int), r < 4 → -4 ≤ x → x < (WIDTH : Int) → 0 ≤ y →
          RestsAt emptyBoard (rotN r maskO) x y →
          evaluateBoard (simulateDrop emptyBoard (rotN r maskO) x y 3) sampleAgent ≤ -6 := by
  obtain ⟨mv, hmv, h⟩ := computeBestMove_optimal 21 emptyBoard maskO 3 sampleAgent
    (by decide) (by decide) (by decide) (by decide)
  rw [computeBestMove_emptyBoard_maskO] at hmv
  cases hmv
  exact ⟨computeBestMove_emptyBoard_maskO, h 0 (-1) (-6) rfl rfl rfl⟩

theorem gameOver_globalMaxScore (g : Game) :
    g.gameOver.globalMaxScore = max g.globalMaxScore g.score := by
  unfold Game.gameOver
  simp only []
  by_cases h : g.score > g.globalMaxScore
  · rw [if_pos h, max_eq_right (le_of_lt h)]
  · rw [if_neg h, max_eq_left (not_lt.mp h)]

theorem completeAll_eq_foldl_max (games : List Game) (gmax : Int) :
    completeAll games gmax = (games.map fun g => g.score).foldl max gmax := by
  unfold completeAll
  induction games generalizing gmax with
  | nil => rfl
  | cons g games ih =>
    rw [List.foldl_cons, List.map_cons, List.foldl_cons, ih, gameOver_globalMaxScore]

theorem le_foldl_max (scores : List Int) (m : Int) : m ≤ scores.foldl max m := by
  induction scores generalizing m with
  | nil => exact le_refl _
  | cons s scores ih => exact le_trans (le_max_left m s) (ih _)

theorem mem_le_foldl_max (scores : List Int) (m s : Int) (hs : s ∈ scores) :
    s ≤ scores.foldl max m := by
  induction scores generalizing m with
  | nil => cases hs
  | cons t scores ih =>
    rw [List.foldl_cons]
    rcases List.mem_cons.mp hs with rfl | h
    · exact le_trans (le_max_right m s) (le_foldl_max _ _)
    · exact ih _ h

theorem foldl_max_mem (scores : List Int) (m : Int) :
    scores.foldl max m = m ∨ scores.foldl max m ∈ scores := by
  induction scores generalizing m with
  | nil => left; rfl
  | cons t scores ih =>
    rw [List.foldl_cons]
    rcases ih (max m t) with h | h
    · rw [h]
      rcases max_choice m t with h' | h'
      · left; exact h'
      · right; rw [h']; exact List.mem_cons_self _ _
    · right; exact List.mem_cons_of_mem _ h

/-- C11: `gameOver` leaves `globalMaxScore` at the maximum of its previous value and the
session score; so over a sequence of session completions the value never decreases, does
not depend on the order of the completions, is at least the starting value and every
completed score and is one of them; from 0 and the scores 10, 5, 20, 15 it ends at 20. -/
theorem globalMaxScore_max (g : Game) (games games' : List Game) (gmax : Int)
    (hperm : games.Perm games') :
    g.gameOver.globalMaxScore = max g.globalMaxScore g.score
      ∧ (∀ pre post, games = pre ++ post → completeAll pre gmax ≤ completeAll games gmax)
      ∧ completeAll games gmax = completeAll games' gmax
      ∧ gmax ≤ completeAll games gmax
      ∧ (∀ s ∈ games, s.score ≤ completeAll games gmax)
      ∧ (completeAll games gmax = gmax ∨ ∃ s ∈ games, completeAll games gmax = s.score)
      ∧ completeAll (sessionsWithScores [10, 5, 20, 15]) 0 = 20 := by
  refine ⟨gameOver_globalMaxScore g, ?_, ?_, ?_, ?_, ?_, by decide⟩
  · intro pre post h
    rw [h, completeAll_eq_foldl_max, completeAll_eq_foldl_max, List.map_append,
      List.foldl_append]
    exact le_foldl_max _ _
  · rw [completeAll_eq_foldl_max, completeAll_eq_foldl_max]
    exact List.Perm.foldl_eq' (hperm.map _)
      (fun x _ y _ z => by rw [max_assoc, max_assoc, max_comm x y]) gmax
  · rw [completeAll_eq_foldl_max]
    exact le_foldl_max _ _
  · intro s hs
    rw [completeAll_eq_foldl_max]
    exact mem_le_foldl_max _ _ _ (List.mem_map_of_mem _ hs)
  · rw [completeAll_eq_foldl_max]
    rcases foldl_max_mem (games.map fun g => g.score) gmax with h | h
    · left; exact h
    · right
      obtain ⟨s, hs, hsc⟩ := List.mem_map.mp h
      exact ⟨s, hs, hsc.symm⟩

theorem globalMaxScore_max_witness :
    (sampleGame emptyBoard).gameOver.globalMaxScore
        = max (sampleGame emptyBoard).globalMaxScore (sampleGame emptyBoard).score
      ∧ (∀ pre post, sessionsWithScores [10, 5, 20, 15] = pre ++ post →
          completeAll pre 0 ≤ completeAll (sessionsWithScores [10, 5, 20, 15]) 0)
      ∧ completeAll (sessionsWithScores [10, 5, 20, 15]) 0
          = completeAll (sessionsWithScores [15, 20, 5, 10]) 0
      ∧ 0 ≤ completeAll (sessionsWithScores [10, 5, 20, 15]) 0
      ∧ (∀ s ∈ sessionsWithScores [10, 5, 20, 15],
          s.score ≤ completeAll (sessionsWithScores [10, 5, 20, 15]) 0)
      ∧ (completeAll (sessionsWithScores [10, 5, 20, 15]) 0 = 0
          ∨ ∃ s ∈ sessionsWithScores [10, 5, 20, 15],
              completeAll (sessionsWithScores [10, 5, 20, 15]) 0 = s.score)
      ∧ completeAll (sessionsWithScores [10, 5, 20, 15]) 0 = 20 :=
  globalMaxScore_max (sampleGame emptyBoard) (sessionsWithScores [10, 5, 20, 15])
    (sessionsWithScores [15, 20, 5, 10]) 0
    (by
      unfold sessionsWithScores
      exact List.Perm.map _ (by decide))

/-! ## Crossover -/

theorem weights4_eq (ws : List ℚ) (h : ws.length = 4) :
    ∃ a b c d, ws = [a, b, c, d] := by
  rcases ws with _ | ⟨a, _ | ⟨b, _ | ⟨c, _ | ⟨d, _ | ⟨e, ws⟩⟩⟩⟩⟩ <;> simp at h
  exact ⟨a, b, c, d, rfl⟩

theorem crossoverStep_length (parent1 parent2 : Agent) (rand : Nat → Nat)
    (randomWeight : Nat → ℚ) (st : List ℚ × Nat) (i : Nat) :
    (crossoverStep parent1 parent2 rand randomWeight st i).1.length = st.1.length := by
  unfold crossoverStep
  simp only []
  split <;> simp

theorem crossoverStep_getD_ne (parent1 parent2 : Agent) (rand : Nat → Nat)
    (randomWeight : Nat → ℚ) (st : List ℚ × Nat) (i j : Nat) (hne : i ≠ j) :
    (crossoverStep parent1 parent2 rand randomWeight st i).1.getD j 0 = st.1.getD j 0 := by
  unfold crossoverStep
  simp only []
  split <;> simp [List.getD_eq_getElem?_getD, List.getElem?_set, hne]

theorem crossoverStep_getD_self (parent1 parent2 : Agent) (rand : Nat → Nat)
    (randomWeight : Nat → ℚ) (st : List ℚ × Nat) (i : Nat) (hi : i < st.1.length)
    (hno : ¬ rand i % 100 < 10) :
    (crossoverStep parent1 parent2 rand randomWeight st i).1.getD i 0
      = (parent1.weights.getD i 0 + parent2.weights.getD i 0) / 2 := by
  unfold crossoverStep
  simp only []
  rw [if_neg hno]
  simp [List.getD_eq_getElem?_getD, List.getElem?_set, hi]

theorem crossover_getD (parent1 parent2 : Agent) (rand : Nat → Nat) (randomWeight : Nat → ℚ)
    (i : Nat) (hi : i < 4) (hno : ¬ rand i % 100 < 10) :
    (crossover parent1 parent2 rand randomWeight).weights.getD i 0
      = (parent1.weights.getD i 0 + parent2.weights.getD i 0) / 2 := by
  unfold crossover
  simp only [range4, List.foldl_cons, List.foldl_nil]
  have hlen0 : ((List.replicate 4 (0 : ℚ), 0) : List ℚ × Nat).1.length = 4 := by simp
  interval_cases i
  · rw [crossoverStep_getD_ne _ _ _ _ _ 3 0 (by omega),
      crossoverStep_getD_ne _ _ _ _ _ 2 0 (by omega),
      crossoverStep_getD_ne _ _ _ _ _ 1 0 (by omega)]
    exact crossoverStep_getD_self _ _ _ _ _ 0 (by rw [hlen0]; omega) hno
  · rw [crossoverStep_getD_ne _ _ _ _ _ 3 1 (by omega),
      crossoverStep_getD_ne _ _ _ _ _ 2 1 (by omega)]
    exact crossoverStep_getD_self _ _ _ _ _ 1
      (by rw [crossoverStep_length, hlen0]; omega) hno
  · rw [crossoverStep_getD_ne _ _ _ _ _ 3 2 (by omega)]
    exact crossoverStep_getD_self _ _ _ _ _ 2
      (by rw [crossoverStep_length, crossoverStep_length, hlen0]; omega) hno
  · exact crossoverStep_getD_self _ _ _ _ _ 3
      (by rw [crossoverStep_length, crossoverStep_length, crossoverStep_length, hlen0]; omega)
      hno

theorem crossover_length (parent1 parent2 : Agent) (rand : Nat → Nat)
    (randomWeight : Nat → ℚ) :
    (crossover parent1 parent2 rand randomWeight).weights.length = 4 := by
  unfold crossover
  simp only [range4, List.foldl_cons, List.foldl_nil, crossoverStep_length]
  simp

/-- C12: every child weight whose mutation branch is not taken is the mean of the two
parents' weights, the child's fitness is 0, and two identical parents with no mutation
taken give a child with the parent's four weights. -/
theorem crossover_average (parent1 parent2 : Agent) (rand : Nat → Nat)
    (randomWeight : Nat → ℚ) (h1 : parent1.weights.length = 4)
    (h2 : parent2.weights.length = 4) :
    (crossover parent1 parent2 rand randomWeight).fitness = 0
      ∧ (crossover parent1 parent2 rand randomWeight).weights.length = 4
      ∧ (∀ i < 4, ¬ rand i % 100 < 10 →
          (crossover parent1 parent2 rand randomWeight).weights.getD i 0
            = (parent1.weights.getD i 0 + parent2.weights.getD i 0) / 2)
      ∧ ((∀ i < 4, ¬ rand i % 100 < 10) →
          (crossover parent1 parent1 rand randomWeight).weights = parent1.weights) := by
  refine ⟨rfl, crossover_length _ _ _ _,
    fun i hi hno => crossover_getD _ _ _ _ i hi hno, fun hno => ?_⟩
  obtain ⟨a, b, c, d, ha⟩ := weights4_eq _ h1
  obtain ⟨w0, w1, w2, w3, hw⟩ :=
    weights4_eq _ (crossover_length parent1 parent1 rand randomWeight)
  have e0 := crossover_getD parent1 parent1 rand randomWeight 0 (by omega) (hno 0 (by omega))
  have e1 := crossover_getD parent1 parent1 rand randomWeight 1 (by omega) (hno 1 (by omega))
  have e2 := crossover_getD parent1 parent1 rand randomWeight 2 (by omega) (hno 2 (by omega))
  have e3 := crossover_getD parent1 parent1 rand randomWeight 3 (by omega) (hno 3 (by omega))
  rw [hw, ha] at e0 e1 e2 e3
  simp only [List.getD_cons_zero, List.getD_cons_succ] at e0 e1 e2 e3
  rw [hw, ha, e0, e1, e2, e3]
  simp

theorem crossover_average_witness :
    (crossover sampleAgent sampleAgent (fun _ => 50) (fun _ => 1)).fitness = 0
      ∧ (crossover sampleAgent sampleAgent (fun _ => 50) (fun _ => 1)).weights.length = 4
      ∧ (∀ i < 4, ¬ (fun _ : Nat => 50) i % 100 < 10 →
          (crossover sampleAgent sampleAgent (fun _ => 50) (fun _ => 1)).weights.getD i 0
            = (sampleAgent.weights.getD i 0 + sampleAgent.weights.getD i 0) / 2)
      ∧ ((∀ i < 4, ¬ (fun _ : Nat => 50) i % 100 < 10) →
          (crossover sampleAgent sampleAgent (fun _ => 50) (fun _ => 1)).weights
            = sampleAgent.weights) :=
  crossover_average sampleAgent sampleAgent (fun _ => 50) (fun _ => 1) (by decide) (by decide)

/-! ## Simulated drop and locking -/

theorem clear_lines_field (g : Game) : g.clear_lines.field = (clearLoop g.field).1 := by
  unfold Game.clear_lines
  simp only []
  by_cases h : (clearLoop g.field).2 > 0
  · rw [if_pos h]
  · rw [if_neg h]

/-- C17: the board `simulateDrop` returns for a field, a mask, a position and a colour is
the field the session holds after `merge_piece` followed by `clear_lines` with that mask as
the current piece at that position and that current colour. -/
theorem simulateDrop_eq_lock (g : Game) (hwf : WellFormed g.field)
    (hm : g.current_piece.length = 16) :
    simulateDrop g.field g.current_piece g.pos_x g.pos_y g.current_color
      = g.merge_piece.clear_lines.field := by
  rw [clear_lines_field, merge_piece_field, simulateDrop, simClearLoop_eq_fst]

theorem simulateDrop_eq_lock_witness :
    simulateDrop (sampleGame twoFullRows).field (sampleGame twoFullRows).current_piece
        (sampleGame twoFullRows).pos_x (sampleGame twoFullRows).pos_y
        (sampleGame twoFullRows).current_color
      = (sampleGame twoFullRows).merge_piece.clear_lines.field :=
  simulateDrop_eq_lock (sampleGame twoFullRows) (by decide) (by decide)


/-! ## The lines weight -/

theorem completeLines_prefix (b : Board) (hrows : ∀ row ∈ b, row.length = WIDTH) (c : Int)
    (n : Nat) (hn : n ≤ b.length) :
    (List.range n).foldl (fun lines y => if rowFull b y then lines + 1 else lines) c
      = c + (fullCount (b.take n) : Int) := by
  induction n with
  | zero => simp [fullCount]
  | succ n ih =>
    have hn' : n < b.length := hn
    rw [List.range_succ, List.foldl_append, ih (le_of_lt hn')]
    have htake : b.take (n + 1) = b.take n ++ [b[n]] := by
      rw [List.take_succ, List.getElem?_eq_getElem hn']; rfl
    have hsplit : b = b.take n ++ b[n] :: b.drop (n + 1) := by
      rw [← List.drop_eq_getElem_cons hn', List.take_append_drop]
    have hrow : (b[n]).length = WIDTH := hrows _ (List.getElem_mem hn')
    have hfull : rowFull b n = occupiedRow b[n] := by
      have h := rowFull_at_prefix (b.take n) (b.drop (n + 1)) b[n] hrow
      rw [← hsplit, List.length_take, min_eq_left (le_of_lt hn')] at h
      exact h
    simp only [List.foldl_cons, List.foldl_nil]
    rw [hfull, htake, fullCount_snoc]
    by_cases h : occupiedRow b[n] = true
    · rw [if_pos h, if_pos h]; push_cast; ring
    · rw [if_neg h, if_neg h]; simp

theorem completeLines_eq_fullCount (b : Board) (hwf : WellFormed b) :
    completeLines b = (fullCount b : Int) := by
  unfold completeLines
  rw [← hwf.1, completeLines_prefix b hwf.2 0 b.length (le_refl _), List.take_length]
  simp

theorem fullCount_cleared (k : Nat) (b : Board) :
    fullCount (List.replicate k emptyRow ++ keptRows b) = 0 := by
  unfold fullCount keptRows
  rw [List.length_eq_zero, List.filter_eq_nil_iff]
  intro row hrow
  rcases List.mem_append.mp hrow with h | h
  · rw [List.eq_of_mem_replicate h, emptyRow_not_occupied]
    simp
  · have := (List.mem_filter.mp h).2
    simpa using this

theorem keptRows_rows (b : Board) (hrows : ∀ row ∈ b, row.length = WIDTH) :
    ∀ row ∈ keptRows b, row.length = WIDTH := fun row hrow =>
  hrows row (List.mem_filter.mp hrow).1

theorem cleared_wf (b : Board) (hwf : WellFormed b) :
    WellFormed (List.replicate (fullCount b) emptyRow ++ keptRows b) := by
  refine ⟨?_, ?_⟩
  · have := fullCount_add_keptRows b
    rw [List.length_append, List.length_replicate, this, hwf.1]
  · intro row hrow
    rcases List.mem_append.mp hrow with h | h
    · rw [List.eq_of_mem_replicate h, emptyRow_length]
    · exact keptRows_rows b hwf.2 row h

theorem simulateDrop_eq (board : Board) (piece : Mask) (pos_x pos_y color : Int)
    (hwf : WellFormed board) :
    simulateDrop board piece pos_x pos_y color
      = List.replicate (fullCount (simMerge board piece pos_x pos_y color)) emptyRow
          ++ keptRows (simMerge board piece pos_x pos_y color) := by
  unfold simulateDrop
  rw [simClearLoop_eq_fst, clearLoop_eq _ (simMerge_spec board piece pos_x pos_y color hwf).1]

theorem simulateDrop_wf (board : Board) (piece : Mask) (pos_x pos_y color : Int)
    (hwf : WellFormed board) : WellFormed (simulateDrop board piece pos_x pos_y color) := by
  rw [simulateDrop_eq _ _ _ _ _ hwf]
  exact cleared_wf _ (simMerge_spec board piece pos_x pos_y color hwf).1

theorem simulateDrop_completeLines (board : Board) (piece : Mask) (pos_x pos_y color : Int)
    (hwf : WellFormed board) :
    completeLines (simulateDrop board piece pos_x pos_y color) = 0 := by
  rw [completeLines_eq_fullCount _ (simulateDrop_wf _ _ _ _ _ hwf),
    simulateDrop_eq _ _ _ _ _ hwf, fullCount_cleared]
  rfl

theorem evaluateBoard_simulateDrop_congr (board : Board) (piece : Mask)
    (pos_x pos_y color : Int) (hwf : WellFormed board) (agent1 agent2 : Agent)
    (h1 : agent1.weights.getD 1 0 = agent2.weights.getD 1 0)
    (h2 : agent1.weights.getD 2 0 = agent2.weights.getD 2 0)
    (h3 : agent1.weights.getD 3 0 = agent2.weights.getD 3 0) :
    evaluateBoard (simulateDrop board piece pos_x pos_y color) agent1
      = evaluateBoard (simulateDrop board piece pos_x pos_y color) agent2 := by
  unfold evaluateBoard
  simp only [simulateDrop_completeLines _ _ _ _ _ hwf, h1, h2, h3]
  simp

theorem planStep_congr (fuel : Nat) (board : Board) (currPiece : Mask) (color : Int)
    (hwf : WellFormed board) (agent1 agent2 : Agent)
    (h1 : agent1.weights.getD 1 0 = agent2.weights.getD 1 0)
    (h2 : agent1.weights.getD 2 0 = agent2.weights.getD 2 0)
    (h3 : agent1.weights.getD 3 0 = agent2.weights.getD 3 0) (r : Int) :
    planStep fuel board currPiece color agent1 r = planStep fuel board currPiece color agent2 r := by
  funext bestMove x
  unfold planStep
  simp only [evaluateBoard_simulateDrop_congr _ _ _ _ _ hwf agent1 agent2 h1 h2 h3]

/-- C18: on a board of `HEIGHT` rows of `WIDTH` cells the board `simulateDrop` returns has
no fully occupied row, so `completeLines` of it is 0 and its `evaluateBoard` score is
`- w1 * aggregateHeight - w2 * holes - w3 * bumpiness` whatever `weights[0]` is; hence two
agents that differ only in `weights[0]` get the same result from `computeBestMove`. -/
theorem lines_weight_unused (fuel : Nat) (board : Board) (piece : Mask)
    (pos_x pos_y color : Int) (agent1 agent2 : Agent) (hwf : WellFormed board)
    (h1 : agent1.weights.getD 1 0 = agent2.weights.getD 1 0)
    (h2 : agent1.weights.getD 2 0 = agent2.weights.getD 2 0)
    (h3 : agent1.weights.getD 3 0 = agent2.weights.getD 3 0) :
    (∀ row ∈ simulateDrop board piece pos_x pos_y color, occupiedRow row = false)
      ∧ completeLines (simulateDrop board piece pos_x pos_y color) = 0
      ∧ evaluateBoard (simulateDrop board piece pos_x pos_y color) agent1
          = - agent1.weights.getD 1 0
                * (aggregateHeight (simulateDrop board piece pos_x pos_y color) : ℚ)
            - agent1.weights.getD 2 0
                * (countHoles (simulateDrop board piece pos_x pos_y color) : ℚ)
            - agent1.weights.getD 3 0
                * (bumpiness (simulateDrop board piece pos_x pos_y color) : ℚ)
      ∧ computeBestMove fuel board piece color agent1
          = computeBestMove fuel board piece color agent2 := by
  refine ⟨?_, simulateDrop_completeLines _ _ _ _ _ hwf, ?_, ?_⟩
  · intro row hrow
    have h0 := fullCount_cleared (fullCount (simMerge board piece pos_x pos_y color))
      (simMerge board piece pos_x pos_y color)
    rw [← simulateDrop_eq _ _ _ _ _ hwf] at h0
    unfold fullCount at h0
    rw [List.length_eq_zero, List.filter_eq_nil_iff] at h0
    simpa using h0 row hrow
  · unfold evaluateBoard
    simp only [simulateDrop_completeLines _ _ _ _ _ hwf]
    simp
  · unfold computeBestMove planRotation
    simp only [planStep_congr fuel board _ color hwf agent1 agent2 h1 h2 h3]

theorem lines_weight_unused_witness :
    (∀ row ∈ simulateDrop twoFullRows maskJ 3 15 6, occupiedRow row = false)
      ∧ completeLines (simulateDrop twoFullRows maskJ 3 15 6) = 0
      ∧ evaluateBoard (simulateDrop twoFullRows maskJ 3 15 6) sampleAgent
          = - sampleAgent.weights.getD 1 0
                * (aggregateHeight (simulateDrop twoFullRows maskJ 3 15 6) : ℚ)
            - sampleAgent.weights.getD 2 0
                * (countHoles (simulateDrop twoFullRows maskJ 3 15 6) : ℚ)
            - sampleAgent.weights.getD 3 0
                * (bumpiness (simulateDrop twoFullRows maskJ 3 15 6) : ℚ)
      ∧ computeBestMove 21 twoFullRows maskJ 6 sampleAgent
          = computeBestMove 21 twoFullRows maskJ 6 { weights := [-1, 1, 1, 1], fitness := 0 } :=
  lines_weight_unused 21 twoFullRows maskJ 3 15 6 sampleAgent
    { weights := [-1, 1, 1, 1], fitness := 0 } (by decide) (by decide) (by decide) (by decide)


/-! ## Planner totality and when a move is assigned -/

theorem rotatePiece_count (piece : Mask) (hlen : piece.length = 16) :
    (rotatePiece piece).count 'X' = piece.count 'X' := by
  obtain ⟨a0, a1, a2, a3, a4, a5, a6, a7, a8, a9, a10, a11, a12, a13, a14, a15, rfl⟩ :=
    mask16_eq piece hlen
  rw [rotatePiece_eq]
  simp only [List.count_cons, List.count_nil]
  ring

/-- C16: on a board of `HEIGHT` rows of `WIDTH` cells and a 16-cell mask with an occupied
cell, every hard-drop scan of `computeBestMove` (any of the four orientations, any column)
ends within `HEIGHT + 1` collision tests at a resting row `y` with `-1 <= y <= HEIGHT - 1`,
so `computeBestMove` returns; `rotatePiece` keeps the mask at 16 cells with the same number
of occupied cells, at least one, and every base mask of the catalogue has 16 cells, 4 of
them occupied. -/
theorem computeBestMove_total (board : Board) (piece : Mask) (color : Int) (agent : Agent)
    (hwf : WellFormed board) (hlen : piece.length = 16) (hne : NonEmptyMask piece) :
    (∀ r : Nat, ∀ x : Int, ∃ y0, dropScan board (rotN r piece) x (HEIGHT + 1) 0 = some y0
        ∧ -1 ≤ y0 - 1 ∧ y0 - 1 ≤ (HEIGHT : Int) - 1)
      ∧ (∀ fuel, HEIGHT + 1 ≤ fuel →
          ∃ mv, computeBestMove fuel board piece color agent = some mv)
      ∧ (rotatePiece piece).length = 16
      ∧ (rotatePiece piece).count 'X' = piece.count 'X'
      ∧ NonEmptyMask (rotatePiece piece)
      ∧ ∀ shape ∈ TETROMINOES,
          (shape.getD 0 []).length = 16 ∧ (shape.getD 0 []).count 'X' = 4 := by
  refine ⟨?_, ?_, rotatePiece_length piece hlen, rotatePiece_count piece hlen,
    rotatePiece_nonEmpty piece hlen hne, by decide⟩
  · intro r x
    obtain ⟨_, hn⟩ := rotN_shape r piece hlen hne
    obtain ⟨y0, h1, h2, h3, _, _⟩ :=
      dropScan_spec board (rotN r piece) hn x (HEIGHT + 1) 0 (le_refl _)
        (by exact_mod_cast Nat.zero_le _) (by push_cast; omega)
    exact ⟨y0, h1, by omega, by omega⟩
  · intro fuel hfuel
    obtain ⟨mv, hmv, _⟩ := computeBestMove_inv fuel board piece color agent hlen hne hfuel
    exact ⟨mv, hmv⟩

theorem computeBestMove_total_witness :
    (∀ r : Nat, ∀ x : Int, ∃ y0, dropScan towerBoard (rotN r maskJ) x (HEIGHT + 1) 0 = some y0
        ∧ -1 ≤ y0 - 1 ∧ y0 - 1 ≤ (HEIGHT : Int) - 1)
      ∧ (∀ fuel, HEIGHT + 1 ≤ fuel →
          ∃ mv, computeBestMove fuel towerBoard maskJ 6 sampleAgent = some mv)
      ∧ (rotatePiece maskJ).length = 16
      ∧ (rotatePiece maskJ).count 'X' = maskJ.count 'X'
      ∧ NonEmptyMask (rotatePiece maskJ)
      ∧ ∀ shape ∈ TETROMINOES,
          (shape.getD 0 []).length = 16 ∧ (shape.getD 0 []).count 'X' = 4 :=
  computeBestMove_total towerBoard maskJ 6 sampleAgent (by decide) (by decide) (by decide)

theorem legal_iff_free_at_zero (board : Board) (piece : Mask) (hlen : piece.length = 16)
    (hne : NonEmptyMask piece) (r x : Int) (hr0 : 0 ≤ r) (hr4 : r < 4) (hx : -4 ≤ x)
    (hxW : x < (WIDTH : Int)) :
    (∃ y, Legal board piece r x y) ↔ plannerColl board (rotN r.toNat piece) x 0 = false := by
  rw [← Bool.not_eq_true, plannerColl_iff_Collides]
  constructor
  · rintro ⟨y, hL⟩
    exact hL.2.2.2.2.2.1 0 (le_refl _) hL.2.2.2.2.1
  · intro hfree
    obtain ⟨_, hn⟩ := rotN_shape r.toNat piece hlen hne
    obtain ⟨y0, _, hy0, _, hcoll, hfree0⟩ :=
      dropScan_spec board (rotN r.toNat piece) hn x (HEIGHT + 1) 0 (le_refl _)
        (by exact_mod_cast Nat.zero_le _) (by push_cast; omega)
    have hpos : 0 < y0 := by
      rcases lt_or_eq_of_le hy0 with h | h
      · exact h
      · rw [← h] at hcoll
        exact absurd hcoll hfree
    refine ⟨y0 - 1, hr0, hr4, hx, hxW, by omega, fun y' h1 h2 => hfree0 y' h1 (by omega), ?_⟩
    rw [sub_add_cancel]
    exact hcoll

/-! ## Rotation in play -/

theorem placed_collision (g : Game) (piece : Mask) (x : Int) (ox oy : Int) :
    (g.placed piece x).collision ox oy = true ↔
      Collides g.field piece (x + ox) (g.pos_y + oy) := by
  rw [collision_iff_Collides]
  rfl

theorem placed_pos_y (g : Game) (piece : Mask) (x : Int) : (g.placed piece x).pos_y = g.pos_y :=
  rfl

theorem placed_field (g : Game) (piece : Mask) (x : Int) : (g.placed piece x).field = g.field :=
  rfl

theorem placed_self (g : Game) : g.placed g.current_piece g.pos_x = g := rfl

theorem rotateLoop_free (old : Mask) (fuel : Nat) (g : Game) (offset : Int)
    (h : g.collision 0 0 = false) : Game.rotateLoop old (fuel + 1) g offset = some g := by
  rw [Game.rotateLoop, if_neg (by rw [h]; decide)]

theorem rotateLoop_first (old : Mask) (fuel : Nat) (g : Game) (piece : Mask) (x : Int)
    (h : (g.placed piece x).collision 0 0 = true) :
    Game.rotateLoop old (fuel + 1) (g.placed piece x) 1
      = Game.rotateLoop old fuel (g.placed piece (x + 1)) (-2) := by
  rw [Game.rotateLoop, if_pos h]
  rfl

theorem rotateLoop_second (old : Mask) (fuel : Nat) (g : Game) (piece : Mask) (x : Int)
    (h : (g.placed piece x).collision 0 0 = true) :
    Game.rotateLoop old (fuel + 1) (g.placed piece x) (-2)
      = Game.rotateLoop old fuel (g.placed piece (x + -2)) 3 := by
  rw [Game.rotateLoop, if_pos h]
  rfl

theorem rotateLoop_third (old : Mask) (fuel : Nat) (g : Game) (piece : Mask) (x : Int)
    (h : (g.placed piece x).collision 0 0 = true) :
    Game.rotateLoop old (fuel + 1) (g.placed piece x) 3 = some (g.placed old (x + 3)) := by
  rw [Game.rotateLoop, if_pos h]
  rfl

theorem rotate_eq_loop (fuel : Nat) (g : Game) :
    g.rotate fuel
      = Game.rotateLoop g.current_piece fuel (g.placed (rotatePiece g.current_piece) g.pos_x) 1 :=
  rfl

/-- C15: with at least 3 tests of the loop condition allowed, `rotate` returns, with
`pos_y` and the field unchanged, in one of two ways. If the turned mask is free of
collision at one of the columns `x0`, `x0 + 1`, `x0 - 1`, the piece is the turned mask at
the first of them, in that order, that is free, and does not collide there. If it collides
at all three, the mask is the one before the call and `pos_x` is `x0 + 2`. -/
theorem rotate_spec (fuel : Nat) (g : Game) (hfuel : 3 ≤ fuel) :
    ∃ g', g.rotate fuel = some g' ∧ g'.pos_y = g.pos_y ∧ g'.field = g.field
      ∧ (¬ Collides g.field (rotatePiece g.current_piece) g.pos_x g.pos_y →
          g' = g.placed (rotatePiece g.current_piece) g.pos_x ∧ g'.collision 0 0 = false)
      ∧ (Collides g.field (rotatePiece g.current_piece) g.pos_x g.pos_y →
          ¬ Collides g.field (rotatePiece g.current_piece) (g.pos_x + 1) g.pos_y →
          g' = g.placed (rotatePiece g.current_piece) (g.pos_x + 1)
            ∧ g'.collision 0 0 = false)
      ∧ (Collides g.field (rotatePiece g.current_piece) g.pos_x g.pos_y →
          Collides g.field (rotatePiece g.current_piece) (g.pos_x + 1) g.pos_y →
          ¬ Collides g.field (rotatePiece g.current_piece) (g.pos_x - 1) g.pos_y →
          g' = g.placed (rotatePiece g.current_piece) (g.pos_x - 1)
            ∧ g'.collision 0 0 = false)
      ∧ (Collides g.field (rotatePiece g.current_piece) g.pos_x g.pos_y →
          Collides g.field (rotatePiece g.current_piece) (g.pos_x + 1) g.pos_y →
          Collides g.field (rotatePiece g.current_piece) (g.pos_x - 1) g.pos_y →
          g' = g.placed g.current_piece (g.pos_x + 2)) := by
  obtain ⟨n, rfl⟩ : ∃ n, fuel = n + 3 := ⟨fuel - 3, by omega⟩
  have e : ∀ x, (g.placed (rotatePiece g.current_piece) x).collision 0 0 = true ↔
      Collides g.field (rotatePiece g.current_piece) x g.pos_y := by
    intro x
    rw [placed_collision, add_zero, add_zero]
  have ef : ∀ x, ¬ Collides g.field (rotatePiece g.current_piece) x g.pos_y →
      (g.placed (rotatePiece g.current_piece) x).collision 0 0 = false := by
    intro x h
    rw [← Bool.not_eq_true, e]
    exact h
  have hx1 : g.pos_x + 1 + -2 = g.pos_x - 1 := by ring
  have hx2 : g.pos_x - 1 + 3 = g.pos_x + 2 := by ring
  rw [rotate_eq_loop]
  by_cases h0 : Collides g.field (rotatePiece g.current_piece) g.pos_x g.pos_y
  · rw [rotateLoop_first _ _ _ _ _ ((e _).mpr h0)]
    by_cases h1 : Collides g.field (rotatePiece g.current_piece) (g.pos_x + 1) g.pos_y
    · rw [rotateLoop_second _ _ _ _ _ ((e _).mpr h1), hx1]
      by_cases h2 : Collides g.field (rotatePiece g.current_piece) (g.pos_x - 1) g.pos_y
      · rw [rotateLoop_third _ _ _ _ _ ((e _).mpr h2), hx2]
        exact ⟨g.placed g.current_piece (g.pos_x + 2), rfl, placed_pos_y _ _ _,
          placed_field _ _ _, fun h => absurd h0 h, fun _ h => absurd h1 h,
          fun _ _ h => absurd h2 h, fun _ _ _ => rfl⟩
      · rw [rotateLoop_free _ _ _ _ (ef _ h2)]
        exact ⟨g.placed (rotatePiece g.current_piece) (g.pos_x - 1), rfl, placed_pos_y _ _ _,
          placed_field _ _ _, fun h => absurd h0 h, fun _ h => absurd h1 h,
          fun _ _ _ => ⟨rfl, ef _ h2⟩, fun _ _ h => absurd h h2⟩
    · rw [rotateLoop_free _ _ _ _ (ef _ h1)]
      exact ⟨g.placed (rotatePiece g.current_piece) (g.pos_x + 1), rfl, placed_pos_y _ _ _,
          placed_field _ _ _, fun h => absurd h0 h, fun _ _ => ⟨rfl, ef _ h1⟩,
        fun _ h => absurd h h1, fun _ h => absurd h h1⟩
  · rw [rotateLoop_free _ _ _ _ (ef _ h0)]
    exact ⟨g.placed (rotatePiece g.current_piece) g.pos_x, rfl, placed_pos_y _ _ _,
          placed_field _ _ _, fun _ => ⟨rfl, ef _ h0⟩, fun h => absurd h h0,
      fun h => absurd h h0, fun h => absurd h h0⟩

theorem rotate_spec_witness :
    ∃ g', (sampleGame towerBoard).rotate 3 = some g'
      ∧ g'.pos_y = (sampleGame towerBoard).pos_y ∧ g'.field = (sampleGame towerBoard).field
      ∧ (¬ Collides (sampleGame towerBoard).field
            (rotatePiece (sampleGame towerBoard).current_piece)
            (sampleGame towerBoard).pos_x (sampleGame towerBoard).pos_y →
          g' = (sampleGame towerBoard).placed
                (rotatePiece (sampleGame towerBoard).current_piece)
                (sampleGame towerBoard).pos_x
            ∧ g'.collision 0 0 = false)
      ∧ (Collides (sampleGame towerBoard).field
            (rotatePiece (sampleGame towerBoard).current_piece)
            (sampleGame towerBoard).pos_x (sampleGame towerBoard).pos_y →
          ¬ Collides (sampleGame towerBoard).field
            (rotatePiece (sampleGame towerBoard).current_piece)
            ((sampleGame towerBoard).pos_x + 1) (sampleGame towerBoard).pos_y →
          g' = (sampleGame towerBoard).placed
                (rotatePiece (sampleGame towerBoard).current_piece)
                ((sampleGame towerBoard).pos_x + 1)
            ∧ g'.collision 0 0 = false)
      ∧ (Collides (sampleGame towerBoard).field
            (rotatePiece (sampleGame towerBoard).current_piece)
            (sampleGame towerBoard).pos_x (sampleGame towerBoard).pos_y →
          Collides (sampleGame towerBoard).field
            (rotatePiece (sampleGame towerBoard).current_piece)
            ((sampleGame towerBoard).pos_x + 1) (sampleGame towerBoard).pos_y →
          ¬ Collides (sampleGame towerBoard).field
            (rotatePiece (sampleGame towerBoard).current_piece)
            ((sampleGame towerBoard).pos_x - 1) (sampleGame towerBoard).pos_y →
          g' = (sampleGame towerBoard).placed
                (rotatePiece (sampleGame towerBoard).current_piece)
                ((sampleGame towerBoard).pos_x - 1)
            ∧ g'.collision 0 0 = false)
      ∧ (Collides (sampleGame towerBoard).field
            (rotatePiece (sampleGame towerBoard).current_piece)
            (sampleGame towerBoard).pos_x (sampleGame towerBoard).pos_y →
          Collides (sampleGame towerBoard).field
            (rotatePiece (sampleGame towerBoard).current_piece)
            ((sampleGame towerBoard).pos_x + 1) (sampleGame towerBoard).pos_y →
          Collides (sampleGame towerBoard).field
            (rotatePiece (sampleGame towerBoard).current_piece)
            ((sampleGame towerBoard).pos_x - 1) (sampleGame towerBoard).pos_y →
          g' = (sampleGame towerBoard).placed (sampleGame towerBoard).current_piece
                ((sampleGame towerBoard).pos_x + 2)) :=
  rotate_spec 3 (sampleGame towerBoard) (by decide)


/-! ## Moves change the piece only -/

theorem pieceOnly_refl (g : Game) : PieceOnly g g := rfl

theorem pieceOnly_trans (g g' g'' : Game) (h1 : PieceOnly g g') (h2 : PieceOnly g' g'') :
    PieceOnly g g'' := by
  obtain ⟨f, s, l, t, p, c, x, y, a, ag, fi, gm⟩ := g
  obtain ⟨f', s', l', t', p', c', x', y', a', ag', fi', gm'⟩ := g'
  obtain ⟨f'', s'', l'', t'', p'', c'', x'', y'', a'', ag'', fi'', gm''⟩ := g''
  simp only [PieceOnly, Game.mk.injEq] at *
  obtain ⟨e1, e2, e3, e4, _, e5, _, _, e6, e7, e8, e9⟩ := h1
  obtain ⟨d1, d2, d3, d4, _, d5, _, _, d6, d7, d8, d9⟩ := h2
  exact ⟨d1.trans e1, d2.trans e2, d3.trans e3, d4.trans e4, trivial, d5.trans e5, trivial,
    trivial, d6.trans e6, d7.trans e7, d8.trans e8, d9.trans e9⟩

theorem pieceOnly_field (g g' : Game) (h : PieceOnly g g') : g'.field = g.field :=
  (congrArg Game.field h).trans rfl

theorem pieceOnly_finished (g g' : Game) (h : PieceOnly g g') : g'.finished = g.finished :=
  (congrArg Game.finished h).trans rfl

theorem pieceOnly_moved (g : Game) (piece : Mask) (x y : Int) :
    PieceOnly g { g with current_piece := piece, pos_x := x, pos_y := y } := rfl

theorem rotateLoop_pieceOnly (old : Mask) (fuel : Nat) (g g' : Game) (offset : Int)
    (h : Game.rotateLoop old fuel g offset = some g') : PieceOnly g g' := by
  induction fuel generalizing g offset with
  | zero => simp [Game.rotateLoop] at h
  | succ fuel ih =>
    rw [Game.rotateLoop] at h
    by_cases hc : g.collision = true
    · rw [if_pos hc] at h
      simp only [] at h
      generalize (if offset > 0 then -offset - 1 else -offset + 1) = offset1 at h
      by_cases hb : (offset1.natAbs : Int) > 3
      · rw [if_pos hb] at h
        rw [← Option.some.inj h]
        exact pieceOnly_moved g _ _ _
      · rw [if_neg hb] at h
        exact pieceOnly_trans _ _ _ (pieceOnly_moved g _ _ _) (ih _ _ h)
    · rw [if_neg hc] at h
      rw [← Option.some.inj h]
      exact pieceOnly_refl g

theorem rotate_pieceOnly (fuel : Nat) (g g' : Game) (h : g.rotate fuel = some g') :
    PieceOnly g g' :=
  pieceOnly_trans _ _ _ (pieceOnly_moved g _ _ _) (rotateLoop_pieceOnly _ _ _ _ _ h)

theorem rotations_pieceOnly (fuel : Nat) (rs : List Int) (g g' : Game)
    (h : rs.foldlM (fun g _ => Game.rotate fuel g) g = some g') : PieceOnly g g' := by
  induction rs generalizing g with
  | nil =>
    rw [← Option.some.inj h]
    exact pieceOnly_refl g
  | cons r rs ih =>
    rw [List.foldlM_cons] at h
    cases hr : Game.rotate fuel g with
    | none => rw [hr] at h; cases h
    | some g1 =>
      rw [hr] at h
      exact pieceOnly_trans _ _ _ (rotate_pieceOnly _ _ _ hr) (ih g1 h)

theorem moveRight_pieceOnly (bx : Int) (n : Nat) (g : Game) :
    PieceOnly g (Game.moveRight bx n g) := by
  induction n generalizing g with
  | zero => exact pieceOnly_refl g
  | succ n ih =>
    rw [Game.moveRight]
    split
    · exact pieceOnly_trans _ _ _ (pieceOnly_moved g _ _ _) (ih _)
    · exact pieceOnly_refl g

theorem moveLeft_pieceOnly (bx : Int) (n : Nat) (g : Game) :
    PieceOnly g (Game.moveLeft bx n g) := by
  induction n generalizing g with
  | zero => exact pieceOnly_refl g
  | succ n ih =>
    rw [Game.moveLeft]
    split
    · exact pieceOnly_trans _ _ _ (pieceOnly_moved g _ _ _) (ih _)
    · exact pieceOnly_refl g

theorem dropLoop_spec (fuel : Nat) (g g' : Game) (h : Game.dropLoop fuel g = some g') :
    PieceOnly g g' ∧ g'.collision 0 1 = true ∧ 1 ≤ fuel := by
  induction fuel generalizing g with
  | zero => simp [Game.dropLoop] at h
  | succ fuel ih =>
    rw [Game.dropLoop] at h
    by_cases hc : g.collision 0 1 = true
    · rw [if_neg (not_not.mpr hc)] at h
      rw [← Option.some.inj h]
      exact ⟨pieceOnly_refl g, hc, by omega⟩
    · rw [if_pos hc] at h
      obtain ⟨h1, h2, _⟩ := ih _ h
      exact ⟨pieceOnly_trans _ _ _ (pieceOnly_moved g _ _ _) h1, h2, by omega⟩

/-- What a successful `aiMove` on an unfinished session went through: the plan, the
rotations, the steering and the drop. -/
theorem aiMove_unfold (fuel : Nat) (g g' : Game) (hfin : g.finished = false)
    (h : g.aiMove fuel = some g') :
    ∃ best rotation bx g1,
      computeBestMoveD fuel g.field g.current_piece g.current_color g.agent = some best
        ∧ best.rotation = some rotation ∧ best.x = some bx
        ∧ (intRange 0 rotation).foldlM (fun g _ => Game.rotate fuel g) g = some g1
        ∧ Game.dropLoop fuel
            (if g1.pos_x < bx then Game.moveRight bx (bx - g1.pos_x).toNat g1
              else if g1.pos_x > bx then Game.moveLeft bx (g1.pos_x - bx).toNat g1
              else g1) = some g' := by
  unfold Game.aiMove at h
  rw [if_neg (by rw [hfin]; decide)] at h
  cases hb : computeBestMoveD fuel g.field g.current_piece g.current_color g.agent with
  | none => rw [hb] at h; cases h
  | some best =>
    rw [hb] at h
    simp only [] at h
    cases hrot : best.rotation with
    | none => rw [hrot] at h; cases h
    | some rotation =>
      cases hbx : best.x with
      | none => rw [hrot, hbx] at h; cases h
      | some bx =>
        rw [hrot, hbx] at h
        simp only [] at h
        cases hr : (intRange 0 rotation).foldlM (fun g _ => Game.rotate fuel g) g with
        | none => rw [hr] at h; cases h
        | some g1 =>
          rw [hr] at h
          exact ⟨best, rotation, bx, g1, rfl, hrot, hbx, hr, h⟩

theorem aiMove_pieceOnly (fuel : Nat) (g g' : Game) (h : g.aiMove fuel = some g') :
    PieceOnly g g' := by
  by_cases hfin : g.finished = true
  · unfold Game.aiMove at h
    rw [if_pos hfin] at h
    rw [← Option.some.inj h]
    exact pieceOnly_refl g
  · obtain ⟨best, rotation, bx, g1, _, _, _, hr, hd⟩ :=
      aiMove_unfold fuel g g' (by simpa using hfin) h
    refine pieceOnly_trans _ _ _ (rotations_pieceOnly _ _ _ _ hr)
      (pieceOnly_trans _ _ _ ?_ (dropLoop_spec _ _ _ hd).1)
    split
    · exact moveRight_pieceOnly _ _ _
    · split
      · exact moveLeft_pieceOnly _ _ _
      · exact pieceOnly_refl _

theorem handle_input_pieceOnly (fuel : Nat) (g g' : Game) (key : Int)
    (h : g.handle_input fuel key = some g') : PieceOnly g g' := by
  unfold Game.handle_input at h
  split at h
  · split at h
    · rw [← Option.some.inj h]
      split
      · exact pieceOnly_moved g _ _ _
      · exact pieceOnly_refl g
    · split at h
      · rw [← Option.some.inj h]
        split
        · exact pieceOnly_moved g _ _ _
        · exact pieceOnly_refl g
      · split at h
        · rw [← Option.some.inj h]
          split
          · exact pieceOnly_moved g _ _ _
          · exact pieceOnly_refl g
        · split at h
          · exact rotate_pieceOnly _ _ _ h
          · rw [← Option.some.inj h]
            exact pieceOnly_refl g
  · rw [← Option.some.inj h]
    exact pieceOnly_refl g


/-! ## Planning on every tick -/

theorem handle_input_aiMode (fuel : Nat) (g : Game) (key : Int) (hai : g.aiMode = true) :
    g.handle_input fuel key = some g := by
  unfold Game.handle_input
  rw [if_neg]
  rintro ⟨h, _⟩
  exact h hai

theorem tick_aiMode (fuel : Nat) (g : Game) (ch elapsed : Int) (type : Nat)
    (hfin : g.finished = false) (hai : g.aiMode = true) :
    g.tick fuel ch elapsed type
      = (g.aiMove fuel).map fun g2 =>
          if elapsed > max 100 (1000 - (g2.level - 1) * 100) then g2.update type else g2 := by
  unfold Game.tick
  rw [if_neg (by rw [hfin]; decide)]
  have h1 : (if ch ≠ ERR then g.handle_input fuel ch else some g) = some g := by
    split
    · exact handle_input_aiMode fuel g ch hai
    · rfl
  rw [h1]
  simp only [hai, if_true]
  cases g.aiMove fuel with
  | none => rfl
  | some g2 =>
    simp only [Option.map_some']
    split <;> rfl


/-! ## Rotation that fails -/

/-- The failing input of C14, evaluated: `wellGame` is an unfinished human-driven session
whose piece does not collide; after the rotate key the mask is unchanged, `pos_x` is 5
instead of 3, and the piece collides. -/
theorem handle_input_rotate_collides :
    wellGame.finished = false ∧ wellGame.aiMode = false ∧ wellGame.collision 0 0 = false
      ∧ wellGame.rotate 3 = some { wellGame with pos_x := 5 }
      ∧ wellGame.handle_input 3 32 = some { wellGame with pos_x := 5 }
      ∧ ({ wellGame with pos_x := 5 } : Game).collision 0 0 = true := by
  decide!


/-! ## At most four lines per lock -/

theorem fullCount_eq_zero_iff (b : Board) :
    fullCount b = 0 ↔ ∀ row ∈ b, occupiedRow row = false := by
  unfold fullCount
  rw [List.length_eq_zero, List.filter_eq_nil_iff]
  simp

theorem fullCount_append (b1 b2 : Board) : fullCount (b1 ++ b2) = fullCount b1 + fullCount b2 := by
  unfold fullCount
  rw [List.filter_append, List.length_append]

theorem fullCount_le_length (b : Board) : fullCount b ≤ b.length :=
  List.length_filter_le _ _

/-- When every fully occupied row of a board has its index in a window of 4 rows starting
at `lo`, the board has at most 4 fully occupied rows. -/
theorem fullCount_window (b : Board) (lo : Int)
    (h : ∀ r, ∀ hr : r < b.length, occupiedRow b[r] = true → lo ≤ (r : Int) ∧ (r : Int) ≤ lo + 3) :
    fullCount b ≤ 4 := by
  have hsplit : b = b.take lo.toNat ++ ((b.drop lo.toNat).take 4 ++ (b.drop lo.toNat).drop 4) := by
    rw [List.take_append_drop, List.take_append_drop]
  have h1 : fullCount (b.take lo.toNat) = 0 := by
    rw [fullCount_eq_zero_iff]
    intro row hrow
    obtain ⟨i, hi, rfl⟩ := List.getElem_of_mem hrow
    rw [List.getElem_take]
    by_contra hocc
    have hlen : i < b.length := by
      rw [List.length_take] at hi
      omega
    have := h i hlen (by simpa using hocc)
    rw [List.length_take] at hi
    omega
  have h3 : fullCount ((b.drop lo.toNat).drop 4) = 0 := by
    rw [fullCount_eq_zero_iff]
    intro row hrow
    obtain ⟨i, hi, rfl⟩ := List.getElem_of_mem hrow
    rw [List.getElem_drop, List.getElem_drop]
    by_contra hocc
    have hlen : lo.toNat + (4 + i) < b.length := by
      rw [List.length_drop, List.length_drop] at hi
      omega
    have := h (lo.toNat + (4 + i)) hlen (by simpa using hocc)
    push_cast at this
    omega
  have h2 : fullCount ((b.drop lo.toNat).take 4) ≤ 4 := by
    refine le_trans (fullCount_le_length _) ?_
    rw [List.length_take]
    omega
  rw [hsplit, fullCount_append, fullCount_append, h1, h3]
  omega

/-- After a merge into a field that has no fully occupied row, only the rows
`pos_y .. pos_y + 3` can be fully occupied. -/
theorem merged_full_rows (board : Board) (piece : Mask) (pos_x pos_y color : Int)
    (hwf : WellFormed board) (h0 : fullCount board = 0) (r : Nat)
    (hr : r < (simMerge board piece pos_x pos_y color).length)
    (hocc : occupiedRow (simMerge board piece pos_x pos_y color)[r] = true) :
    pos_y ≤ (r : Int) ∧ (r : Int) ≤ pos_y + 3 := by
  obtain ⟨hwfm, _, hsame⟩ := simMerge_spec board piece pos_x pos_y color hwf
  by_contra hout
  have hrb : r < board.length := by rw [hwf.1, ← hwfm.1]; exact hr
  have hcells : ∀ c, cellAt (simMerge board piece pos_x pos_y color) r c = cellAt board r c := by
    intro c
    apply hsame
    rintro ⟨py, hpy, _, _, _, hy, _⟩
    apply hout
    omega
  have hfull : occupiedRow board[r] = true := by
    rw [occupiedRow_iff] at hocc ⊢
    intro x hx
    have hlenb : (board[r]).length = WIDTH := hwf.2 _ (List.getElem_mem hrb)
    have hlenm : ((simMerge board piece pos_x pos_y color)[r]).length = WIDTH :=
      hwfm.2 _ (List.getElem_mem hr)
    have := hocc x (by rw [hlenm, ← hlenb]; exact hx)
    have hc := hcells x
    unfold cellAt at hc
    rw [List.getD_eq_getElem _ _ hr, List.getD_eq_getElem _ _ hrb] at hc
    rw [← hc]
    exact this
  have := (fullCount_eq_zero_iff board).mp h0 _ (List.getElem_mem hrb)
  rw [hfull] at this
  cases this

theorem merged_fullCount_le (board : Board) (piece : Mask) (pos_x pos_y color : Int)
    (hwf : WellFormed board) (h0 : fullCount board = 0) :
    fullCount (simMerge board piece pos_x pos_y color) ≤ 4 :=
  fullCount_window _ pos_y fun r hr hocc =>
    merged_full_rows board piece pos_x pos_y color hwf h0 r hr hocc

theorem topRowHit_iff (field : Board) (xs : List Nat) :
    Game.topRowHit field xs = true ↔ ∃ x ∈ xs, cellAt field 0 x ≠ 0 := by
  induction xs with
  | nil => simp [Game.topRowHit]
  | cons x xs ih =>
    rw [Game.topRowHit, List.exists_mem_cons_iff]
    by_cases h : cellAt field 0 x = 0
    · rw [if_neg (by simp [h]), ih]
      exact ⟨fun h' => Or.inr h', fun h' => h'.resolve_left (fun hh => hh h)⟩
    · rw [if_pos (by simp [h])]
      exact ⟨fun _ => Or.inl h, fun _ => rfl⟩

theorem top_row_empty (field : Board) (hwf : WellFormed field)
    (h : Game.topRowHit field (List.range WIDTH) = false) : field.getD 0 [] = emptyRow := by
  have hlen : 0 < field.length := by rw [hwf.1]; decide
  have hrow : (field[0]).length = WIDTH := hwf.2 _ (List.getElem_mem hlen)
  unfold emptyRow
  rw [List.getD_eq_getElem _ _ hlen, List.eq_replicate_iff]
  refine ⟨hrow, fun v hv => ?_⟩
  obtain ⟨i, hi, rfl⟩ := List.getElem_of_mem hv
  by_contra hne
  have hhit : Game.topRowHit field (List.range WIDTH) = true := by
    rw [topRowHit_iff]
    refine ⟨i, List.mem_range.mpr (by rw [← hrow]; exact hi), ?_⟩
    unfold cellAt
    rw [List.getD_eq_getElem _ _ hlen, List.getD_eq_getElem _ _ hi]
    exact hne
  rw [h] at hhit
  cases hhit

theorem keptRows_eq_self (b : Board) (h0 : fullCount b = 0) : keptRows b = b := by
  unfold keptRows
  rw [List.filter_eq_self]
  intro row hrow
  rw [(fullCount_eq_zero_iff b).mp h0 row hrow]
  rfl

theorem spawn_piece_field (g : Game) (type : Nat) : (g.spawn_piece type).field = g.field := by
  unfold Game.spawn_piece
  simp only []
  split <;> rfl

theorem spawn_piece_unfinished (g : Game) (type : Nat)
    (h : (g.spawn_piece type).finished = false) : g.finished = false := by
  unfold Game.spawn_piece at h
  simp only [] at h
  split at h
  · cases h
  · exact h

theorem fieldInv_of_pieceOnly (g g' : Game) (h : PieceOnly g g') (hinv : FieldInv g) :
    FieldInv g' := by
  unfold FieldInv at *
  rw [pieceOnly_field g g' h, pieceOnly_finished g g' h]
  exact hinv

theorem cleared_top_row (b : Board) (hwf : WellFormed b)
    (htop : b.getD 0 [] = emptyRow) :
    (List.replicate (fullCount b) emptyRow ++ keptRows b).getD 0 [] = emptyRow := by
  by_cases hk : fullCount b = 0
  · rw [hk, keptRows_eq_self b hk]
    exact htop
  · obtain ⟨k, hk'⟩ : ∃ k, fullCount b = k + 1 := ⟨fullCount b - 1, by omega⟩
    rw [hk', List.replicate_succ]
    rfl

theorem update_fieldInv (g : Game) (type : Nat) (hinv : FieldInv g) :
    FieldInv (g.update type) := by
  unfold Game.update
  by_cases hfin : g.finished = true
  · rw [if_pos hfin]
    exact hinv
  · rw [if_neg hfin]
    by_cases hc : g.collision 0 1 = true
    · rw [if_neg (not_not.mpr hc)]
      simp only []
      have hwfm : WellFormed g.merge_piece.field := by
        rw [merge_piece_field]
        exact (simMerge_spec _ _ _ _ _ hinv.1).1
      by_cases ht : Game.topRowHit g.merge_piece.field (List.range WIDTH) = true
      · rw [if_pos ht]
        exact ⟨hwfm, fun h => by cases h⟩
      · rw [if_neg ht]
        have hfield : (g.merge_piece.clear_lines.spawn_piece type).field
            = List.replicate (fullCount g.merge_piece.field) emptyRow
                ++ keptRows g.merge_piece.field := by
          rw [spawn_piece_field, clear_lines_field, clearLoop_eq _ hwfm]
        unfold FieldInv
        rw [hfield]
        refine ⟨cleared_wf _ hwfm, fun _ => ⟨fullCount_cleared _ _, ?_⟩⟩
        exact cleared_top_row _ hwfm (top_row_empty _ hwfm (by simpa using ht))
    · rw [if_pos hc]
      exact fieldInv_of_pieceOnly g _ (pieceOnly_moved g _ _ _) hinv

theorem tick_fieldInv (fuel : Nat) (g g' : Game) (ch elapsed : Int) (type : Nat)
    (h : g.tick fuel ch elapsed type = some g') (hinv : FieldInv g) : FieldInv g' := by
  unfold Game.tick at h
  by_cases hfin : g.finished = true
  · rw [if_pos hfin] at h
    rw [← Option.some.inj h]
    exact hinv
  · rw [if_neg hfin] at h
    cases h1 : (if ch ≠ ERR then g.handle_input fuel ch else some g) with
    | none => rw [h1] at h; cases h
    | some g1 =>
      rw [h1] at h
      simp only [] at h
      have hinv1 : FieldInv g1 := by
        split at h1
        · exact fieldInv_of_pieceOnly g g1 (handle_input_pieceOnly fuel g g1 ch h1) hinv
        · rw [← Option.some.inj h1]
          exact hinv
      cases h2 : (if g1.aiMode = true then g1.aiMove fuel else some g1) with
      | none => rw [h2] at h; cases h
      | some g2 =>
        rw [h2] at h
        simp only [] at h
        have hinv2 : FieldInv g2 := by
          split at h2
          · exact fieldInv_of_pieceOnly g1 g2 (aiMove_pieceOnly fuel g1 g2 h2) hinv1
          · rw [← Option.some.inj h2]
            exact hinv1
        split at h
        · rw [← Option.some.inj h]
          exact update_fieldInv g2 type hinv2
        · rw [← Option.some.inj h]
          exact hinv2

theorem new_fieldInv (ai : Bool) (agentParam : Agent) (type : Nat) (globalMaxScore : Int) :
    FieldInv (Game.new ai agentParam type globalMaxScore) := by
  unfold FieldInv Game.new
  rw [spawn_piece_field]
  exact ⟨(by decide : WellFormed emptyBoard), fun _ =>
    ⟨(by decide : fullCount emptyBoard = 0), (by decide : emptyBoard.getD 0 [] = emptyRow)⟩⟩

theorem reachable_fieldInv (g : Game) (hr : Reachable g) : FieldInv g := by
  induction hr with
  | init ai agentParam type globalMaxScore _ => exact new_fieldInv ai agentParam type globalMaxScore
  | tick g g' fuel ch elapsed type _ _ hstep ih => exact tick_fieldInv fuel g g' ch elapsed type hstep ih
  | update g type _ _ ih => exact update_fieldInv g type ih
  | aiMove g g' fuel _ hstep ih =>
    exact fieldInv_of_pieceOnly g g' (aiMove_pieceOnly fuel g g' hstep) ih
  | handle_input g g' fuel key _ hstep ih =>
    exact fieldInv_of_pieceOnly g g' (handle_input_pieceOnly fuel g g' key hstep) ih

/-- The counter `linesClearedTotal` grows by the number of fully occupied rows. -/
theorem clear_lines_total (g : Game) (hwf : WellFormed g.field) :
    g.clear_lines.linesClearedTotal = g.linesClearedTotal + (fullCount g.field : Int) := by
  have hloop := clearLoop_eq g.field hwf
  unfold Game.clear_lines
  simp only [hloop]
  split
  · rfl
  · rename_i h
    have : (fullCount g.field : Int) = 0 := by omega
    simp [this]

/-- Every state of a run from a reachable state is reachable. -/
theorem reachable_play (fuel : Nat) (ops : List (Int ⊕ Nat)) (g g' : Game) (hg : Reachable g)
    (h : play fuel g ops = some g') : Reachable g' := by
  induction ops generalizing g with
  | nil =>
    rw [play] at h
    rw [← Option.some.inj h]
    exact hg
  | cons op rest ih =>
    cases op with
    | inl key =>
      rw [play] at h
      cases hk : g.handle_input fuel key with
      | none => rw [hk] at h; cases h
      | some g1 =>
        rw [hk] at h
        exact ih g1 (Reachable.handle_input g g1 fuel key hg hk) h
    | inr type =>
      rw [play] at h
      by_cases ht : type < TETROMINOES.length
      · rw [if_pos ht] at h
        exact ih _ (Reachable.update g type ht hg) h
      · rw [if_neg ht] at h
        cases h

/-- The run `lineScript` from a new human-driven session, evaluated. -/
theorem lineScript_play :
    play 21 (Game.new false sampleAgent 0 0) lineScript = some lineGame := by
  decide!

/-- C19: in every unfinished session state reached from a newly constructed session by
`tick`, `update`, `aiMove` and `handle_input`, the field has `HEIGHT` rows of `WIDTH`
cells, no fully occupied row and an empty top row; so the `clear_lines` call that follows
`merge_piece` counts between 0 and 4 lines, its score table is not left by the `default`
branch, and `linesClearedTotal` grows by at most 4. -/
theorem reachable_at_most_four_lines (g : Game) (hr : Reachable g) (hfin : g.finished = false) :
    WellFormed g.field
      ∧ (∀ row ∈ g.field, occupiedRow row = false)
      ∧ g.field.getD 0 [] = emptyRow
      ∧ 0 ≤ (clearLoop g.merge_piece.field).2 ∧ (clearLoop g.merge_piece.field).2 ≤ 4
      ∧ ((clearLoop g.merge_piece.field).2 > 0 →
          baseScore (clearLoop g.merge_piece.field).2 = 40
            ∨ baseScore (clearLoop g.merge_piece.field).2 = 100
            ∨ baseScore (clearLoop g.merge_piece.field).2 = 300
            ∨ baseScore (clearLoop g.merge_piece.field).2 = 1200)
      ∧ g.merge_piece.clear_lines.linesClearedTotal ≤ g.linesClearedTotal + 4 := by
  obtain ⟨hwf, hinv⟩ := reachable_fieldInv g hr
  obtain ⟨h0, htop⟩ := hinv hfin
  have hwfm : WellFormed g.merge_piece.field := by
    rw [merge_piece_field]
    exact (simMerge_spec _ _ _ _ _ hwf).1
  have hle : fullCount g.merge_piece.field ≤ 4 := by
    rw [merge_piece_field]
    exact merged_fullCount_le _ _ _ _ _ hwf h0
  have hk : (clearLoop g.merge_piece.field).2 = (fullCount g.merge_piece.field : Int) := by
    rw [clearLoop_eq _ hwfm]
  have hk0 : (0 : Int) ≤ (clearLoop g.merge_piece.field).2 := by rw [hk]; omega
  have hk4 : (clearLoop g.merge_piece.field).2 ≤ 4 := by rw [hk]; omega
  refine ⟨hwf, (fullCount_eq_zero_iff _).mp h0, htop, hk0, hk4, ?_, ?_⟩
  · intro hpos
    generalize (clearLoop g.merge_piece.field).2 = k at hk0 hk4 hpos
    have : k = 1 ∨ k = 2 ∨ k = 3 ∨ k = 4 := by omega
    rcases this with rfl | rfl | rfl | rfl <;> simp [baseScore]
  · rw [clear_lines_total g.merge_piece hwfm]
    have : g.merge_piece.linesClearedTotal = g.linesClearedTotal := rfl
    rw [this]
    omega

theorem reachable_at_most_four_lines_witness :
    play 21 (Game.new false sampleAgent 0 0) lineScript = some lineGame
      ∧ lineGame.linesClearedTotal = 1 ∧ lineGame.score = 40
      ∧ lineGame.collision 0 1 = true
      ∧ (clearLoop lineGame.merge_piece.field).2 = 1
      ∧ baseScore (clearLoop lineGame.merge_piece.field).2 = 40
      ∧ WellFormed lineGame.field
      ∧ (∀ row ∈ lineGame.field, occupiedRow row = false)
      ∧ lineGame.field.getD 0 [] = emptyRow
      ∧ 0 ≤ (clearLoop lineGame.merge_piece.field).2
      ∧ (clearLoop lineGame.merge_piece.field).2 ≤ 4
      ∧ ((clearLoop lineGame.merge_piece.field).2 > 0 →
          baseScore (clearLoop lineGame.merge_piece.field).2 = 40
            ∨ baseScore (clearLoop lineGame.merge_piece.field).2 = 100
            ∨ baseScore (clearLoop lineGame.merge_piece.field).2 = 300
            ∨ baseScore (clearLoop lineGame.merge_piece.field).2 = 1200)
      ∧ lineGame.merge_piece.clear_lines.linesClearedTotal ≤ lineGame.linesClearedTotal + 4 :=
  ⟨lineScript_play, rfl, rfl, by decide, by decide!, by decide!,
    reachable_at_most_four_lines lineGame
      (reachable_play 21 lineScript (Game.new false sampleAgent 0 0) lineGame
        (Reachable.init false sampleAgent 0 0 (by decide)) lineScript_play)
      (by decide)⟩


/-! ## The steering loops leave by their own condition -/

/-- Started with the counter at `best.x - pos_x` or more, the loop of line 410 ends with
its condition `pos_x < best.x && !collision(1, 0)` false: the counter never cuts it
short. -/
theorem moveRight_exit (bx : Int) (n : Nat) (g : Game) (hn : bx - g.pos_x ≤ (n : Int)) :
    ¬ ((Game.moveRight bx n g).pos_x < bx ∧ ¬ (Game.moveRight bx n g).collision 1 0 = true) := by
  induction n generalizing g with
  | zero =>
    rw [Game.moveRight]
    rintro ⟨h, _⟩
    push_cast at hn
    omega
  | succ n ih =>
    rw [Game.moveRight]
    by_cases hc : g.pos_x < bx ∧ ¬ g.collision 1 0 = true
    · rw [if_pos hc]
      apply ih
      change bx - (g.pos_x + 1) ≤ (n : Int)
      push_cast at hn
      omega
    · rw [if_neg hc]
      exact hc

/-- Started with the counter at `pos_x - best.x` or more, the loop of line 412 ends with
its condition `pos_x > best.x && !collision(-1, 0)` false. -/
theorem moveLeft_exit (bx : Int) (n : Nat) (g : Game) (hn : g.pos_x - bx ≤ (n : Int)) :
    ¬ ((Game.moveLeft bx n g).pos_x > bx ∧ ¬ (Game.moveLeft bx n g).collision (-1) 0 = true) := by
  induction n generalizing g with
  | zero =>
    rw [Game.moveLeft]
    rintro ⟨h, _⟩
    push_cast at hn
    omega
  | succ n ih =>
    rw [Game.moveLeft]
    by_cases hc : g.pos_x > bx ∧ ¬ g.collision (-1) 0 = true
    · rw [if_pos hc]
      apply ih
      change g.pos_x - 1 - bx ≤ (n : Int)
      push_cast at hn
      omega
    · rw [if_neg hc]
      exact hc

/-! ## The planner in `double` arithmetic -/

theorem dbl_gt_irrefl (a : Dbl) : Dbl.gt a a = false := by
  cases a <;> simp [Dbl.gt]

theorem dbl_gt_not_nan (a b : Dbl) (h : Dbl.gt a b = true) : a ≠ Dbl.nan ∧ b ≠ Dbl.nan := by
  cases a <;> cases b <;> simp [Dbl.gt] at h ⊢

theorem dbl_not_gt_trans (c o e : Dbl) (h1 : Dbl.gt c o = false) (h2 : Dbl.gt e o = true) :
    Dbl.gt c e = false := by
  cases c <;> cases o <;> cases e <;> simp [Dbl.gt] at h1 h2 ⊢
  exact le_of_lt (lt_of_le_of_lt h1 h2)

theorem dbl_gt_of_not_gt (c o e : Dbl) (h1 : Dbl.gt c o = false) (hc : c ≠ Dbl.nan)
    (h2 : Dbl.gt e o = true) : Dbl.gt e c = true := by
  cases c <;> cases o <;> cases e <;> simp [Dbl.gt] at h1 h2 hc ⊢
  exact lt_of_le_of_lt h1 h2

theorem dbl_eq_of_not_gt (a b : Dbl) (ha : a ≠ Dbl.nan) (hb : b ≠ Dbl.nan)
    (h1 : Dbl.gt a b = false) (h2 : Dbl.gt b a = false) : a = b := by
  cases a <;> cases b <;> simp [Dbl.gt] at h1 h2 ha hb ⊢
  exact le_antisymm h1 h2

/-- One iteration of the `x` loop in `double` arithmetic keeps the planner invariant and
does not run out of fuel. -/
theorem planStepD_inv (fuel : Nat) (board : Board) (piece : Mask) (color : Int) (agent : Agent)
    (hlen : piece.length = 16) (hne : NonEmptyMask piece) (hfuel : HEIGHT + 1 ≤ fuel)
    (r0 x0 : Int) (hr0 : 0 ≤ r0) (hr4 : r0 < 4) (hx0 : -4 ≤ x0) (hxW : x0 < (WIDTH : Int))
    (mv : MoveD) (hinv : PlanInvD board piece color agent r0 x0 mv) :
    ∃ mv', planStepD fuel board (rotN r0.toNat piece) color agent r0 mv x0 = some mv'
      ∧ PlanInvD board piece color agent r0 (x0 + 1) mv' := by
  obtain ⟨_, hn⟩ := rotN_shape r0.toNat piece hlen hne
  obtain ⟨y0, hscan, hy0, hy0H, hcoll, hfree⟩ :=
    dropScan_spec board (rotN r0.toNat piece) hn x0 fuel 0 (le_refl _)
      (by exact_mod_cast Nat.zero_le _) (by omega)
  unfold planStepD
  rw [hscan]
  simp only []
  by_cases hy : y0 - 1 < 0
  · rw [if_pos hy]
    refine ⟨mv, rfl, ?_⟩
    have hy00 : y0 = 0 := by omega
    have hill : ∀ y, ¬ Legal board piece r0 x0 y := by
      intro y hL
      apply hL.2.2.2.2.2.1 0 (le_refl _) hL.2.2.2.2.1
      rw [← hy00]
      exact hcoll
    rcases hinv with ⟨hmv, hnone⟩ | ⟨r, x, y, hmv, hL, hB, hgt, hall⟩
    · left
      refine ⟨hmv, fun r x y hL hB => ?_⟩
      rw [before_succ] at hB
      rcases hB with hB | ⟨rfl, rfl⟩
      · exact hnone _ _ _ hL hB
      · exact absurd hL (hill y)
    · right
      refine ⟨r, x, y, hmv, hL, (before_succ _ _ _ _).mpr (Or.inl hB), hgt,
        fun r' x' y' hL' hB' => ?_⟩
      rw [before_succ] at hB'
      rcases hB' with hB' | ⟨rfl, rfl⟩
      · exact hall _ _ _ hL' hB'
      · exact absurd hL' (hill y')
  · rw [if_neg hy]
    have hrest : RestsAt board (rotN r0.toNat piece) x0 (y0 - 1) := by
      refine ⟨fun y' h1 h2 => hfree y' h1 (by omega), ?_⟩
      rw [sub_add_cancel]
      exact hcoll
    have hL0 : Legal board piece r0 x0 (y0 - 1) := ⟨hr0, hr4, hx0, hxW, by omega, hrest⟩
    have huniq : ∀ y', Legal board piece r0 x0 y' → y' = y0 - 1 := fun y' hL' =>
      restsAt_unique _ _ _ _ _ hL'.2.2.2.2.1 (by omega) hL'.2.2.2.2.2 hrest
    have hself : Before r0 x0 r0 (x0 + 1) := (before_succ _ _ _ _).mpr (Or.inr ⟨rfl, rfl⟩)
    change ∃ mv', (if Dbl.gt (candScoreD board piece color agent r0 x0 (y0 - 1)) mv.score = true
        then some { rotation := some r0, x := some x0,
                    score := candScoreD board piece color agent r0 x0 (y0 - 1) }
        else some mv) = some mv' ∧ PlanInvD board piece color agent r0 (x0 + 1) mv'
    rcases hinv with ⟨hmv, hnone⟩ | ⟨r, x, y, hmv, hL, hB, hgt0, hall⟩
    · subst hmv
      by_cases hgt : Dbl.gt (candScoreD board piece color agent r0 x0 (y0 - 1)) Dbl.ninf = true
      · rw [if_pos hgt]
        refine ⟨_, rfl, Or.inr ⟨r0, x0, y0 - 1, rfl, hL0, hself, hgt,
          fun r' x' y' hL' hB' => ?_⟩⟩
        rw [before_succ] at hB'
        rcases hB' with hB' | ⟨rfl, rfl⟩
        · have hle := hnone r' x' y' hL' hB'
          exact ⟨dbl_not_gt_trans _ _ _ hle hgt, fun _ hnan => dbl_gt_of_not_gt _ _ _ hle hnan hgt⟩
        · rw [huniq y' hL']
          exact ⟨dbl_gt_irrefl _, fun hb => absurd hb (before_irrefl _ _)⟩
      · rw [if_neg hgt]
        refine ⟨_, rfl, Or.inl ⟨rfl, fun r' x' y' hL' hB' => ?_⟩⟩
        rw [before_succ] at hB'
        rcases hB' with hB' | ⟨rfl, rfl⟩
        · exact hnone r' x' y' hL' hB'
        · rw [huniq y' hL']
          simpa using hgt
    · subst hmv
      by_cases hgt : Dbl.gt (candScoreD board piece color agent r0 x0 (y0 - 1))
          (candScoreD board piece color agent r x y) = true
      · rw [if_pos hgt]
        refine ⟨_, rfl, Or.inr ⟨r0, x0, y0 - 1, rfl, hL0, hself,
          dbl_gt_of_not_gt _ _ _ rfl (by simp) hgt, fun r' x' y' hL' hB' => ?_⟩⟩
        rw [before_succ] at hB'
        rcases hB' with hB' | ⟨rfl, rfl⟩
        · have hle := (hall r' x' y' hL' hB').1
          exact ⟨dbl_not_gt_trans _ _ _ hle hgt, fun _ hnan => dbl_gt_of_not_gt _ _ _ hle hnan hgt⟩
        · rw [huniq y' hL']
          exact ⟨dbl_gt_irrefl _, fun hb => absurd hb (before_irrefl _ _)⟩
      · rw [if_neg hgt]
        refine ⟨_, rfl, Or.inr ⟨r, x, y, rfl, hL,
          (before_succ _ _ _ _).mpr (Or.inl hB), hgt0, fun r' x' y' hL' hB' => ?_⟩⟩
        rw [before_succ] at hB'
        rcases hB' with hB' | ⟨rfl, rfl⟩
        · exact hall _ _ _ hL' hB'
        · rw [huniq y' hL']
          exact ⟨by simpa using hgt, fun hb => absurd hb (before_asymm _ _ _ _ hB)⟩

theorem planInvD_next_rotation (board : Board) (piece : Mask) (color : Int) (agent : Agent)
    (r0 : Int) (mv : MoveD) (h : PlanInvD board piece color agent r0 (WIDTH : Int) mv) :
    PlanInvD board piece color agent (r0 + 1) (-4) mv := by
  have hconv : ∀ r x y, Legal board piece r x y →
      (Before r x r0 (WIDTH : Int) ↔ Before r x (r0 + 1) (-4)) := by
    intro r x y hL
    obtain ⟨_, _, h3, h4, _, _⟩ := hL
    unfold Before
    omega
  rcases h with ⟨hmv, hnone⟩ | ⟨r, x, y, hmv, hL, hB, hgt, hall⟩
  · left
    exact ⟨hmv, fun r x y hL hB => hnone r x y hL ((hconv r x y hL).mpr hB)⟩
  · right
    exact ⟨r, x, y, hmv, hL, (hconv r x y hL).mp hB, hgt,
      fun r' x' y' hL' hB' => hall r' x' y' hL' ((hconv r' x' y' hL').mpr hB')⟩

/-- One iteration of the `r` loop in `double` arithmetic: the `x` loop finishes, the mask
is turned once more, and the planner invariant moves on to the next rotation. -/
theorem planRotationD_inv (fuel : Nat) (board : Board) (piece : Mask) (color : Int)
    (agent : Agent) (hlen : piece.length = 16) (hne : NonEmptyMask piece)
    (hfuel : HEIGHT + 1 ≤ fuel) (r0 : Int) (hr0 : 0 ≤ r0) (hr4 : r0 < 4) (st : Mask × MoveD)
    (hst : st.1 = rotN r0.toNat piece) (hinv : PlanInvD board piece color agent r0 (-4) st.2) :
    ∃ st', planRotationD fuel board color agent st r0 = some st'
      ∧ st'.1 = rotN (r0 + 1).toNat piece
      ∧ PlanInvD board piece color agent (r0 + 1) (-4) st'.2 := by
  unfold planRotationD
  rw [hst]
  obtain ⟨mv', hloop, hQ⟩ :=
    foldlM_intRange_elim (planStepD fuel board (rotN r0.toNat piece) color agent r0)
      (fun x mv => PlanInvD board piece color agent r0 x mv) (-4) (WIDTH : Int)
      (by unfold WIDTH; omega) st.2 hinv
      (fun v b h1 h2 hq =>
        planStepD_inv fuel board piece color agent hlen hne hfuel r0 v hr0 hr4 h1 h2 b hq)
  rw [hloop]
  refine ⟨_, rfl, ?_, planInvD_next_rotation _ _ _ _ _ _ hQ⟩
  have : (r0 + 1).toNat = r0.toNat + 1 := by omega
  rw [this, rotN_succ]

/-- With enough fuel for every drop scan, `computeBestMoveD` returns, and what it returns
satisfies the planner invariant over all candidates. -/
theorem computeBestMoveD_inv (fuel : Nat) (board : Board) (piece : Mask) (color : Int)
    (agent : Agent) (hlen : piece.length = 16) (hne : NonEmptyMask piece)
    (hfuel : HEIGHT + 1 ≤ fuel) :
    ∃ mv, computeBestMoveD fuel board piece color agent = some mv
      ∧ PlanInvD board piece color agent 4 (-4) mv := by
  unfold computeBestMoveD
  obtain ⟨st, hloop, _, hQ⟩ :=
    foldlM_intRange_elim (planRotationD fuel board color agent)
      (fun r st => st.1 = rotN r.toNat piece ∧ PlanInvD board piece color agent r (-4) st.2)
      0 4 (by omega) (piece, { rotation := none, x := none, score := Dbl.ninf })
      ⟨rfl, Or.inl ⟨rfl, fun r x y hL hB => by
        obtain ⟨h1, _, h3, _, _, _⟩ := hL
        unfold Before at hB
        omega⟩⟩
      (fun v st h1 h2 hq =>
        planRotationD_inv fuel board piece color agent hlen hne hfuel v h1 h2 st hq.1 hq.2)
  rw [hloop]
  exact ⟨st.2, rfl, hQ⟩

theorem candScoreD_of_nat (board : Board) (piece : Mask) (color : Int) (agent : Agent) (r : Nat)
    (x y : Int) :
    candScoreD board piece color agent (r : Int) x y
      = evaluateBoardD (simulateDrop board (rotN r piece) x y color) agent := by
  unfold candScoreD
  rw [Int.toNat_ofNat]

/-- The resting row read off the drop scan: when the scan from row 0 stops at row
`y + 1` with `y >= 0`, the mask rests at row `y`. -/
theorem restsAt_of_dropScan (board : Board) (piece : Mask) (hne : NonEmptyMask piece) (x y : Int)
    (fuel : Nat) (hfuel : HEIGHT + 1 ≤ fuel) (h : dropScan board piece x fuel 0 = some (y + 1)) :
    RestsAt board piece x y := by
  obtain ⟨y0, hscan, _, _, hcoll, hfree⟩ :=
    dropScan_spec board piece hne x fuel 0 (le_refl _) (by exact_mod_cast Nat.zero_le _)
      (by omega)
  rw [h] at hscan
  have h0 : y + 1 = y0 := Option.some.inj hscan
  subst h0
  exact ⟨fun y' h1 h2 => hfree y' h1 (by omega), hcoll⟩

/-! ## Planner evaluations in `double` arithmetic -/

/-- The planner evaluated on the empty board and the T piece with the weights 0.1, 0.3,
0.2, 1.0: rotation 3 in column 0 (aggregate height 6, 2 holes, bumpiness 2), whose score
is `-4.199999999999999` in `double` arithmetic. Rotation 1 in column -1 (aggregate height
4, no hole, bumpiness 3) comes before it and has the same score `-4.2` in exact arithmetic,
but `-4.2000000000000002` in `double` arithmetic. -/
theorem computeBestMoveD_emptyBoard_maskT :
    computeBestMoveD 21 emptyBoard maskT 4 decimalAgent
      = some { rotation := some 3, x := some 0,
               score := Dbl.fin (-1182194902184755 / 281474976710656) } := by
  decide!

/-- The planner evaluated on `shaftBoard` and the J piece with the weights of `hugeAgent`. -/
theorem computeBestMoveD_shaftBoard_maskJ :
    computeBestMoveD 21 shaftBoard maskJ 6 hugeAgent
      = some { rotation := some 0, x := some 5, score := Dbl.pinf } := by
  decide!

/-- The planner evaluated on `shaftBoard` and the O piece with the weights of
`heightAgent`: nothing is assigned. -/
theorem computeBestMoveD_shaftBoard_maskO :
    computeBestMoveD 21 shaftBoard maskO 3 heightAgent
      = some { rotation := none, x := none, score := Dbl.ninf } := by
  decide!

/-! ## Planner tie-break -/

/-- C3, as stated, fails for weights of large magnitude: with the height weight `-1e308`
and the holes weight `1e308` the planner returns rotation 0, column 5 with score
`+infinity` for the J piece on `shaftBoard`, while the legal candidate rotation 0, column 3
(resting at row 14, over three holes) precedes it with a score `+infinity - +infinity`, a
NaN, which is not less than `+infinity`. -/
theorem computeBestMove_tie_break_counterexample :
    WellFormed shaftBoard ∧ maskJ.length = 16
      ∧ computeBestMoveD 21 shaftBoard maskJ 6 hugeAgent
          = some { rotation := some 0, x := some 5, score := Dbl.pinf }
      ∧ RestsAt shaftBoard (rotN 0 maskJ) 3 14
      ∧ evaluateBoardD (simulateDrop shaftBoard (rotN 0 maskJ) 3 14 6) hugeAgent = Dbl.nan
      ∧ Dbl.gt Dbl.pinf
          (evaluateBoardD (simulateDrop shaftBoard (rotN 0 maskJ) 3 14 6) hugeAgent) = false :=
  ⟨by decide, by decide, computeBestMoveD_shaftBoard_maskJ,
    restsAt_of_dropScan shaftBoard (rotN 0 maskJ) (by decide) 3 14 21 (by decide) (by decide!),
    by decide!, by decide!⟩

/-- C3, amended: when the move returned by `computeBestMove` (in `double` arithmetic) holds
`(r*, x*, s*)`, `s*` is not a NaN, and every legal candidate `(r, x)` visited before
`(r*, x*)` (smaller rotation, or the same rotation and a smaller column) has a score
strictly less than `s*` or a score that is a NaN; so a legal candidate that scores exactly
`s*` is `(r*, x*)` itself or comes after it. -/
theorem computeBestMoveD_tie_break (fuel : Nat) (board : Board) (piece : Mask) (color : Int)
    (agent : Agent) (hwf : WellFormed board) (hlen : piece.length = 16)
    (hne : NonEmptyMask piece) (hfuel : HEIGHT + 1 ≤ fuel) :
    ∃ mv, computeBestMoveD fuel board piece color agent = some mv ∧
      ∀ (rs xs : Int), mv.rotation = some rs → mv.x = some xs →
        mv.score ≠ Dbl.nan ∧
        ∀ (r : Nat) (x y : Int), r < 4 → -4 ≤ x → x < (WIDTH : Int) → 0 ≤ y →
          RestsAt board (rotN r piece) x y →
          (((r : Int) < rs ∨ ((r : Int) = rs ∧ x < xs)) →
            Dbl.gt mv.score
                (evaluateBoardD (simulateDrop board (rotN r piece) x y color) agent) = true
              ∨ evaluateBoardD (simulateDrop board (rotN r piece) x y color) agent = Dbl.nan)
          ∧ (evaluateBoardD (simulateDrop board (rotN r piece) x y color) agent = mv.score →
            rs < (r : Int) ∨ (rs = (r : Int) ∧ xs ≤ x)) := by
  obtain ⟨mv, hmv, hinv⟩ := computeBestMoveD_inv fuel board piece color agent hlen hne hfuel
  refine ⟨mv, hmv, fun rs xs h1 h2 => ?_⟩
  rcases hinv with ⟨hnone, _⟩ | ⟨r, x, y, hsome, hL, _, hgt, hall⟩
  · rw [hnone] at h1
    cases h1
  · rw [hsome] at h1 h2 ⊢
    cases h1
    cases h2
    have hnan := (dbl_gt_not_nan _ _ hgt).1
    refine ⟨hnan, ?_⟩
    intro r' x' y' hr' hx' hxW' hy' hrest'
    have hL' := legal_of_nat board piece r' x' y' hr' hx' hxW' hy' hrest'
    have hlt := (hall _ _ _ hL' (legal_before_end _ _ _ _ _ hL')).2
    rw [candScoreD_of_nat] at hlt
    refine ⟨fun hb => ?_, fun heq => ?_⟩
    · by_cases hn : evaluateBoardD (simulateDrop board (rotN r' piece) x' y' color) agent
          = Dbl.nan
      · exact Or.inr hn
      · exact Or.inl (hlt hb hn)
    · by_contra hcon
      have hb : Before (r' : Int) x' rs xs := by
        unfold Before
        omega
      have := hlt hb (by rw [heq]; exact hnan)
      rw [heq, dbl_gt_irrefl] at this
      cases this

theorem computeBestMoveD_tie_break_witness :
    computeBestMoveD 21 emptyBoard maskT 4 decimalAgent
        = some { rotation := some 3, x := some 0,
                 score := Dbl.fin (-1182194902184755 / 281474976710656) }
      ∧ RestsAt emptyBoard (rotN 1 maskT) (-1) 17
      ∧ evaluateBoardD (simulateDrop emptyBoard (rotN 1 maskT) (-1) 17 4) decimalAgent
          = Dbl.fin (-4728779608739021 / 1125899906842624)
      ∧ evaluateBoard (simulateDrop emptyBoard (rotN 1 maskT) (-1) 17 4) decimalAgent
          = evaluateBoard (simulateDrop emptyBoard (rotN 3 maskT) 0 17 4) decimalAgent
      ∧ RestsAt emptyBoard (rotN 3 maskT) 7 17
      ∧ evaluateBoardD (simulateDrop emptyBoard (rotN 3 maskT) 7 17 4) decimalAgent
          = Dbl.fin (-1182194902184755 / 281474976710656)
      ∧ Dbl.fin (-1182194902184755 / 281474976710656) ≠ Dbl.nan
      ∧ ∀ (r : Nat) (x y : Int), r < 4 → -4 ≤ x → x < (WIDTH : Int) → 0 ≤ y →
          RestsAt emptyBoard (rotN r maskT) x y →
          (((r : Int) < 3 ∨ ((r : Int) = 3 ∧ x < 0)) →
            Dbl.gt (Dbl.fin (-1182194902184755 / 281474976710656))
                (evaluateBoardD (simulateDrop emptyBoard (rotN r maskT) x y 4) decimalAgent)
                = true
              ∨ evaluateBoardD (simulateDrop emptyBoard (rotN r maskT) x y 4) decimalAgent
                  = Dbl.nan)
          ∧ (evaluateBoardD (simulateDrop emptyBoard (rotN r maskT) x y 4) decimalAgent
                = Dbl.fin (-1182194902184755 / 281474976710656) →
            3 < (r : Int) ∨ (3 = (r : Int) ∧ 0 ≤ x)) := by
  obtain ⟨mv, hmv, h⟩ := computeBestMoveD_tie_break 21 emptyBoard maskT 4 decimalAgent
    (by decide) (by decide) (by decide) (by decide)
  rw [computeBestMoveD_emptyBoard_maskT] at hmv
  cases hmv
  exact ⟨computeBestMoveD_emptyBoard_maskT,
    restsAt_of_dropScan emptyBoard (rotN 1 maskT) (by decide) (-1) 17 21 (by decide)
      (by decide!),
    by decide!, by decide!,
    restsAt_of_dropScan emptyBoard (rotN 3 maskT) (by decide) 7 17 21 (by decide) (by decide!),
    by decide!, h 3 0 rfl rfl⟩

/-! ## When the planner assigns a move -/

/-- An `aiMove` whose plan has no assigned rotation and column reads them unassigned. -/
theorem aiMove_unassigned (fuel : Nat) (g : Game) (s : Dbl) (hfin : g.finished = false)
    (h : computeBestMoveD fuel g.field g.current_piece g.current_color g.agent
      = some { rotation := none, x := none, score := s }) : g.aiMove fuel = none := by
  unfold Game.aiMove
  rw [if_neg (by rw [hfin]; decide), h]

/-- C20, as stated, fails for a finite height weight of large magnitude: with the weights
`[0, 1e308, 0, 0]` every placement of the O piece on `shaftBoard` scores `-infinity` (the
product `1e308 * aggHeight` overflows), the test `eval > bestMove.score` is never true, and
the planner returns score `-infinity` with rotation and column never assigned, although
the piece does not collide at `(3, 0)`, its spawn position; `aiMove` then reads the
unassigned fields. -/
theorem computeBestMove_assigned_counterexample :
    WellFormed shaftBoard ∧ maskO.length = 16 ∧ NonEmptyMask maskO
      ∧ plannerColl shaftBoard (rotN 0 maskO) 3 0 = false
      ∧ RestsAt shaftBoard (rotN 0 maskO) 3 14
      ∧ evaluateBoardD (simulateDrop shaftBoard (rotN 0 maskO) 3 14 3) heightAgent = Dbl.ninf
      ∧ computeBestMoveD 21 shaftBoard maskO 3 heightAgent
          = some { rotation := none, x := none, score := Dbl.ninf }
      ∧ heightGame.finished = false ∧ heightGame.pos_x = (WIDTH : Int).tdiv 2 - 2
      ∧ heightGame.pos_y = 0 ∧ heightGame.collision = false
      ∧ heightGame.aiMove 21 = none :=
  ⟨by decide, by decide, by decide, by decide,
    restsAt_of_dropScan shaftBoard (rotN 0 maskO) (by decide) 3 14 21 (by decide) (by decide!),
    by decide!, computeBestMoveD_shaftBoard_maskO, rfl, by decide, rfl, by decide,
    aiMove_unassigned 21 heightGame Dbl.ninf rfl computeBestMoveD_shaftBoard_maskO⟩

/-- C20, amended: on a board of `HEIGHT` rows of `WIDTH` cells and a 16-cell mask with an
occupied cell, `computeBestMove` (in `double` arithmetic) returns a move whose `rotation`
and `x` are assigned exactly when some rotation `r` in `0..3` and column `x` in
`-4..WIDTH-1` have the mask rotated `r` times rest at a row `y >= 0` with a score that
compares greater than `-infinity` (neither `-infinity` nor a NaN); otherwise the score is
still `-infinity` and neither field was assigned. In particular both are assigned when a
session holds that board and mask unrotated at the spawn position `(WIDTH / 2 - 2, 0)`
without collision and the drop from there scores greater than `-infinity`. -/
theorem computeBestMoveD_assigned_iff (fuel : Nat) (board : Board) (piece : Mask) (color : Int)
    (agent : Agent) (hwf : WellFormed board) (hlen : piece.length = 16)
    (hne : NonEmptyMask piece) (hfuel : HEIGHT + 1 ≤ fuel) :
    ∃ mv, computeBestMoveD fuel board piece color agent = some mv
      ∧ ((∃ rs xs, mv.rotation = some rs ∧ mv.x = some xs) ↔
          ∃ r : Nat, r < 4 ∧ ∃ x y : Int, -4 ≤ x ∧ x < (WIDTH : Int) ∧ 0 ≤ y ∧
            RestsAt board (rotN r piece) x y ∧
            Dbl.gt (evaluateBoardD (simulateDrop board (rotN r piece) x y color) agent)
              Dbl.ninf = true)
      ∧ ((¬ ∃ r : Nat, r < 4 ∧ ∃ x y : Int, -4 ≤ x ∧ x < (WIDTH : Int) ∧ 0 ≤ y ∧
            RestsAt board (rotN r piece) x y ∧
            Dbl.gt (evaluateBoardD (simulateDrop board (rotN r piece) x y color) agent)
              Dbl.ninf = true) →
          mv = { rotation := none, x := none, score := Dbl.ninf })
      ∧ ∀ g : Game, g.field = board → g.current_piece = piece →
          g.pos_x = (WIDTH : Int).tdiv 2 - 2 → g.pos_y = 0 → g.collision = false →
          (∀ y : Int, 0 ≤ y → RestsAt board piece ((WIDTH : Int).tdiv 2 - 2) y →
            Dbl.gt (evaluateBoardD
              (simulateDrop board piece ((WIDTH : Int).tdiv 2 - 2) y color) agent)
              Dbl.ninf = true) →
          ∃ rs xs, mv.rotation = some rs ∧ mv.x = some xs := by
  obtain ⟨mv, hmv, hinv⟩ := computeBestMoveD_inv fuel board piece color agent hlen hne hfuel
  have hiff : (∃ rs xs, mv.rotation = some rs ∧ mv.x = some xs) ↔
      ∃ r : Nat, r < 4 ∧ ∃ x y : Int, -4 ≤ x ∧ x < (WIDTH : Int) ∧ 0 ≤ y ∧
        RestsAt board (rotN r piece) x y ∧
        Dbl.gt (evaluateBoardD (simulateDrop board (rotN r piece) x y color) agent)
          Dbl.ninf = true := by
    constructor
    · rintro ⟨rs, xs, h1, _⟩
      rcases hinv with ⟨hnone, _⟩ | ⟨r, x, y, _, hL, _, hgt, _⟩
      · rw [hnone] at h1
        cases h1
      · exact ⟨r.toNat, by have := hL.1; have := hL.2.1; omega, x, y, hL.2.2.1, hL.2.2.2.1,
          hL.2.2.2.2.1, hL.2.2.2.2.2, hgt⟩
    · rintro ⟨r, hr, x, y, hx, hxW, hy, hrest, hgt⟩
      rcases hinv with ⟨_, hnone⟩ | ⟨rs, xs, ys, hsome, _, _, _, _⟩
      · exfalso
        have hL := legal_of_nat board piece r x y hr hx hxW hy hrest
        have := hnone _ _ _ hL (legal_before_end _ _ _ _ _ hL)
        rw [candScoreD_of_nat, hgt] at this
        cases this
      · exact ⟨rs, xs, by rw [hsome], by rw [hsome]⟩
  refine ⟨mv, hmv, hiff, ?_, ?_⟩
  · intro hno
    rcases hinv with ⟨hnone, _⟩ | ⟨rs, xs, ys, hsome, _, _, _, _⟩
    · exact hnone
    · exact absurd (hiff.mp ⟨rs, xs, by rw [hsome], by rw [hsome]⟩) hno
  · intro g hg1 hg2 hg3 hg4 hcol hscore
    apply hiff.mpr
    have hfree : plannerColl board piece ((WIDTH : Int).tdiv 2 - 2) 0 = false := by
      have := plannerColl_eq_collision g 0 0
      rw [hg1, hg2, hg3, hg4] at this
      simp only [add_zero] at this
      rw [this]
      exact hcol
    obtain ⟨y, hL⟩ := (legal_iff_free_at_zero board piece hlen hne 0
      ((WIDTH : Int).tdiv 2 - 2) (by omega) (by omega) (by decide) (by decide)).mpr hfree
    exact ⟨0, by omega, (WIDTH : Int).tdiv 2 - 2, y, by decide, by decide, hL.2.2.2.2.1,
      hL.2.2.2.2.2, hscore y hL.2.2.2.2.1 hL.2.2.2.2.2⟩

theorem computeBestMoveD_assigned_iff_witness :
    computeBestMoveD 21 emptyBoard maskT 4 decimalAgent
        = some { rotation := some 3, x := some 0,
                 score := Dbl.fin (-1182194902184755 / 281474976710656) }
      ∧ RestsAt emptyBoard (rotN 3 maskT) 0 17
      ∧ Dbl.gt (evaluateBoardD (simulateDrop emptyBoard (rotN 3 maskT) 0 17 4) decimalAgent)
          Dbl.ninf = true
      ∧ decimalGame.collision = false
      ∧ RestsAt emptyBoard maskT ((WIDTH : Int).tdiv 2 - 2) 17
      ∧ Dbl.gt (evaluateBoardD
          (simulateDrop emptyBoard maskT ((WIDTH : Int).tdiv 2 - 2) 17 4) decimalAgent)
          Dbl.ninf = true
      ∧ ∃ mv, computeBestMoveD 21 emptyBoard maskT 4 decimalAgent = some mv
        ∧ ((∃ rs xs, mv.rotation = some rs ∧ mv.x = some xs) ↔
            ∃ r : Nat, r < 4 ∧ ∃ x y : Int, -4 ≤ x ∧ x < (WIDTH : Int) ∧ 0 ≤ y ∧
              RestsAt emptyBoard (rotN r maskT) x y ∧
              Dbl.gt (evaluateBoardD (simulateDrop emptyBoard (rotN r maskT) x y 4) decimalAgent)
                Dbl.ninf = true)
        ∧ ((¬ ∃ r : Nat, r < 4 ∧ ∃ x y : Int, -4 ≤ x ∧ x < (WIDTH : Int) ∧ 0 ≤ y ∧
              RestsAt emptyBoard (rotN r maskT) x y ∧
              Dbl.gt (evaluateBoardD (simulateDrop emptyBoard (rotN r maskT) x y 4) decimalAgent)
                Dbl.ninf = true) →
            mv = { rotation := none, x := none, score := Dbl.ninf })
        ∧ ∀ g : Game, g.field = emptyBoard → g.current_piece = maskT →
            g.pos_x = (WIDTH : Int).tdiv 2 - 2 → g.pos_y = 0 → g.collision = false →
            (∀ y : Int, 0 ≤ y → RestsAt emptyBoard maskT ((WIDTH : Int).tdiv 2 - 2) y →
              Dbl.gt (evaluateBoardD
                (simulateDrop emptyBoard maskT ((WIDTH : Int).tdiv 2 - 2) y 4) decimalAgent)
                Dbl.ninf = true) →
            ∃ rs xs, mv.rotation = some rs ∧ mv.x = some xs :=
  ⟨computeBestMoveD_emptyBoard_maskT,
    restsAt_of_dropScan emptyBoard (rotN 3 maskT) (by decide) 0 17 21 (by decide) (by decide!),
    by decide!, by decide,
    restsAt_of_dropScan emptyBoard maskT (by decide) ((WIDTH : Int).tdiv 2 - 2) 17 21
      (by decide) (by decide!),
    by decide!,
    computeBestMoveD_assigned_iff 21 emptyBoard maskT 4 decimalAgent
      (by decide) (by decide) (by decide) (by decide)⟩

/-! ## Planning again on the same piece -/

theorem rotN_add (a b : Nat) (piece : Mask) : rotN a (rotN b piece) = rotN (a + b) piece := by
  unfold rotN
  rw [Function.iterate_add_apply]

theorem rotN_four (piece : Mask) (h : piece.length = 16) : rotN 4 piece = piece := by
  obtain ⟨a0, a1, a2, a3, a4, a5, a6, a7, a8, a9, a10, a11, a12, a13, a14, a15, rfl⟩ :=
    mask16_eq piece h
  simp only [rotN, Function.iterate_succ, Function.iterate_zero, Function.comp, id,
    rotatePiece_eq]

theorem rotN_mod4 (piece : Mask) (h : piece.length = 16) (n : Nat) :
    rotN n piece = rotN (n % 4) piece := by
  induction n using Nat.strong_induction_on with
  | _ n ih =>
    by_cases hn : n < 4
    · rw [Nat.mod_eq_of_lt hn]
    · have h1 : n = (n - 4) + 4 := by omega
      have h2 : n % 4 = (n - 4) % 4 := by omega
      rw [h2, ← ih (n - 4) (by omega)]
      nth_rewrite 1 [h1]
      rw [← rotN_add, rotN_four piece h]

/-- The mask turned `rs` times and then `r` times is the mask turned `(rs + r) mod 4`
times. -/
theorem rotN_rot (piece : Mask) (h : piece.length = 16) (rs r : Int) (hrs : 0 ≤ rs)
    (hr : 0 ≤ r) : rotN r.toNat (rotN rs.toNat piece) = rotN ((rs + r) % 4).toNat piece := by
  rw [rotN_add, rotN_mod4 piece h (r.toNat + rs.toNat)]
  congr 1
  omega

/-- Planning again from the planned rotation: when the planner returns rotation `rs` and
column `xs` for a mask, it returns rotation 0 and column `xs` for that mask turned `rs`
times. -/
theorem computeBestMoveD_replan (fuel : Nat) (board : Board) (piece : Mask) (color : Int)
    (agent : Agent) (hlen : piece.length = 16) (hne : NonEmptyMask piece)
    (hfuel : HEIGHT + 1 ≤ fuel) (rs xs : Int) (s : Dbl)
    (hplan : computeBestMoveD fuel board piece color agent
      = some { rotation := some rs, x := some xs, score := s }) :
    ∃ s2, computeBestMoveD fuel board (rotN rs.toNat piece) color agent
      = some { rotation := some 0, x := some xs, score := s2 } := by
  obtain ⟨mv1, hmv1, hinv1⟩ := computeBestMoveD_inv fuel board piece color agent hlen hne hfuel
  rw [hplan] at hmv1
  rw [← Option.some.inj hmv1] at hinv1
  rcases hinv1 with ⟨hnone, _⟩ | ⟨r, x, y, hsome, hL, _, hgt, hall⟩
  · cases hnone
  · cases hsome
    obtain ⟨hlen2, hne2⟩ := rotN_shape rs.toNat piece hlen hne
    obtain ⟨mv2, hmv2, hinv2⟩ :=
      computeBestMoveD_inv fuel board (rotN rs.toNat piece) color agent hlen2 hne2 hfuel
    have hr0 := hL.1
    have hr4 := hL.2.1
    have hLmap : ∀ r' x' y', Legal board (rotN rs.toNat piece) r' x' y' →
        Legal board piece ((rs + r') % 4) x' y' := by
      intro r' x' y' h
      obtain ⟨h1, h2, h3, h4, h5, h6⟩ := h
      refine ⟨by omega, by omega, h3, h4, h5, ?_⟩
      rw [← rotN_rot piece hlen rs r' hr0 h1]
      exact h6
    have hSmap : ∀ r' x' y', 0 ≤ r' →
        candScoreD board (rotN rs.toNat piece) color agent r' x' y'
          = candScoreD board piece color agent ((rs + r') % 4) x' y' := by
      intro r' x' y' h1
      unfold candScoreD
      rw [rotN_rot piece hlen rs r' hr0 h1]
    have hr00 : (rs + 0) % 4 = rs := by omega
    have hL0 : Legal board (rotN rs.toNat piece) 0 xs y :=
      ⟨le_refl _, by omega, hL.2.2.1, hL.2.2.2.1, hL.2.2.2.2.1, hL.2.2.2.2.2⟩
    have hS0 : candScoreD board (rotN rs.toNat piece) color agent 0 xs y
        = candScoreD board piece color agent rs xs y := by
      rw [hSmap 0 xs y (le_refl _), hr00]
    rcases hinv2 with ⟨_, hno⟩ | ⟨r2, x2, y2, hsome2, hL2, _, hgt2, hall2⟩
    · have := hno 0 xs y hL0 (legal_before_end _ _ _ _ _ hL0)
      rw [hS0, hgt] at this
      cases this
    · have hL2m := hLmap r2 x2 y2 hL2
      have e1 := hall _ _ _ hL2m (legal_before_end _ _ _ _ _ hL2m)
      have e2 := hall2 0 xs y hL0 (legal_before_end _ _ _ _ _ hL0)
      rw [hS0, hSmap r2 x2 y2 hL2.1] at e2
      rw [hSmap r2 x2 y2 hL2.1] at hgt2
      have hn1 := (dbl_gt_not_nan _ _ hgt).1
      have hn2 := (dbl_gt_not_nan _ _ hgt2).1
      have heq := dbl_eq_of_not_gt _ _ hn1 hn2 e2.1 e1.1
      have hr2 : r2 = 0 ∧ x2 = xs := by
        by_contra hcon
        by_cases hb : Before 0 xs r2 x2
        · have := e2.2 hb hn1
          rw [heq, dbl_gt_irrefl] at this
          cases this
        · have hb1 : Before ((rs + r2) % 4) x2 rs xs := by
            have := hL2.1
            unfold Before at hb ⊢
            omega
          have := e1.2 hb1 hn2
          rw [heq, dbl_gt_irrefl] at this
          cases this
      refine ⟨candScoreD board (rotN rs.toNat piece) color agent 0 xs y2, ?_⟩
      rw [hmv2, hsome2, hr2.1, hr2.2]

/-- An `aiMove` on an unfinished session whose plan is rotation `rs`, column `xs`: the
rotations, the steering and the drop. -/
theorem aiMove_planned (fuel : Nat) (g : Game) (rs xs : Int) (s : Dbl)
    (hfin : g.finished = false)
    (hplan : computeBestMoveD fuel g.field g.current_piece g.current_color g.agent
      = some { rotation := some rs, x := some xs, score := s }) :
    g.aiMove fuel
      = ((intRange 0 rs).foldlM (fun g _ => Game.rotate fuel g) g).bind fun g1 =>
          Game.dropLoop fuel
            (if g1.pos_x < xs then Game.moveRight xs (xs - g1.pos_x).toNat g1
              else if g1.pos_x > xs then Game.moveLeft xs (g1.pos_x - xs).toNat g1
              else g1) := by
  unfold Game.aiMove
  rw [if_neg (by rw [hfin]; decide), hplan]
  simp only []
  cases (intRange 0 rs).foldlM (fun g _ => Game.rotate fuel g) g <;> rfl

theorem pieceOnly_aiMode (g g' : Game) (h : PieceOnly g g') : g'.aiMode = g.aiMode :=
  (congrArg Game.aiMode h).trans rfl

theorem pieceOnly_agent (g g' : Game) (h : PieceOnly g g') : g'.agent = g.agent :=
  (congrArg Game.agent h).trans rfl

theorem pieceOnly_color (g g' : Game) (h : PieceOnly g g') :
    g'.current_color = g.current_color :=
  (congrArg Game.current_color h).trans rfl

/-- The planner evaluated on `overhangBoard` and the I piece. -/
theorem computeBestMoveD_overhangBoard_maskI :
    computeBestMoveD 21 overhangBoard maskI 1 sampleAgent
      = some { rotation := some 0, x := some 1, score := Dbl.fin (-169) } := by
  decide!

/-- C13, as stated, fails: `overhangGame` is an unfinished automatic-mode session; its
first tick plans column 1 and steers the piece as far as the tower lets it, which is
nowhere: it stays at column 3 and drops to row 12; the next tick on the same piece plans
again and steers again, now under the tower, leaving the piece at column 1, row 16. -/
theorem tick_replans_counterexample :
    overhangGame.finished = false ∧ overhangGame.aiMode = true
      ∧ computeBestMoveD 21 overhangGame.field overhangGame.current_piece
          overhangGame.current_color overhangGame.agent
          = some { rotation := some 0, x := some 1, score := Dbl.fin (-169) }
      ∧ overhangGame.aiMove 21 = some overhangAfterFirst
      ∧ overhangAfterFirst.aiMove 21 = some overhangAfterSecond
      ∧ overhangGame.tick 21 ERR 0 0 = some overhangAfterFirst
      ∧ overhangAfterFirst.tick 21 ERR 0 0 = some overhangAfterSecond
      ∧ overhangAfterFirst.pos_x = 3 ∧ overhangAfterFirst.pos_y = 12
      ∧ overhangAfterSecond.pos_x = 1 ∧ overhangAfterSecond.pos_y = 16 := by
  have h1 : overhangGame.aiMove 21 = some overhangAfterFirst :=
    (aiMove_planned 21 overhangGame 0 1 _ rfl computeBestMoveD_overhangBoard_maskI).trans
      (by decide!)
  have h2 : overhangAfterFirst.aiMove 21 = some overhangAfterSecond :=
    (aiMove_planned 21 overhangAfterFirst 0 1 _ rfl
      computeBestMoveD_overhangBoard_maskI).trans (by decide!)
  refine ⟨rfl, rfl, computeBestMoveD_overhangBoard_maskI, h1, h2, ?_, ?_, rfl, rfl, rfl, rfl⟩
  · rw [tick_aiMode 21 overhangGame ERR 0 0 rfl rfl, h1]
    rfl
  · rw [tick_aiMode 21 overhangAfterFirst ERR 0 0 rfl rfl, h2]
    rfl

/-- C13, amended: nothing records that a piece was planned, and a tick of an unfinished
automatic-mode session plans and steers again. When the first `aiMove` has brought the
piece to the planned rotation and the planned column, the planner run by the next `aiMove`
on the same piece returns rotation 0 and the column the piece is in, that `aiMove` leaves
the session exactly as the first left it, and a tick then changes the session by
`update` alone. -/
theorem aiMove_again_at_plan (fuel : Nat) (g g1 : Game) (rs xs : Int) (s : Dbl)
    (ch elapsed : Int) (type : Nat)
    (hfin : g.finished = false) (hai : g.aiMode = true)
    (hlen : g.current_piece.length = 16) (hne : NonEmptyMask g.current_piece)
    (hfuel : HEIGHT + 1 ≤ fuel)
    (hplan : computeBestMoveD fuel g.field g.current_piece g.current_color g.agent
      = some { rotation := some rs, x := some xs, score := s })
    (h1 : g.aiMove fuel = some g1)
    (hrot : g1.current_piece = rotN rs.toNat g.current_piece) (hx : g1.pos_x = xs) :
    (∃ s2, computeBestMoveD fuel g1.field g1.current_piece g1.current_color g1.agent
        = some { rotation := some 0, x := some g1.pos_x, score := s2 })
      ∧ g1.aiMove fuel = some g1
      ∧ g1.tick fuel ch elapsed type
          = some (if elapsed > max 100 (1000 - (g1.level - 1) * 100) then g1.update type
              else g1) := by
  subst hx
  have hpo := aiMove_pieceOnly fuel g g1 h1
  have hfin1 : g1.finished = false := by rw [pieceOnly_finished g g1 hpo]; exact hfin
  have hai1 : g1.aiMode = true := by rw [pieceOnly_aiMode g g1 hpo]; exact hai
  obtain ⟨_, _, _, _, _, _, _, _, hd⟩ := aiMove_unfold fuel g g1 hfin h1
  obtain ⟨_, hrest, _⟩ := dropLoop_spec _ _ _ hd
  obtain ⟨s2, h2⟩ := computeBestMoveD_replan fuel g.field g.current_piece g.current_color
    g.agent hlen hne hfuel rs g1.pos_x s hplan
  have h2a : computeBestMoveD fuel g1.field g1.current_piece g1.current_color g1.agent
      = some { rotation := some 0, x := some g1.pos_x, score := s2 } := by
    rw [pieceOnly_field g g1 hpo, hrot, pieceOnly_color g g1 hpo, pieceOnly_agent g g1 hpo]
    exact h2
  have hagain : g1.aiMove fuel = some g1 := by
    obtain ⟨n, rfl⟩ : ∃ n, fuel = n + 1 := ⟨fuel - 1, by unfold HEIGHT at hfuel; omega⟩
    rw [aiMove_planned (n + 1) g1 0 g1.pos_x s2 hfin1 h2a]
    have h0 : intRange 0 0 = [] := rfl
    rw [h0]
    change Game.dropLoop (n + 1)
        (if g1.pos_x < g1.pos_x then Game.moveRight g1.pos_x (g1.pos_x - g1.pos_x).toNat g1
          else if g1.pos_x > g1.pos_x then Game.moveLeft g1.pos_x (g1.pos_x - g1.pos_x).toNat g1
          else g1) = some g1
    rw [if_neg (lt_irrefl _), if_neg (lt_irrefl _), Game.dropLoop, if_neg (not_not.mpr hrest)]
  refine ⟨⟨s2, h2a⟩, hagain, ?_⟩
  rw [tick_aiMode fuel g1 ch elapsed type hfin1 hai1, hagain]
  simp only [Option.map_some']

theorem aiMove_again_at_plan_witness :
    computeBestMoveD 21 decimalGame.field decimalGame.current_piece decimalGame.current_color
        decimalGame.agent
        = some { rotation := some 3, x := some 0,
                 score := Dbl.fin (-1182194902184755 / 281474976710656) }
      ∧ decimalGame.aiMove 21 = some decimalAfterFirst
      ∧ decimalAfterFirst.current_piece = rotN 3 decimalGame.current_piece
      ∧ decimalAfterFirst.pos_x = 0 ∧ decimalAfterFirst.pos_y = 17
      ∧ (∃ s2, computeBestMoveD 21 decimalAfterFirst.field decimalAfterFirst.current_piece
            decimalAfterFirst.current_color decimalAfterFirst.agent
          = some { rotation := some 0, x := some decimalAfterFirst.pos_x, score := s2 })
      ∧ decimalAfterFirst.aiMove 21 = some decimalAfterFirst
      ∧ decimalAfterFirst.tick 21 ERR 0 0
          = some (if (0 : Int) > max 100 (1000 - (decimalAfterFirst.level - 1) * 100)
              then decimalAfterFirst.update 0 else decimalAfterFirst) :=
  have h1 : decimalGame.aiMove 21 = some decimalAfterFirst :=
    (aiMove_planned 21 decimalGame 3 0 _ rfl computeBestMoveD_emptyBoard_maskT).trans
      (by decide!)
  ⟨computeBestMoveD_emptyBoard_maskT, h1, rfl, rfl, rfl,
    aiMove_again_at_plan 21 decimalGame decimalAfterFirst 3 0
      (Dbl.fin (-1182194902184755 / 281474976710656)) ERR 0 0
      rfl rfl (by decide) (by decide) (by decide) computeBestMoveD_emptyBoard_maskT h1 rfl rfl⟩

end Tetris
